import Mathlib

/-!
# bl_modconv: a shallow embedding of `bl_modconv.js`

The script reads a `.blend` file into a Node `Buffer`, reads the 12-byte file
header, asks the Kaitai parser for the SDNA index of a modifier data struct,
walks the file blocks and patches the enum field of every matching `DATA`
block in place, and finally writes the buffer to a new file when at least one
block was patched.

Modelling conventions.

* A JavaScript number is an `Int`; an index that may be `NaN` is an
  `Option Int` (`none` is `NaN`), a value that may be `undefined` is an
  `Option`.
* The bitwise operators work on 32-bit two's complement (`ToInt32`,
  `ToUint32` of ECMAScript) and return a signed 32-bit integer.
* A `Buffer` is a view (offset and length) on a byte memory; `slice` makes a
  view on the same memory, so a store through a slice is a store in the
  memory of the file.
* `die` ends the process: a function that may call it returns `Except Error`.
* The `while (true)` loop takes fuel.
-/

namespace BlModconv

/-! ## Numbers -/

/-- One element of a `Buffer`. -/
abbrev Byte := Fin 256

/-- ECMAScript `ToUint32` of an integral number. -/
def toUint32 (x : Int) : Nat := (x % 4294967296).toNat

/-- The signed 32-bit integer with the given 32-bit pattern. -/
def int32OfBits (n : Nat) : Int :=
  if n % 4294967296 < 2147483648 then ((n % 4294967296 : Nat) : Int)
  else ((n % 4294967296 : Nat) : Int) - 4294967296

/-- ECMAScript `ToInt32` of an integral number. -/
def toInt32 (x : Int) : Int := int32OfBits (toUint32 x)

/-- ECMAScript `ToUint8`, the conversion of a store into a `Uint8Array`. -/
def toUint8 (x : Int) : Byte := Fin.ofNat (x % 256).toNat

/-- JavaScript `a | b`. -/
def jsOr (a b : Int) : Int := int32OfBits (toUint32 a ||| toUint32 b)

/-- JavaScript `a & b`. -/
def jsAnd (a b : Int) : Int := int32OfBits (toUint32 a &&& toUint32 b)

/-- JavaScript `a << k`. -/
def jsShl (a : Int) (k : Nat) : Int := int32OfBits (toUint32 a <<< (k % 32))

/-- JavaScript `a >> k` (sign-propagating). -/
def jsSar (a : Int) (k : Nat) : Int := toInt32 a / ((2 ^ (k % 32) : Nat) : Int)

/-- The number a buffer element stands for under a bitwise operator:
`undefined` converts to `0`. -/
def elemNum : Option Byte → Int
  | some b => (b.val : Int)
  | none => 0

/-! ## Buffers -/

/-- A Node `Buffer`: a view of `length` bytes at `byteOffset` in `mem`. -/
structure Buffer where
  mem : List Byte
  byteOffset : Nat
  length : Nat
deriving DecidableEq, Repr

/-- The buffer `fs.readFileSync` returns for a file with the given bytes. -/
def Buffer.ofBytes (bytes : List Byte) : Buffer := ⟨bytes, 0, bytes.length⟩

/-- The bytes a buffer shows. -/
def Buffer.bytes (b : Buffer) : List Byte := (b.mem.drop b.byteOffset).take b.length

/-- The element `buffer[i]`; `undefined` outside the view and at `NaN`. -/
def Buffer.get (b : Buffer) : Option Int → Option Byte
  | some i => if 0 ≤ i ∧ i < b.length then b.mem[b.byteOffset + i.toNat]? else none
  | none => none

/-- The store `buffer[i] = v`; nothing is stored outside the view or at `NaN`. -/
def Buffer.set (b : Buffer) (idx : Option Int) (v : Int) : Buffer :=
  match idx with
  | some i =>
    if 0 ≤ i ∧ i < b.length then
      { b with mem := b.mem.set (b.byteOffset + i.toNat) (toUint8 v) }
    else b
  | none => b

/-- Node's `adjustOffset` of `Buffer.prototype.slice`. -/
def adjustOffset (offset : Int) (length : Nat) : Nat :=
  if offset = 0 then 0
  else if offset < 0 then (if offset + length > 0 then (offset + length).toNat else 0)
  else if offset < length then offset.toNat
  else length

/-- The view `buffer.slice(start, end)`; `stop = none` is an absent `end`. -/
def Buffer.slice (b : Buffer) (start : Int) (stop : Option Int) : Buffer :=
  let s := adjustOffset start b.length
  let e := match stop with
    | some x => adjustOffset x b.length
    | none => b.length
  ⟨b.mem, b.byteOffset + s, if e > s then e - s else 0⟩

/-! ## Strings -/

/-- The character U+FFFD. -/
def replacementChar : Char := Char.ofNat 0xFFFD

/-- The state of the UTF-8 decoder between two bytes. -/
structure Utf8State where
  codePoint : Nat
  bytesSeen : Nat
  bytesNeeded : Nat
  lower : Nat
  upper : Nat
deriving DecidableEq, Repr

/-- The decoder state between two characters. -/
def Utf8State.init : Utf8State := ⟨0, 0, 0, 0x80, 0xBF⟩

/-- The decoder on a byte that starts a character: the next state and the
characters given out. -/
def utf8Lead (b : Nat) : Utf8State × List Char :=
  if b ≤ 0x7F then (Utf8State.init, [Char.ofNat b])
  else if 0xC2 ≤ b ∧ b ≤ 0xDF then (⟨b &&& 0x1F, 0, 1, 0x80, 0xBF⟩, [])
  else if 0xE0 ≤ b ∧ b ≤ 0xEF then
    (⟨b &&& 0xF, 0, 2, if b = 0xE0 then 0xA0 else 0x80, if b = 0xED then 0x9F else 0xBF⟩, [])
  else if 0xF0 ≤ b ∧ b ≤ 0xF4 then
    (⟨b &&& 0x7, 0, 3, if b = 0xF0 then 0x90 else 0x80, if b = 0xF4 then 0x8F else 0xBF⟩, [])
  else (Utf8State.init, [replacementChar])

/-- The UTF-8 decoding of `toString("utf-8")`: an ill-formed sequence gives
U+FFFD and the byte that ended it is decoded again. -/
def utf8Decode : Utf8State → List Byte → List Char
  | st, [] => if st.bytesNeeded = 0 then [] else [replacementChar]
  | st, b :: rest =>
    if st.bytesNeeded = 0 then
      (utf8Lead b.val).2 ++ utf8Decode (utf8Lead b.val).1 rest
    else if b.val < st.lower ∨ st.upper < b.val then
      replacementChar :: ((utf8Lead b.val).2 ++ utf8Decode (utf8Lead b.val).1 rest)
    else if st.bytesSeen + 1 = st.bytesNeeded then
      Char.ofNat ((st.codePoint <<< 6) ||| (b.val &&& 0x3F)) :: utf8Decode Utf8State.init rest
    else
      utf8Decode
        ⟨(st.codePoint <<< 6) ||| (b.val &&& 0x3F), st.bytesSeen + 1, st.bytesNeeded, 0x80, 0xBF⟩
        rest

/-- The code points `String.prototype.trim` removes: WhiteSpace and
LineTerminator of ECMAScript. -/
def isJsWhitespace (c : Char) : Bool :=
  let n := c.toNat
  n = 0x09 || n = 0x0A || n = 0x0B || n = 0x0C || n = 0x0D || n = 0x20 || n = 0xA0 ||
  n = 0x1680 || (0x2000 ≤ n && n ≤ 0x200A) || n = 0x2028 || n = 0x2029 || n = 0x202F ||
  n = 0x205F || n = 0x3000 || n = 0xFEFF

/-- JavaScript `trim()`. -/
def jsTrim (s : List Char) : List Char := (s.dropWhile isJsWhitespace).rdropWhile isJsWhitespace

/-- JavaScript `replace(/\0/g, "")`. -/
def removeNul (s : List Char) : List Char := s.filter (fun c => c.toNat ≠ 0)

/-- The function `readString`. -/
def readString (buffer : Buffer) (offset : Int) (len : Int) : String :=
  String.mk (removeNul (jsTrim (utf8Decode Utf8State.init
    (buffer.slice offset (some (offset + len))).bytes)))

/-- JavaScript `s.replace(pat, rep)` for a pattern that is a literal string
and a replacement without `$`: the first occurrence is replaced. -/
def replaceFirst (pat rep : List Char) : List Char → List Char
  | [] => if pat = [] then rep else []
  | c :: cs =>
    if pat.isPrefixOf (c :: cs) then rep ++ (c :: cs).drop pat.length
    else c :: replaceFirst pat rep cs

/-! ## The program -/

deriving instance DecidableEq for Except

/-- The ways the program ends through `die`. -/
inductive Error
  /-- The text is "Not a blender file format". -/
  | notBlender
  /-- The text is "Unsupported endianness". -/
  | unsupportedEndianness
  /-- The text is "Unexpected modifier name while patching data block". -/
  | unexpectedModifierName
  /-- The text is "Unexpected modifier enum type while patching data block". -/
  | unexpectedEnumType
deriving DecidableEq, Repr

/-- The constant `PTR_SIZE_32`. -/
def PTR_SIZE_32 : Byte := 0x5f
/-- The constant `PTR_SIZE_64`. -/
def PTR_SIZE_64 : Byte := 0x2d
/-- The constant `BE`. -/
def BE : Byte := 0x56
/-- The constant `LE`. -/
def LE : Byte := 0x76

/-- The table `PTR_SIZE_BYTE_LEN`, looked up at a buffer element: a key that
is not in the table gives `undefined`. -/
def PTR_SIZE_BYTE_LEN (key : Option Byte) : Option Nat :=
  if key = some PTR_SIZE_32 then some 4
  else if key = some PTR_SIZE_64 then some 8
  else none

/-- The object `fileConfig` after `readHeader`: both fields are what the
header gave, `undefined` included. -/
structure FileConfig where
  endian : Option Byte
  ptrSize : Option Nat
deriving DecidableEq, Repr

/-- The sum `offset + k` of an index that may be `NaN`. -/
def idxAdd (offset : Option Int) (k : Int) : Option Int := offset.map (fun o => o + k)

/-- The product `2 * ptrSize`: `NaN` when `ptrSize` is `undefined`. -/
def twice (ptrSize : Option Nat) : Option Int :=
  match ptrSize with
  | some p => some (2 * (p : Int))
  | none => none

/-- The function `readUint32`. -/
def readUint32 (cfg : FileConfig) (buffer : Buffer) (offset : Option Int) : Except Error Int :=
  if cfg.endian = some LE then
    .ok (jsOr (jsOr (jsOr (elemNum (buffer.get (idxAdd offset 0)))
      (jsShl (elemNum (buffer.get (idxAdd offset 1))) 8))
      (jsShl (elemNum (buffer.get (idxAdd offset 2))) 16))
      (jsShl (elemNum (buffer.get (idxAdd offset 3))) 24))
  else if cfg.endian = some BE then
    .ok (jsOr (jsOr (jsOr (elemNum (buffer.get (idxAdd offset 3)))
      (jsShl (elemNum (buffer.get (idxAdd offset 2))) 8))
      (jsShl (elemNum (buffer.get (idxAdd offset 1))) 16))
      (jsShl (elemNum (buffer.get (idxAdd offset 0))) 24))
  else .error .unsupportedEndianness

/-- The function `writeUint32`: the buffer after the four stores. -/
def writeUint32 (cfg : FileConfig) (buffer : Buffer) (offset : Option Int) (uint32 : Int) :
    Except Error Buffer :=
  if cfg.endian = some LE then
    .ok ((((buffer.set (idxAdd offset 0) (jsAnd uint32 0xff)).set
      (idxAdd offset 1) (jsSar (jsAnd uint32 0xff00) 8)).set
      (idxAdd offset 2) (jsSar (jsAnd uint32 0xff0000) 16)).set
      (idxAdd offset 3) (jsSar (jsAnd uint32 0xff000000) 24))
  else if cfg.endian = some BE then
    .ok ((((buffer.set (idxAdd offset 3) (jsAnd uint32 0xff)).set
      (idxAdd offset 2) (jsSar (jsAnd uint32 0xff00) 8)).set
      (idxAdd offset 1) (jsSar (jsAnd uint32 0xff0000) 16)).set
      (idxAdd offset 0) (jsSar (jsAnd uint32 0xff000000) 24))
  else .error .unsupportedEndianness

/-- The object `readFileBlockHeader` returns. -/
structure FileBlockHeader where
  code : String
  bodyLength : Int
  sdnaIndex : Int
  count : Int
  length : Int
  absoluteBodyOffset : Int
deriving DecidableEq, Repr

/-- The function `readFileBlockHeader`. -/
def readFileBlockHeader (cfg : FileConfig) (buffer : Buffer) (offset : Int) :
    Except Error FileBlockHeader :=
  match readUint32 cfg buffer (some (4 + offset)) with
  | .error e => .error e
  | .ok bodyLength =>
    match readUint32 cfg buffer (some (16 + offset)) with
    | .error e => .error e
    | .ok sdnaIndex =>
      match readUint32 cfg buffer (some (20 + offset)) with
      | .error e => .error e
      | .ok count =>
        .ok { code := readString buffer (0 + offset) 4
              bodyLength := bodyLength
              sdnaIndex := sdnaIndex
              count := count
              length := 24
              absoluteBodyOffset := 24 + offset }

/-- The function `patchFileBlock`: the body view after the store, or the
error `die` was called with. -/
def patchFileBlock (cfg : FileConfig) (fileBlock : Buffer) (fileBlockHeader : FileBlockHeader)
    (modifierName : String) (oldEnumType newEnumType : Int) : Except Error Buffer :=
  let modifierTypeDnaFieldOffset : Option Int := twice cfg.ptrSize
  let modifierNameDnaFieldOffset : Int := 32
  let fileBlockBody := fileBlock.slice fileBlockHeader.length none
  let actualModifierName := readString fileBlockBody modifierNameDnaFieldOffset 64
  match readUint32 cfg fileBlockBody modifierTypeDnaFieldOffset with
  | .error e => .error e
  | .ok actualOldEnumType =>
    if modifierName ≠ actualModifierName then .error .unexpectedModifierName
    else if oldEnumType ≠ actualOldEnumType then .error .unexpectedEnumType
    else writeUint32 cfg fileBlockBody modifierTypeDnaFieldOffset newEnumType

/-- The function `readHeader`; the two markers are read from `fileContent`. -/
def readHeader (fileContent : Buffer) (buffer : Buffer) (offset : Int) : Except Error FileConfig :=
  let magic := readString buffer (0 + offset) 7
  if "BLENDER" ≠ magic then .error .notBlender
  else .ok { ptrSize := PTR_SIZE_BYTE_LEN (fileContent.get (some (7 + offset)))
             endian := fileContent.get (some (8 + offset)) }

/-- One entry of `dna1.body.structs`. -/
structure DnaStruct where
  idxType : Nat
deriving DecidableEq, Repr

/-- The body of the `DNA1` block as the Kaitai parser `BlenderBlend` gives it:
the parser is not part of the sources, so its result is a parameter. -/
structure Dna1Body where
  types : List String
  structs : List DnaStruct
deriving DecidableEq, Repr

/-- JavaScript `Array.prototype.findIndex`. -/
def findIndex {α : Type} (p : α → Bool) (l : List α) : Int :=
  if l.findIdx p < l.length then (l.findIdx p : Int) else -1

/-- The function `lookupSdnaIndexForModifierDataStruct`, from the parsed body
of the `DNA1` block on. -/
def lookupSdnaIndexForModifierDataStruct (dna1 : Dna1Body) (modifierDataTypeName : String) : Int :=
  let idxType := findIndex (fun n => decide (n = modifierDataTypeName)) dna1.types
  let sdnaIndex := findIndex (fun s => decide ((s.idxType : Int) = idxType)) dna1.structs
  sdnaIndex

/-- The command line arguments. -/
structure Args where
  fileName : String
  modifierName : String
  modifierDataTypeName : String
  oldEnumType : Int
  newEnumType : Int
deriving DecidableEq, Repr

/-- The variables of the block loop: the file memory, `offset` and
`numBlocksPatched`. -/
structure ScanState where
  fileContent : List Byte
  offset : Int
  numBlocksPatched : Nat
deriving DecidableEq, Repr

/-- What one pass through the body of `while (true)` ends in. -/
inductive Step
  /-- The pass called `die`. -/
  | died (e : Error)
  /-- The pass reached `break`. -/
  | done (s : ScanState)
  /-- The pass reached the end of the body. -/
  | next (s : ScanState)
deriving DecidableEq, Repr

/-- The test `header.code === "DATA" && header.sdnaIndex === sdnaIndex`. -/
def eligible (header : FileBlockHeader) (sdnaIndex : Int) : Bool :=
  decide (header.code = "DATA") && decide (header.sdnaIndex = sdnaIndex)

/-- One pass through the body of the block loop. -/
def loopBody (cfg : FileConfig) (args : Args) (sdnaIndex : Int) (s : ScanState) : Step :=
  match readFileBlockHeader cfg (Buffer.ofBytes s.fileContent) s.offset with
  | .error e => .died e
  | .ok header =>
    let patched : Except Error ScanState :=
      if eligible header sdnaIndex then
        let fileBlock := (Buffer.ofBytes s.fileContent).slice s.offset
          (some (s.offset + header.length + header.bodyLength))
        match patchFileBlock cfg fileBlock header args.modifierName args.oldEnumType
            args.newEnumType with
        | .error e => .error e
        | .ok body => .ok { s with fileContent := body.mem
                                   numBlocksPatched := s.numBlocksPatched + 1 }
      else .ok s
    match patched with
    | .error e => .died e
    | .ok s1 =>
      if header.code = "ENDB" then .done s1
      else .next { s1 with offset := header.absoluteBodyOffset + header.bodyLength }

/-- The block loop with fuel: `none` when the fuel runs out before `break`
or `die`. -/
def loop (cfg : FileConfig) (args : Args) (sdnaIndex : Int) : Nat → ScanState →
    Option (Except Error ScanState)
  | 0, _ => none
  | fuel + 1, s =>
    match loopBody cfg args sdnaIndex s with
    | .died e => some (.error e)
    | .done s1 => some (.ok s1)
    | .next s1 => loop cfg args sdnaIndex fuel s1

/-- The states in which the first `fuel` passes of the block loop start. -/
def passes (cfg : FileConfig) (args : Args) (sdnaIndex : Int) : Nat → ScanState → List ScanState
  | 0, _ => []
  | fuel + 1, s =>
    s :: match loopBody cfg args sdnaIndex s with
      | .next s1 => passes cfg args sdnaIndex fuel s1
      | _ => []

/-- The constant `HEADER_OFFSET`. -/
def HEADER_OFFSET : Int := 0
/-- The constant `FILEBLOCKS_OFFSET`. -/
def FILEBLOCKS_OFFSET : Int := 12

/-- The name `targetFileName`. -/
def targetFileName (fileName : String) : String :=
  String.mk (replaceFirst ".blend".data "_converted.blend".data fileName.data)

/-- What a run that did not call `die` leaves: the buffer, the count and the
file `fs.writeFileSync` wrote (name and content), if any. -/
structure RunResult where
  fileContent : List Byte
  numBlocksPatched : Nat
  written : Option (String × List Byte)
deriving DecidableEq, Repr

/-- The statements after the block loop. -/
def finalize (args : Args) (s : ScanState) : RunResult :=
  if s.numBlocksPatched > 0 then
    { fileContent := s.fileContent
      numBlocksPatched := s.numBlocksPatched
      written := some (targetFileName args.fileName, s.fileContent) }
  else
    { fileContent := s.fileContent
      numBlocksPatched := s.numBlocksPatched
      written := none }

/-- The state in which the block loop starts. -/
def initialState (fileContent : List Byte) : ScanState :=
  { fileContent := fileContent, offset := FILEBLOCKS_OFFSET, numBlocksPatched := 0 }

/-- The whole script on a file with the given bytes: `none` when the fuel runs
out, `error` when `die` was called. -/
def main (fuel : Nat) (args : Args) (fileContent : List Byte) (dna1 : Dna1Body) :
    Option (Except Error RunResult) :=
  match readHeader (Buffer.ofBytes fileContent) (Buffer.ofBytes fileContent) HEADER_OFFSET with
  | .error e => some (.error e)
  | .ok cfg =>
    let sdnaIndex := lookupSdnaIndexForModifierDataStruct dna1 args.modifierDataTypeName
    match loop cfg args sdnaIndex fuel (initialState fileContent) with
    | none => none
    | some (.error e) => some (.error e)
    | some (.ok s) => some (.ok (finalize args s))

/-- The file a run writes: none when the fuel ran out or `die` ended the
process. -/
def writtenFile : Option (Except Error RunResult) → Option (String × List Byte)
  | some (.ok r) => r.written
  | _ => none

/-! ## Example files -/

/-- The bytes of an ASCII text. -/
def asciiBytes (s : String) : List Byte := s.data.map (fun c => Fin.ofNat c.toNat)

/-- The two bytes of a number, least significant first. -/
def u16le (n : Nat) : List Byte := [Fin.ofNat n, Fin.ofNat (n / 256)]

/-- The four bytes of a number, least significant first. -/
def u32le (n : Nat) : List Byte :=
  [Fin.ofNat n, Fin.ofNat (n / 256), Fin.ofNat (n / 65536), Fin.ofNat (n / 16777216)]

/-- The bytes of an ASCII text and a closing NUL byte. -/
def strz (s : String) : List Byte := asciiBytes s ++ [0]

/-- Zero bytes up to the next multiple of four. -/
def pad4 (l : List Byte) : List Byte := l ++ List.replicate ((4 - l.length % 4) % 4) 0

/-- A file block of a little-endian file with 8-byte pointers: code, body
length, eight bytes of old address, SDNA index, count, body. -/
def blockLE (code : String) (sdna count : Nat) (body : List Byte) : List Byte :=
  asciiBytes code ++ u32le body.length ++ List.replicate 8 0 ++ u32le sdna ++ u32le count ++ body

/-- A 96-byte modifier record of a file with 8-byte pointers: two pointers,
the enum, twelve more bytes and the 64-byte name. -/
def modifierBody (enum : Nat) (name : String) : List Byte :=
  List.replicate 16 0 ++ u32le enum ++ List.replicate 12 0 ++ asciiBytes name ++
    List.replicate (64 - name.length) 0

/-- The body of a `DNA1` block of a little-endian file: `SDNA`, the field
names, the type names, the type lengths and the structs, each struct with the
index of its type and its fields (type index and name index). -/
def sdnaBody (names types : List String) (lengths : List Nat)
    (structs : List (Nat × List (Nat × Nat))) : List Byte :=
  let upToNames := pad4 (asciiBytes "SDNANAME" ++ u32le names.length ++ (names.map strz).flatten)
  let upToTypes := pad4 (upToNames ++ asciiBytes "TYPE" ++ u32le types.length ++
    (types.map strz).flatten)
  let upToLengths := pad4 (upToTypes ++ asciiBytes "TLEN" ++ (lengths.map u16le).flatten)
  upToLengths ++ asciiBytes "STRC" ++ u32le structs.length ++
    (structs.map (fun st => u16le st.1 ++ u16le st.2.length ++
      (st.2.map (fun fd => u16le fd.1 ++ u16le fd.2)).flatten)).flatten

/-- The type names of the example catalog. -/
def exampleTypes : List String := ["char", "int", "ModifierData", "BevelModifierData"]

/-- The structs of the example catalog: `ModifierData` with four fields and
`BevelModifierData` with one. -/
def exampleStructs : List (Nat × List (Nat × Nat)) :=
  [(2, [(2, 0), (2, 1), (1, 2), (0, 3)]), (3, [(2, 4)])]

/-- The `DNA1` block of the example files. -/
def dna1Block : List Byte :=
  blockLE "DNA1" 0 1 (sdnaBody ["*next", "*prev", "type", "name[64]", "modifier"] exampleTypes
    [1, 4, 96, 96] exampleStructs)

/-- The catalog the parser reads from `dna1Block`: `BevelModifierData` is
type 3 and struct 1. -/
def exampleDna : Dna1Body := ⟨exampleTypes, exampleStructs.map (fun st => ⟨st.1⟩)⟩

/-- The start of a little-endian file with 8-byte pointers. -/
def fileHeaderLE64 : List Byte := asciiBytes "BLENDER-v279"

/-- The block `ENDB`. -/
def endbBlock : List Byte := blockLE "ENDB" 0 0 []

/-- The arguments `-m Bevel -d BevelModifierData --old-enum-type 3
--new-enum-type 7 a.blend`. -/
def exampleArgs : Args := ⟨"a.blend", "Bevel", "BevelModifierData", 3, 7⟩

/-- The configuration of a little-endian file with 8-byte pointers. -/
def cfgLE64 : FileConfig := ⟨some LE, some 8⟩

/-- The configuration of a big-endian file with 8-byte pointers. -/
def cfgBE64 : FileConfig := ⟨some BE, some 8⟩

/-- A file `[DATA, DNA1, ENDB]` whose data block has the SDNA index bytes
`ff ff ff ff`. -/
def fileSdnaAllOnes : List Byte :=
  fileHeaderLE64 ++ blockLE "DATA" 4294967295 1 (modifierBody 3 "Bevel") ++ dna1Block ++ endbBlock

/-- The file `fileSdnaAllOnes` with the enum of the data block set to 7. -/
def fileSdnaAllOnesPatched : List Byte :=
  fileHeaderLE64 ++ blockLE "DATA" 4294967295 1 (modifierBody 7 "Bevel") ++ dna1Block ++ endbBlock

/-- The arguments of `exampleArgs` with a type name the catalog does not have. -/
def argsAbsentType : Args := ⟨"a.blend", "Bevel", "NoSuchModifierData", 3, 7⟩

/-- A file header with the pointer size marker `.`. -/
def headerBadPtrSize : List Byte := asciiBytes "BLENDER.v279"

/-- A block of struct 1 whose enum bytes are `00 00 00 00`. -/
def blockEnumZero : List Byte := blockLE "DATA" 1 1 (modifierBody 0 "Bevel")

/-- A block of struct 1 whose enum bytes are `00 00 00 80`. -/
def blockEnumHigh : List Byte := blockLE "DATA" 1 1 (modifierBody 2147483648 "Bevel")

/-- The header `readFileBlockHeader` gives for a block of struct 1 with a
96-byte body at offset 0. -/
def headerAtZero : FileBlockHeader := ⟨"DATA", 96, 1, 1, 24, 24⟩

/-- The file `[DATA (struct 1), DATA (struct 0), DNA1, ENDB]`. -/
def fileMatchNonMatch : List Byte :=
  fileHeaderLE64 ++ blockLE "DATA" 1 1 (modifierBody 3 "Bevel") ++
    blockLE "DATA" 0 1 (modifierBody 3 "Bevel") ++ dna1Block ++ endbBlock

/-- The file `fileMatchNonMatch` after the run of `exampleArgs`. -/
def fileMatchNonMatchPatched : List Byte :=
  fileHeaderLE64 ++ blockLE "DATA" 1 1 (modifierBody 7 "Bevel") ++
    blockLE "DATA" 0 1 (modifierBody 3 "Bevel") ++ dna1Block ++ endbBlock

/-- The block sequence `[DATA (struct 1), DATA (struct 0), ENDB]`. -/
def fileThreeBlocks : List Byte :=
  fileHeaderLE64 ++ blockLE "DATA" 1 1 (modifierBody 3 "Bevel") ++
    blockLE "DATA" 0 1 (modifierBody 3 "Bevel") ++ endbBlock

/-- A file with three blocks of struct 1, the second with enum 4 where the
caller expects 3. -/
def fileSecondMismatch : List Byte :=
  fileHeaderLE64 ++ blockLE "DATA" 1 1 (modifierBody 3 "Bevel") ++
    blockLE "DATA" 1 1 (modifierBody 4 "Bevel") ++ blockLE "DATA" 1 1 (modifierBody 3 "Bevel") ++
    dna1Block ++ endbBlock

/-- The state in which the second pass over `fileSecondMismatch` starts. -/
def stateSecondMismatch : ScanState :=
  { fileContent := fileHeaderLE64 ++ blockLE "DATA" 1 1 (modifierBody 7 "Bevel") ++
      blockLE "DATA" 1 1 (modifierBody 4 "Bevel") ++
      blockLE "DATA" 1 1 (modifierBody 3 "Bevel") ++ dna1Block ++ endbBlock
    offset := 132
    numBlocksPatched := 1 }

/-! ## Notions of the specification -/

/-- Whether the block at which a pass starts passes the test
`header.code === "DATA" && header.sdnaIndex === sdnaIndex`. -/
def eligibleAt (cfg : FileConfig) (sdnaIndex : Int) (s : ScanState) : Bool :=
  match readFileBlockHeader cfg (Buffer.ofBytes s.fileContent) s.offset with
  | .ok h => eligible h sdnaIndex
  | .error _ => false

/-- The view `fileBlockBody` of `patchFileBlock` for the block at which a pass
starts. -/
def bodyView (s : ScanState) (h : FileBlockHeader) : Buffer :=
  ((Buffer.ofBytes s.fileContent).slice s.offset
    (some (s.offset + h.length + h.bodyLength))).slice h.length none

/-- The recorded name or the recorded old enum value of the block at which a
pass starts is not what the caller expects. -/
def mismatch (cfg : FileConfig) (args : Args) (s : ScanState) (h : FileBlockHeader) : Prop :=
  readString (bodyView s h) 32 64 ≠ args.modifierName ∨
  readUint32 cfg (bodyView s h) (twice cfg.ptrSize) ≠ .ok args.oldEnumType

instance (cfg : FileConfig) (args : Args) (s : ScanState) (h : FileBlockHeader) :
    Decidable (mismatch cfg args s h) := by
  unfold mismatch; infer_instance

/-- Two buffers that show the same bytes at the same place: same offset and
length, and memories that agree from the offset on. -/
def Buffer.Agree (b b1 : Buffer) : Prop :=
  b.byteOffset = b1.byteOffset ∧ b.length = b1.length ∧
  ∀ j : Nat, b.byteOffset ≤ j → b.mem[j]? = b1.mem[j]?

/-- The offsets `chain` are a well-formed block sequence of the file that
starts at offset `o`: each block header lies in the file, each block but the
last has a code other than `ENDB` and is followed at
`offset + 24 + bodyLength` (the body length as a uint32) by the next one, and
the last block has code `ENDB`. -/
def isChain (cfg : FileConfig) (fileContent : List Byte) : Nat → List Nat → Bool
  | _, [] => false
  | o, x :: rest =>
    decide (x = o) && decide (o + 24 ≤ fileContent.length) &&
    match readFileBlockHeader cfg (Buffer.ofBytes fileContent) (o : Int) with
    | .error _ => false
    | .ok h =>
      match rest with
      | [] => decide (h.code = "ENDB")
      | y :: _ =>
        decide (h.code ≠ "ENDB") && decide (y = o + 24 + toUint32 h.bodyLength) &&
          isChain cfg fileContent y rest

/-- The state of a pass that starts at an offset of the file as it was read. -/
def passAt (fileContent : List Byte) (o : Nat) : ScanState :=
  { fileContent := fileContent, offset := (o : Int), numBlocksPatched := 0 }

/-- The block at an offset of the file is not eligible, or it has the name
and the old enum value the caller expects. -/
def blockValid (cfg : FileConfig) (args : Args) (sdnaIndex : Int) (fileContent : List Byte)
    (o : Nat) : Bool :=
  match readFileBlockHeader cfg (Buffer.ofBytes fileContent) (o : Int) with
  | .ok h => !(eligible h sdnaIndex) || decide (¬ mismatch cfg args (passAt fileContent o) h)
  | .error _ => true

/-- Every eligible block of the chain has the name and the old enum value the
caller expects. -/
def chainValid (cfg : FileConfig) (args : Args) (sdnaIndex : Int) (fileContent : List Byte)
    (chain : List Nat) : Prop :=
  ∀ o ∈ chain, blockValid cfg args sdnaIndex fileContent o = true

instance (cfg : FileConfig) (args : Args) (sdnaIndex : Int) (fileContent : List Byte)
    (chain : List Nat) : Decidable (chainValid cfg args sdnaIndex fileContent chain) := by
  unfold chainValid; infer_instance

/-- The number of blocks of the chain that are eligible. -/
def countEligible (cfg : FileConfig) (sdnaIndex : Int) (fileContent : List Byte)
    (chain : List Nat) : Nat :=
  (chain.filter (fun o => eligibleAt cfg sdnaIndex (passAt fileContent o))).length

/-- The arguments of `exampleArgs` for a file named `scene.bak`. -/
def argsBakFile : Args := ⟨"scene.bak", "Bevel", "BevelModifierData", 3, 7⟩

/-- The character of an ASCII byte. -/
def charOfByte (b : Byte) : Char := Char.ofNat b.val
/-- A file header with the endianness marker `x`. -/
def headerBadEndian : List Byte := asciiBytes "BLENDER-x279"

/-- A file whose last block, the `DNA1` block, ends at the end of the file:
no block with code `ENDB` follows. -/
def fileNoEndb : List Byte :=
  fileHeaderLE64 ++ blockLE "DATA" 1 1 (modifierBody 3 "Bevel") ++ dna1Block

/-- The arguments of the reverse conversion: the old and the new enum value
change places. -/
def swapEnums (args : Args) : Args :=
  { args with oldEnumType := args.newEnumType, newEnumType := args.oldEnumType }

/-- The block at an offset of the file is not eligible, or its body is at
least 96 bytes long: the name field, at 32 to 96, lies in it. -/
def bodyLong (cfg : FileConfig) (sdnaIndex : Int) (fileContent : List Byte) (o : Nat) : Bool :=
  match readFileBlockHeader cfg (Buffer.ofBytes fileContent) (o : Int) with
  | .ok h => !(eligible h sdnaIndex) || decide (96 ≤ h.bodyLength)
  | .error _ => true

/-! # Theorems -/

/-! ## Evaluations: the sign bit and an unknown pointer size -/

/-- C5 (evaluation at the failing input): on the little-endian bytes
`00 00 00 80` and on the big-endian bytes `80 00 00 00`, which stand for the
uint32 2147483648, `readUint32` returns -2147483648, a number outside
`[0, 2^32)` and different from `b[o] + 2^8*b[o+1] + 2^16*b[o+2] + 2^24*b[o+3]`. -/
theorem readUint32_high_bit_negative :
    readUint32 cfgLE64 (Buffer.ofBytes [0, 0, 0, 0x80]) (some 0) = .ok (-2147483648) ∧
    readUint32 cfgBE64 (Buffer.ofBytes [0x80, 0, 0, 0]) (some 0) = .ok (-2147483648) := by
  decide

/-- C4 (evaluation at the failing input): after `writeUint32` of the uint32
2147483648 at offset 0 of a four-byte buffer, the buffer holds the bytes of
that value and `readUint32` at offset 0 returns -2147483648, in both byte
orders. -/
theorem write_then_read_high_bit :
    (writeUint32 cfgLE64 (Buffer.ofBytes [0, 0, 0, 0]) (some 0) 2147483648).map
      (fun b => (b.mem, readUint32 cfgLE64 b (some 0))) =
      .ok ([0, 0, 0, 0x80], .ok (-2147483648)) ∧
    (writeUint32 cfgBE64 (Buffer.ofBytes [0, 0, 0, 0]) (some 0) 2147483648).map
      (fun b => (b.mem, readUint32 cfgBE64 b (some 0))) =
      .ok ([0x80, 0, 0, 0], .ok (-2147483648)) := by
  decide

set_option maxRecDepth 100000 in
/-- C6 (evaluation at the failing input): on a block whose name field reads
`Bevel` and whose enum bytes `00 00 00 80` encode 2147483648 in the configured
little-endian order, `patchFileBlock` with expected name `Bevel` and expected
old value 2147483648 fails with the enum type error. -/
theorem patchFileBlock_rejects_matching_high_enum :
    readString ((Buffer.ofBytes blockEnumHigh).slice 24 none) 32 64 = "Bevel" ∧
    (((Buffer.ofBytes blockEnumHigh).slice 24 none).bytes.drop 16).take 4 = u32le 2147483648 ∧
    patchFileBlock cfgLE64 (Buffer.ofBytes blockEnumHigh) headerAtZero "Bevel" 2147483648 7 =
      .error .unexpectedEnumType := by
  decide

set_option maxRecDepth 100000 in
/-- C7 (evaluation at the failing input): `patchFileBlock` with new value
2147483648 succeeds on a block with name `Bevel` and enum 3, stores the bytes
`00 00 00 80` at body offset 16 and leaves the other bytes as they were, and
`readUint32` at that offset then returns -2147483648. -/
theorem patchFileBlock_high_new_enum_reads_back_negative :
    (patchFileBlock cfgLE64 (Buffer.ofBytes (blockLE "DATA" 1 1 (modifierBody 3 "Bevel")))
        headerAtZero "Bevel" 3 2147483648).map
      (fun body => (body.mem, readUint32 cfgLE64 body (some 16))) =
      .ok (blockEnumHigh, .ok (-2147483648)) := by
  decide

set_option maxRecDepth 100000 in
/-- C3 (evaluation at the failing input): with a type name that the catalog
does not have the lookup gives -1, the header of the data block whose SDNA
index bytes are `ff ff ff ff` reads as index -1, and the run patches that
block and writes the patched buffer. -/
theorem catalog_miss_patches_all_ones_block :
    "NoSuchModifierData" ∉ exampleDna.types ∧
    lookupSdnaIndexForModifierDataStruct exampleDna "NoSuchModifierData" = -1 ∧
    (readFileBlockHeader cfgLE64 (Buffer.ofBytes fileSdnaAllOnes) 12).map
      (fun h => (h.code, h.sdnaIndex)) = .ok ("DATA", -1) ∧
    main 3 argsAbsentType fileSdnaAllOnes exampleDna =
      some (.ok ⟨fileSdnaAllOnesPatched, 1, some ("a_converted.blend", fileSdnaAllOnesPatched)⟩) := by
  decide

set_option maxRecDepth 100000 in
/-- C10 (evaluation at the failing input): on a buffer that starts with
`BLENDER` and has the pointer size marker `.`, `readHeader` returns a
configuration whose `ptrSize` is `undefined`; with it `patchFileBlock` reads
the enum at `NaN` as 0, stores nothing and returns. -/
theorem readHeader_accepts_unknown_pointer_size :
    headerBadPtrSize.take 7 = asciiBytes "BLENDER" ∧
    headerBadPtrSize[7]? = some 0x2e ∧
    readHeader (Buffer.ofBytes headerBadPtrSize) (Buffer.ofBytes headerBadPtrSize) HEADER_OFFSET =
      .ok ⟨some LE, none⟩ ∧
    (patchFileBlock ⟨some LE, none⟩ (Buffer.ofBytes blockEnumZero) headerAtZero "Bevel" 0 7).map
      (fun body => body.mem) = .ok blockEnumZero := by
  decide

/-! ## The block loop -/

theorem main_ok {fuel : Nat} {args : Args} {fileContent : List Byte} {dna1 : Dna1Body}
    {r : RunResult} (h : main fuel args fileContent dna1 = some (.ok r)) :
    ∃ cfg s, readHeader (Buffer.ofBytes fileContent) (Buffer.ofBytes fileContent) HEADER_OFFSET
        = .ok cfg ∧
      loop cfg args (lookupSdnaIndexForModifierDataStruct dna1 args.modifierDataTypeName) fuel
        (initialState fileContent) = some (.ok s) ∧
      r = finalize args s := by
  unfold main at h
  split at h
  · simp at h
  · rename_i cfg hcfg
    refine ⟨cfg, ?_⟩
    dsimp only at h
    split at h
    · simp at h
    · simp at h
    · rename_i s hs
      simp only [Option.some.injEq, Except.ok.injEq] at h
      exact ⟨s, hcfg, hs, h.symm⟩

theorem loop_count (cfg : FileConfig) (args : Args) (sdnaIndex : Int) :
    ∀ (fuel : Nat) (s s1 : ScanState), loop cfg args sdnaIndex fuel s = some (.ok s1) →
      s1.numBlocksPatched =
        s.numBlocksPatched + ((passes cfg args sdnaIndex fuel s).filter
          (eligibleAt cfg sdnaIndex)).length := by
  intro fuel
  induction fuel with
  | zero => intro s s1 h; simp [loop] at h
  | succ n ih =>
    intro s s1 h
    have key : ∀ s2, (loopBody cfg args sdnaIndex s = .done s2 ∨
        loopBody cfg args sdnaIndex s = .next s2) →
        s2.numBlocksPatched = s.numBlocksPatched +
          (if eligibleAt cfg sdnaIndex s then 1 else 0) := by
      intro s2 h2
      unfold loopBody at h2
      unfold eligibleAt
      split at h2
      · simp at h2
      · rename_i header hh
        rw [hh]
        dsimp only at h2 ⊢
        by_cases he : eligible header sdnaIndex = true
        · simp only [he, if_true] at h2 ⊢
          split at h2
          · simp at h2
          · rename_i s3 h3
            split at h3
            · simp at h3
            · simp only [Except.ok.injEq] at h3
              subst h3
              split at h2
              · rcases h2 with h2 | h2
                · simp only [Step.done.injEq] at h2; subst h2; rfl
                · simp at h2
              · rcases h2 with h2 | h2
                · simp at h2
                · simp only [Step.next.injEq] at h2; subst h2; rfl
        · simp only [he] at h2 ⊢
          simp only [Bool.false_eq_true, if_false] at h2 ⊢
          split at h2
          · rcases h2 with h2 | h2
            · simp only [Step.done.injEq] at h2; subst h2; rfl
            · simp at h2
          · rcases h2 with h2 | h2
            · simp at h2
            · simp only [Step.next.injEq] at h2; subst h2; rfl
    simp only [loop] at h
    simp only [passes, List.filter_cons]
    cases hb : loopBody cfg args sdnaIndex s with
    | died e => rw [hb] at h; simp at h
    | done s2 =>
      rw [hb] at h
      simp only [Option.some.injEq, Except.ok.injEq] at h
      subst h
      rw [key s2 (Or.inl hb)]
      split <;> simp
    | next s2 =>
      rw [hb] at h
      have := ih s2 s1 h
      rw [this, key s2 (Or.inr hb)]
      dsimp only
      split <;> (simp; try omega)

/-- C9: when a run completes without `die`, a file is written exactly when
`numBlocksPatched > 0`, that is exactly when some pass of the block loop
started at an eligible block (such a block has code `DATA`, so it is not the
`ENDB` block); with `numBlocksPatched = 0` nothing is written; and a written
file has the target file name and the content of the buffer as the block loop
left it. -/
theorem output_written_iff_blocks_patched (fuel : Nat) (args : Args) (fileContent : List Byte)
    (dna1 : Dna1Body) (r : RunResult)
    (hrun : main fuel args fileContent dna1 = some (.ok r)) :
    ∃ cfg s,
      readHeader (Buffer.ofBytes fileContent) (Buffer.ofBytes fileContent) HEADER_OFFSET
        = .ok cfg ∧
      loop cfg args (lookupSdnaIndexForModifierDataStruct dna1 args.modifierDataTypeName) fuel
        (initialState fileContent) = some (.ok s) ∧
      r.fileContent = s.fileContent ∧
      r.numBlocksPatched = ((passes cfg args
        (lookupSdnaIndexForModifierDataStruct dna1 args.modifierDataTypeName) fuel
        (initialState fileContent)).filter (eligibleAt cfg
          (lookupSdnaIndexForModifierDataStruct dna1 args.modifierDataTypeName))).length ∧
      (r.written.isSome ↔ 0 < r.numBlocksPatched) ∧
      (r.written.isSome ↔ ∃ p ∈ passes cfg args
        (lookupSdnaIndexForModifierDataStruct dna1 args.modifierDataTypeName) fuel
        (initialState fileContent),
        ∃ h, readFileBlockHeader cfg (Buffer.ofBytes p.fileContent) p.offset = .ok h ∧
          h.code = "DATA" ∧ h.code ≠ "ENDB" ∧
          h.sdnaIndex = lookupSdnaIndexForModifierDataStruct dna1 args.modifierDataTypeName) ∧
      (r.numBlocksPatched = 0 → r.written = none) ∧
      (writtenFile (main fuel args fileContent dna1) = r.written) ∧
      (∀ w, r.written = some w → w = (targetFileName args.fileName, s.fileContent)) := by
  obtain ⟨cfg, s, hcfg, hloop, hr⟩ := main_ok hrun
  have hcount := loop_count cfg args _ fuel _ _ hloop
  simp only [initialState, Nat.zero_add] at hcount
  have hn : r.numBlocksPatched = s.numBlocksPatched := by
    subst hr; unfold finalize; split <;> rfl
  have hw : r.written.isSome ↔ 0 < r.numBlocksPatched := by
    subst hr; unfold finalize; split <;> simp_all
  refine ⟨cfg, s, hcfg, hloop, ?_, ?_, hw, ?_, ?_, ?_, ?_⟩
  · subst hr; unfold finalize; split <;> rfl
  · rw [hn, hcount]; rfl
  · rw [hw, hn, hcount, List.length_pos]
    constructor
    · intro hne
      obtain ⟨p, hp⟩ := List.exists_mem_of_ne_nil _ hne
      obtain ⟨hp, he⟩ := List.mem_filter.1 hp
      refine ⟨p, hp, ?_⟩
      unfold eligibleAt at he
      split at he
      · rename_i h hh
        simp only [eligible, Bool.and_eq_true, decide_eq_true_eq] at he
        exact ⟨h, hh, he.1, by rw [he.1]; decide, he.2⟩
      · simp at he
    · rintro ⟨p, hp, h, hh, h1, -, h2⟩
      refine List.ne_nil_of_mem (List.mem_filter.2 ⟨hp, ?_⟩)
      unfold eligibleAt
      rw [hh]
      simp [eligible, h1, h2]
  · intro h0
    rw [hn] at h0
    subst hr; unfold finalize; rw [if_neg (by omega)]
  · rw [hrun]; rfl
  · intro w hw2
    subst hr; unfold finalize at hw2; split at hw2
    · simp only [Option.some.injEq] at hw2; exact hw2.symm
    · simp at hw2


theorem readUint32_ok_of_endian {cfg : FileConfig} (h : cfg.endian = some LE ∨ cfg.endian = some BE)
    (b : Buffer) (o : Option Int) : ∃ v, readUint32 cfg b o = .ok v := by
  unfold readUint32
  rcases h with h | h
  · rw [if_pos h]; exact ⟨_, rfl⟩
  · by_cases h2 : cfg.endian = some LE
    · rw [if_pos h2]; exact ⟨_, rfl⟩
    · rw [if_neg h2, if_pos h]; exact ⟨_, rfl⟩

theorem endian_of_readUint32_ok {cfg : FileConfig} {b : Buffer} {o : Option Int} {v : Int}
    (h : readUint32 cfg b o = .ok v) : cfg.endian = some LE ∨ cfg.endian = some BE := by
  unfold readUint32 at h
  by_cases h1 : cfg.endian = some LE
  · exact Or.inl h1
  · by_cases h2 : cfg.endian = some BE
    · exact Or.inr h2
    · rw [if_neg h1, if_neg h2] at h; simp at h

theorem readFileBlockHeader_ok {cfg : FileConfig} {b : Buffer} {o : Int} {h : FileBlockHeader}
    (hh : readFileBlockHeader cfg b o = .ok h) :
    readUint32 cfg b (some (4 + o)) = .ok h.bodyLength ∧
    readUint32 cfg b (some (16 + o)) = .ok h.sdnaIndex ∧
    readUint32 cfg b (some (20 + o)) = .ok h.count ∧
    h.code = readString b (0 + o) 4 ∧ h.length = 24 ∧ h.absoluteBodyOffset = 24 + o := by
  unfold readFileBlockHeader at hh
  split at hh
  · simp at hh
  · rename_i bl hbl
    split at hh
    · simp at hh
    · rename_i sd hsd
      split at hh
      · simp at hh
      · rename_i ct hct
        simp only [Except.ok.injEq] at hh
        subst hh
        exact ⟨hbl, hsd, hct, rfl, rfl, rfl⟩

theorem endian_of_header_ok {cfg : FileConfig} {b : Buffer} {o : Int} {h : FileBlockHeader}
    (hh : readFileBlockHeader cfg b o = .ok h) : cfg.endian = some LE ∨ cfg.endian = some BE :=
  endian_of_readUint32_ok (readFileBlockHeader_ok hh).1

theorem loopBody_died_of_mismatch {cfg : FileConfig} {args : Args} {sdnaIndex : Int}
    {s : ScanState} {h : FileBlockHeader}
    (hh : readFileBlockHeader cfg (Buffer.ofBytes s.fileContent) s.offset = .ok h)
    (he : eligible h sdnaIndex = true) (hm : mismatch cfg args s h) :
    loopBody cfg args sdnaIndex s =
      .died (if readString (bodyView s h) 32 64 ≠ args.modifierName then
        .unexpectedModifierName else .unexpectedEnumType) := by
  obtain ⟨v, hv⟩ := readUint32_ok_of_endian (endian_of_header_ok hh) (bodyView s h)
    (twice cfg.ptrSize)
  unfold loopBody
  rw [hh]
  simp only [he, if_true]
  unfold patchFileBlock
  simp only [bodyView] at hv hm ⊢
  unfold mismatch at hm
  simp only [bodyView] at hm
  rw [hv] at hm ⊢
  by_cases hn : readString (((Buffer.ofBytes s.fileContent).slice s.offset
      (some (s.offset + h.length + h.bodyLength))).slice h.length none) 32 64 = args.modifierName
  · have hv2 : args.oldEnumType ≠ v := by
      rcases hm with hm | hm
      · exact absurd hn hm
      · intro hc; apply hm; rw [hc]
    simp [hn, hv2]
  · have hn2 : args.modifierName ≠ readString (((Buffer.ofBytes s.fileContent).slice s.offset
      (some (s.offset + h.length + h.bodyLength))).slice h.length none) 32 64 := fun hc => hn hc.symm
    simp [hn, hn2]

theorem loop_died_of_mem_passes (cfg : FileConfig) (args : Args) (sdnaIndex : Int) :
    ∀ (k : Nat) (s0 s : ScanState) (e : Error), s ∈ passes cfg args sdnaIndex k s0 →
      loopBody cfg args sdnaIndex s = .died e →
      ∀ fuel, k ≤ fuel → loop cfg args sdnaIndex fuel s0 = some (.error e) := by
  intro k
  induction k with
  | zero => intro s0 s e hs; simp [passes] at hs
  | succ k ih =>
    intro s0 s e hs hd fuel hfuel
    obtain ⟨fuel1, rfl⟩ : ∃ f, fuel = f + 1 := ⟨fuel - 1, by omega⟩
    simp only [passes, List.mem_cons] at hs
    simp only [loop]
    rcases hs with hs | hs
    · subst hs; rw [hd]
    · cases hb : loopBody cfg args sdnaIndex s0 with
      | died e1 => rw [hb] at hs; simp at hs
      | done s2 => rw [hb] at hs; simp at hs
      | next s2 =>
        rw [hb] at hs
        exact ih s2 s e hs hd fuel1 (by omega)

/-- C2: when some pass of the block loop starts at an eligible block whose
recorded name or recorded old enum value is not what the caller expects, then
however many eligible blocks were patched in the buffer before it and however
many follow, the run (with fuel for that pass) ends in `die` with the modifier
name error or the enum type error: it returns no result, no count and no
buffer, and writes no file. -/
theorem mismatch_aborts_run (k : Nat) (args : Args) (fileContent : List Byte) (dna1 : Dna1Body)
    (cfg : FileConfig) (s : ScanState) (h : FileBlockHeader)
    (hcfg : readHeader (Buffer.ofBytes fileContent) (Buffer.ofBytes fileContent) HEADER_OFFSET
      = .ok cfg)
    (hs : s ∈ passes cfg args (lookupSdnaIndexForModifierDataStruct dna1 args.modifierDataTypeName)
      k (initialState fileContent))
    (hh : readFileBlockHeader cfg (Buffer.ofBytes s.fileContent) s.offset = .ok h)
    (he : eligible h (lookupSdnaIndexForModifierDataStruct dna1 args.modifierDataTypeName) = true)
    (hm : mismatch cfg args s h) :
    ∀ fuel, k ≤ fuel →
      main fuel args fileContent dna1 =
        some (.error (if readString (bodyView s h) 32 64 ≠ args.modifierName then
          .unexpectedModifierName else .unexpectedEnumType)) ∧
      (∀ r, main fuel args fileContent dna1 ≠ some (.ok r)) ∧
      writtenFile (main fuel args fileContent dna1) = none := by
  intro fuel hfuel
  have hl := loop_died_of_mem_passes cfg args _ k _ s _ hs (loopBody_died_of_mismatch hh he hm)
    fuel hfuel
  have hmain : main fuel args fileContent dna1 =
      some (.error (if readString (bodyView s h) 32 64 ≠ args.modifierName then
        .unexpectedModifierName else .unexpectedEnumType)) := by
    unfold main
    rw [hcfg]
    dsimp only
    rw [hl]
  refine ⟨hmain, ?_, ?_⟩
  · intro r hr; rw [hmain] at hr; simp at hr
  · rw [hmain]; rfl

set_option maxRecDepth 100000 in
/-- C2 at a file with three eligible blocks, the second with another enum
value than expected: the run ends in `die` although the first block was
patched in the buffer, and writes nothing. -/
theorem mismatch_aborts_run_witness :
    main 5 exampleArgs fileSecondMismatch exampleDna = some (.error .unexpectedEnumType) ∧
    writtenFile (main 5 exampleArgs fileSecondMismatch exampleDna) = none := by
  have h := mismatch_aborts_run 2 exampleArgs fileSecondMismatch exampleDna cfgLE64
    stateSecondMismatch ⟨"DATA", 96, 1, 1, 24, 156⟩ (by decide) (by decide) (by decide)
    (by decide) (by decide) 5 (by decide)
  exact ⟨h.1, h.2.2⟩

set_option maxRecDepth 100000 in
/-- C9 at the file `[DATA (struct 1), DATA (struct 0), DNA1, ENDB]`: one block
is patched and the patched buffer is written. -/
theorem output_written_iff_blocks_patched_witness :
    main 4 exampleArgs fileMatchNonMatch exampleDna =
      some (.ok ⟨fileMatchNonMatchPatched, 1,
        some ("a_converted.blend", fileMatchNonMatchPatched)⟩) ∧
    ((some ("a_converted.blend", fileMatchNonMatchPatched)).isSome ↔ 0 < 1) := by
  have hrun : main 4 exampleArgs fileMatchNonMatch exampleDna =
      some (.ok ⟨fileMatchNonMatchPatched, 1,
        some ("a_converted.blend", fileMatchNonMatchPatched)⟩) := by decide
  obtain ⟨_, _, _, _, _, _, h, _⟩ :=
    output_written_iff_blocks_patched 4 exampleArgs fileMatchNonMatch exampleDna _ hrun
  exact ⟨hrun, h⟩


/-! ## Where a store lands -/

theorem Buffer.set_frame (b : Buffer) (idx : Option Int) (v : Int) :
    (b.set idx v).mem.length = b.mem.length ∧ (b.set idx v).byteOffset = b.byteOffset ∧
    (b.set idx v).length = b.length ∧
    ∀ j : Nat, (b.set idx v).mem[j]? ≠ b.mem[j]? →
      ∃ i : Int, idx = some i ∧ 0 ≤ i ∧ i < b.length ∧ j = b.byteOffset + i.toNat := by
  unfold Buffer.set
  cases idx with
  | none => simp
  | some i =>
    by_cases hi : 0 ≤ i ∧ i < b.length
    · dsimp only
      rw [if_pos hi]
      refine ⟨List.length_set .., rfl, rfl, ?_⟩
      intro j hj
      refine ⟨i, rfl, hi.1, hi.2, ?_⟩
      by_contra hne
      exact hj (List.getElem?_set_ne (Ne.symm hne))
    · dsimp only
      rw [if_neg hi]
      simp

/-- The four stores of `writeUint32` change at most the bytes of the view at
`offset`, ..., `offset + 3`, and never the length of the memory. -/
theorem writeUint32_frame {cfg : FileConfig} {b b1 : Buffer} {off : Option Int} {v : Int}
    (h : writeUint32 cfg b off v = .ok b1) :
    b1.mem.length = b.mem.length ∧ b1.byteOffset = b.byteOffset ∧ b1.length = b.length ∧
    ∀ j : Nat, b1.mem[j]? ≠ b.mem[j]? →
      ∃ (o : Int) (k : Int), off = some o ∧ 0 ≤ k ∧ k < 4 ∧ 0 ≤ o + k ∧ o + k < b.length ∧
        j = b.byteOffset + (o + k).toNat := by
  have four : ∀ (i0 i1 i2 i3 : Int) (v0 v1 v2 v3 : Int),
      0 ≤ i0 → i0 < 4 → 0 ≤ i1 → i1 < 4 → 0 ≤ i2 → i2 < 4 → 0 ≤ i3 → i3 < 4 →
      b1 = (((b.set (idxAdd off i0) v0).set (idxAdd off i1) v1).set (idxAdd off i2) v2).set
        (idxAdd off i3) v3 →
      b1.mem.length = b.mem.length ∧ b1.byteOffset = b.byteOffset ∧ b1.length = b.length ∧
      ∀ j : Nat, b1.mem[j]? ≠ b.mem[j]? →
        ∃ (o : Int) (k : Int), off = some o ∧ 0 ≤ k ∧ k < 4 ∧ 0 ≤ o + k ∧ o + k < b.length ∧
          j = b.byteOffset + (o + k).toNat := by
    intro i0 i1 i2 i3 v0 v1 v2 v3 h0 h0' h1 h1' h2 h2' h3 h3' hb
    obtain ⟨l0, o0, n0, f0⟩ := Buffer.set_frame b (idxAdd off i0) v0
    obtain ⟨l1, o1, n1, f1⟩ := Buffer.set_frame (b.set (idxAdd off i0) v0) (idxAdd off i1) v1
    obtain ⟨l2, o2, n2, f2⟩ := Buffer.set_frame
      ((b.set (idxAdd off i0) v0).set (idxAdd off i1) v1) (idxAdd off i2) v2
    obtain ⟨l3, o3, n3, f3⟩ := Buffer.set_frame
      (((b.set (idxAdd off i0) v0).set (idxAdd off i1) v1).set (idxAdd off i2) v2)
      (idxAdd off i3) v3
    subst hb
    refine ⟨by rw [l3, l2, l1, l0], by rw [o3, o2, o1, o0], by rw [n3, n2, n1, n0], ?_⟩
    intro j hj
    have pick : ∀ (ik : Int) (bk : Buffer), 0 ≤ ik → ik < 4 → bk.byteOffset = b.byteOffset →
        bk.length = b.length →
        (∃ i : Int, idxAdd off ik = some i ∧ 0 ≤ i ∧ i < bk.length ∧
          j = bk.byteOffset + i.toNat) →
        ∃ (o : Int) (k : Int), off = some o ∧ 0 ≤ k ∧ k < 4 ∧ 0 ≤ o + k ∧ o + k < b.length ∧
          j = b.byteOffset + (o + k).toNat := by
      intro ik bk hk hk' hbo hbl ⟨i, hi, hi0, hi1, hij⟩
      cases off with
      | none => simp [idxAdd] at hi
      | some o =>
        simp only [idxAdd, Option.map_some', Option.some.injEq] at hi
        subst hi
        exact ⟨o, ik, rfl, hk, hk', hi0, by rw [← hbl]; exact hi1, by rw [← hbo]; exact hij⟩
    by_cases c3 : ((((b.set (idxAdd off i0) v0).set (idxAdd off i1) v1).set (idxAdd off i2) v2).set
        (idxAdd off i3) v3).mem[j]? =
        (((b.set (idxAdd off i0) v0).set (idxAdd off i1) v1).set (idxAdd off i2) v2).mem[j]?
    · by_cases c2 : (((b.set (idxAdd off i0) v0).set (idxAdd off i1) v1).set
          (idxAdd off i2) v2).mem[j]? = ((b.set (idxAdd off i0) v0).set (idxAdd off i1) v1).mem[j]?
      · by_cases c1 : ((b.set (idxAdd off i0) v0).set (idxAdd off i1) v1).mem[j]? =
            (b.set (idxAdd off i0) v0).mem[j]?
        · have c0 : (b.set (idxAdd off i0) v0).mem[j]? ≠ b.mem[j]? := by
            intro hc; apply hj; rw [c3, c2, c1, hc]
          exact pick i0 b h0 h0' rfl rfl (f0 j c0)
        · exact pick i1 _ h1 h1' o0 n0 (f1 j c1)
      · exact pick i2 _ h2 h2' (by rw [o1, o0]) (by rw [n1, n0]) (f2 j c2)
    · exact pick i3 _ h3 h3' (by rw [o2, o1, o0]) (by rw [n2, n1, n0]) (f3 j c3)
  unfold writeUint32 at h
  by_cases hle : cfg.endian = some LE
  · rw [if_pos hle] at h
    simp only [Except.ok.injEq] at h
    exact four 0 1 2 3 _ _ _ _ (by decide) (by decide) (by decide) (by decide) (by decide)
      (by decide) (by decide) (by decide) h.symm
  · rw [if_neg hle] at h
    by_cases hbe : cfg.endian = some BE
    · rw [if_pos hbe] at h
      simp only [Except.ok.injEq] at h
      exact four 3 2 1 0 _ _ _ _ (by decide) (by decide) (by decide) (by decide) (by decide)
        (by decide) (by decide) (by decide) h.symm
    · rw [if_neg hbe] at h
      simp at h

/-- The function `patchFileBlock` changes at most the four bytes of the body
view at `2 * ptrSize`, ..., `2 * ptrSize + 3`, and never the length of the
memory. -/
theorem patchFileBlock_frame {cfg : FileConfig} {fileBlock body : Buffer} {h : FileBlockHeader}
    {name : String} {old new : Int}
    (hp : patchFileBlock cfg fileBlock h name old new = .ok body) :
    body.mem.length = fileBlock.mem.length ∧
    body.byteOffset = (fileBlock.slice h.length none).byteOffset ∧
    body.length = (fileBlock.slice h.length none).length ∧
    ∀ j : Nat, body.mem[j]? ≠ fileBlock.mem[j]? →
      ∃ (p : Nat) (k : Nat), cfg.ptrSize = some p ∧ k < 4 ∧
        2 * p + k < (fileBlock.slice h.length none).length ∧
        j = (fileBlock.slice h.length none).byteOffset + 2 * p + k := by
  unfold patchFileBlock at hp
  dsimp only at hp
  split at hp
  · simp at hp
  · split at hp
    · simp at hp
    · split at hp
      · simp at hp
      · obtain ⟨hl, ho, hn, hf⟩ := writeUint32_frame hp
        refine ⟨?_, ho, hn, ?_⟩
        · rw [hl]; rfl
        · intro j hj
          have hj' : body.mem[j]? ≠ (fileBlock.slice h.length none).mem[j]? := hj
          obtain ⟨o, k, hoff, hk0, hk4, hok0, hok1, hjj⟩ := hf j hj'
          cases hps : cfg.ptrSize with
          | none => rw [hps] at hoff; simp [twice] at hoff
          | some p =>
            rw [hps] at hoff
            simp only [twice, Option.some.injEq] at hoff
            subst hoff
            refine ⟨p, k.toNat, rfl, by omega, by omega, by omega⟩


/-! ## The length of a string read from a buffer -/

theorem utf8Lead_length (b : Nat) :
    (utf8Lead b).2.length + (if (utf8Lead b).1.bytesNeeded = 0 then 0 else 1) ≤ 1 := by
  unfold utf8Lead
  split_ifs <;> simp_all [Utf8State.init]

theorem utf8Decode_length : ∀ (bs : List Byte) (st : Utf8State),
    (utf8Decode st bs).length ≤ bs.length + (if st.bytesNeeded = 0 then 0 else 1) := by
  intro bs
  induction bs with
  | nil => intro st; unfold utf8Decode; split_ifs <;> simp
  | cons b rest ih =>
    intro st
    unfold utf8Decode
    have hl := utf8Lead_length b.val
    have h1 := ih (utf8Lead b.val).1
    have h2 := ih Utf8State.init
    have h3 := ih ⟨(st.codePoint <<< 6) ||| (b.val &&& 0x3F), st.bytesSeen + 1, st.bytesNeeded,
      0x80, 0xBF⟩
    have h0 : Utf8State.init.bytesNeeded = 0 := rfl
    rw [if_pos h0] at h2
    by_cases c0 : st.bytesNeeded = 0
    · rw [if_pos c0, if_pos c0]
      simp only [List.length_append, List.length_cons]
      omega
    · rw [if_neg c0, if_neg c0]
      dsimp only at h3
      rw [if_neg c0] at h3
      split_ifs
      · simp only [List.length_append, List.length_cons]
        omega
      · simp only [List.length_cons]
        omega
      · simp only [List.length_cons]
        omega

theorem Buffer.length_bytes_le (b : Buffer) : b.bytes.length ≤ b.length := by
  unfold Buffer.bytes
  exact List.length_take_le _ _

/-- A string read from a buffer has at most as many characters as the slice
it is read from has bytes. -/
theorem readString_length_le (b : Buffer) (o n : Int) :
    (readString b o n).data.length ≤ (b.slice o (some (o + n))).length := by
  unfold readString
  have h1 := Buffer.length_bytes_le (b.slice o (some (o + n)))
  have h2 := utf8Decode_length (b.slice o (some (o + n))).bytes Utf8State.init
  have h0 : Utf8State.init.bytesNeeded = 0 := rfl
  rw [if_pos h0] at h2
  have h3 : (jsTrim (utf8Decode Utf8State.init (b.slice o (some (o + n))).bytes)).length ≤
      (utf8Decode Utf8State.init (b.slice o (some (o + n))).bytes).length := by
    unfold jsTrim
    exact le_trans (List.IsPrefix.length_le (List.rdropWhile_prefix _ _))
      (List.IsSuffix.length_le (List.dropWhile_suffix _))
  have h4 : (removeNul (jsTrim (utf8Decode Utf8State.init
      (b.slice o (some (o + n))).bytes))).length ≤
      (jsTrim (utf8Decode Utf8State.init (b.slice o (some (o + n))).bytes)).length := by
    unfold removeNul
    exact List.length_filter_le _ _
  show (removeNul (jsTrim (utf8Decode Utf8State.init
      (b.slice o (some (o + n))).bytes))).length ≤ _
  omega

theorem readUint32_before_view {cfg : FileConfig} {b : Buffer} {o v : Int}
    (h : readUint32 cfg b (some o) = .ok v) (ho : o + 3 < 0) : v = 0 := by
  have g : ∀ k : Int, 0 ≤ k → k ≤ 3 → elemNum (b.get (idxAdd (some o) k)) = 0 := by
    intro k hk0 hk3
    have : ¬ (0 ≤ o + k ∧ o + k < b.length) := by omega
    simp only [idxAdd, Option.map_some', Buffer.get, if_neg this, elemNum]
  unfold readUint32 at h
  rw [g 0 (by decide) (by decide), g 1 (by decide) (by decide), g 2 (by decide) (by decide),
    g 3 (by decide) (by decide)] at h
  have z1 : jsOr (jsOr (jsOr 0 (jsShl 0 8)) (jsShl 0 16)) (jsShl 0 24) = 0 := by decide
  rw [z1] at h
  split_ifs at h
  · simp only [Except.ok.injEq] at h; exact h.symm
  · simp only [Except.ok.injEq] at h; exact h.symm

theorem adjustOffset_cases (x : Int) (n : Nat) :
    (x < 0 ∧ 0 < x + n ∧ (adjustOffset x n : Int) = x + n) ∨
    (x < 0 ∧ x + n ≤ 0 ∧ adjustOffset x n = 0) ∨
    (0 ≤ x ∧ x < n ∧ (adjustOffset x n : Int) = x) ∨
    (0 ≤ x ∧ (n : Int) ≤ x ∧ adjustOffset x n = n) := by
  unfold adjustOffset
  split_ifs <;> omega

theorem Buffer.slice_some (b : Buffer) (start stop : Int) :
    (b.slice start (some stop)).mem = b.mem ∧
    (b.slice start (some stop)).byteOffset = b.byteOffset + adjustOffset start b.length ∧
    (b.slice start (some stop)).length =
      adjustOffset stop b.length - adjustOffset start b.length := by
  unfold Buffer.slice
  refine ⟨rfl, rfl, ?_⟩
  dsimp only
  split_ifs <;> omega

theorem Buffer.slice_none (b : Buffer) (start : Int) :
    (b.slice start none).mem = b.mem ∧
    (b.slice start none).byteOffset = b.byteOffset + adjustOffset start b.length ∧
    (b.slice start none).length = b.length - adjustOffset start b.length := by
  unfold Buffer.slice
  refine ⟨rfl, rfl, ?_⟩
  dsimp only
  split_ifs <;> omega

/-- The body view of a block with code `DATA` starts at the offset the header
gives as `absoluteBodyOffset`, unless the view is empty. -/
theorem bodyView_offset {cfg : FileConfig} {s : ScanState} {h : FileBlockHeader}
    (hh : readFileBlockHeader cfg (Buffer.ofBytes s.fileContent) s.offset = .ok h)
    (hc : h.code = "DATA") (hpos : 0 < (bodyView s h).length) :
    ((bodyView s h).byteOffset : Int) = h.absoluteBodyOffset := by
  obtain ⟨hbl, -, -, hcode, hlen, habs⟩ := readFileBlockHeader_ok hh
  have h4 := readString_length_le (Buffer.ofBytes s.fileContent) (0 + s.offset) 4
  rw [← hcode, hc] at h4
  have h4' : 4 ≤ ((Buffer.ofBytes s.fileContent).slice (0 + s.offset)
      (some (0 + s.offset + 4))).length := h4
  have hz : s.offset + 7 < 0 → h.bodyLength = 0 := fun hneg =>
    readUint32_before_view hbl (by omega)
  rw [habs]
  unfold bodyView at hpos ⊢
  rw [hlen] at hpos ⊢
  obtain ⟨-, -, l1⟩ := Buffer.slice_some (Buffer.ofBytes s.fileContent) (0 + s.offset)
    (0 + s.offset + 4)
  obtain ⟨-, o2, l2⟩ := Buffer.slice_some (Buffer.ofBytes s.fileContent) s.offset
    (s.offset + 24 + h.bodyLength)
  obtain ⟨-, o3, l3⟩ := Buffer.slice_none ((Buffer.ofBytes s.fileContent).slice s.offset
    (some (s.offset + 24 + h.bodyLength))) 24
  rw [l1] at h4'
  rw [l3, l2] at hpos
  rw [o3, o2, l2]
  have hb0 : (Buffer.ofBytes s.fileContent).byteOffset = 0 := rfl
  rw [hb0]
  have c1 := adjustOffset_cases (0 + s.offset) (Buffer.ofBytes s.fileContent).length
  have c2 := adjustOffset_cases (0 + s.offset + 4) (Buffer.ofBytes s.fileContent).length
  have c3 := adjustOffset_cases s.offset (Buffer.ofBytes s.fileContent).length
  have c4 := adjustOffset_cases (s.offset + 24 + h.bodyLength)
    (Buffer.ofBytes s.fileContent).length
  have c5 := adjustOffset_cases 24 (adjustOffset (s.offset + 24 + h.bodyLength)
    (Buffer.ofBytes s.fileContent).length - adjustOffset s.offset
      (Buffer.ofBytes s.fileContent).length)
  generalize adjustOffset 24 (adjustOffset (s.offset + 24 + h.bodyLength)
    (Buffer.ofBytes s.fileContent).length - adjustOffset s.offset
      (Buffer.ofBytes s.fileContent).length) = a5 at *
  generalize adjustOffset (s.offset + 24 + h.bodyLength)
    (Buffer.ofBytes s.fileContent).length = a4 at *
  generalize adjustOffset (0 + s.offset + 4) (Buffer.ofBytes s.fileContent).length = a2 at *
  generalize adjustOffset (0 + s.offset) (Buffer.ofBytes s.fileContent).length = a1 at *
  generalize adjustOffset s.offset (Buffer.ofBytes s.fileContent).length = a3 at *
  generalize (Buffer.ofBytes s.fileContent).length = n at *
  generalize h.bodyLength = bl at *
  generalize s.offset = o at *
  clear hbl hcode hlen habs h4 hh hc l1 l2 l3 o2 o3 hb0
  by_cases hneg : 0 ≤ o
  · clear c1 c2 h4' hz
    have e5 : a5 = 24 := by
      clear c3 c4
      rcases c5 with c5 | c5 | c5 | c5 <;> omega
    clear c5
    have e3 : (a3 : Int) = o := by
      rcases c3 with c3 | c3 | c3 | c3 <;> omega
    omega
  · have e1 : 0 ≤ o + n ∧ o + 4 < 0 := by clear c3 c4 c5 hz hpos; omega
    clear c1 c2 h4'
    have e3 : (a3 : Int) = o + n := by clear c4 c5 hz hpos; omega
    clear c3
    have e4 : a4 ≤ n := by clear c5 hz hpos; omega
    have e5 : 24 < a4 - a3 := by
      clear c4 hz
      rcases c5 with c5 | c5 | c5 | c5 <;> omega
    have e6 : bl = 0 := by clear c4 c5; omega
    subst e6
    clear hz c5
    rcases c4 with c4 | c4 | c4 | c4 <;> omega

/-! ## One pass of the block loop -/

/-- What a pass that does not call `die` did: it read a header, patched the
block when the block was eligible, and stopped at `ENDB` or moved on to
`absoluteBodyOffset + bodyLength`. -/
theorem loopBody_ok {cfg : FileConfig} {args : Args} {sdnaIndex : Int} {s s1 : ScanState}
    (hb : loopBody cfg args sdnaIndex s = .done s1 ∨ loopBody cfg args sdnaIndex s = .next s1) :
    ∃ h, readFileBlockHeader cfg (Buffer.ofBytes s.fileContent) s.offset = .ok h ∧
      ((eligible h sdnaIndex = true ∧
          ∃ body, patchFileBlock cfg ((Buffer.ofBytes s.fileContent).slice s.offset
              (some (s.offset + h.length + h.bodyLength))) h args.modifierName args.oldEnumType
              args.newEnumType = .ok body ∧
            s1.fileContent = body.mem ∧ s1.numBlocksPatched = s.numBlocksPatched + 1) ∨
        (eligible h sdnaIndex = false ∧ s1.fileContent = s.fileContent ∧
          s1.numBlocksPatched = s.numBlocksPatched)) ∧
      ((h.code = "ENDB" ∧ loopBody cfg args sdnaIndex s = .done s1 ∧ s1.offset = s.offset) ∨
        (h.code ≠ "ENDB" ∧ loopBody cfg args sdnaIndex s = .next s1 ∧
          s1.offset = h.absoluteBodyOffset + h.bodyLength)) := by
  have hb' := hb
  unfold loopBody at hb
  split at hb
  · simp at hb
  · rename_i header hh
    refine ⟨header, hh, ?_⟩
    dsimp only at hb
    by_cases he : eligible header sdnaIndex = true
    · simp only [he, if_true] at hb
      split at hb
      · simp at hb
      · rename_i s3 h3
        split at h3
        · simp at h3
        · rename_i body hbody
          simp only [Except.ok.injEq] at h3
          subst h3
          split at hb
          · rename_i hc
            rcases hb with hb | hb
            · simp only [Step.done.injEq] at hb
              subst hb
              refine ⟨Or.inl ⟨he, body, hbody, rfl, rfl⟩, Or.inl ⟨hc, ?_, rfl⟩⟩
              rcases hb' with hb' | hb'
              · exact hb'
              · exfalso
                unfold loopBody at hb'
                rw [hh] at hb'
                simp [he, hbody, hc] at hb'
            · simp at hb
          · rename_i hc
            rcases hb with hb | hb
            · simp at hb
            · simp only [Step.next.injEq] at hb
              subst hb
              refine ⟨Or.inl ⟨he, body, hbody, rfl, rfl⟩, Or.inr ⟨hc, ?_, rfl⟩⟩
              rcases hb' with hb' | hb'
              · exfalso
                unfold loopBody at hb'
                rw [hh] at hb'
                simp [he, hbody, hc] at hb'
              · exact hb'
    · have he' : eligible header sdnaIndex = false := by simpa using he
      simp only [he', Bool.false_eq_true, if_false] at hb
      split at hb
      · rename_i hc
        rcases hb with hb | hb
        · simp only [Step.done.injEq] at hb
          subst hb
          refine ⟨Or.inr ⟨he', rfl, rfl⟩, Or.inl ⟨hc, ?_, rfl⟩⟩
          rcases hb' with hb' | hb'
          · exact hb'
          · exfalso
            unfold loopBody at hb'
            rw [hh] at hb'
            simp [he', hc] at hb'
        · simp at hb
      · rename_i hc
        rcases hb with hb | hb
        · simp at hb
        · simp only [Step.next.injEq] at hb
          subst hb
          refine ⟨Or.inr ⟨he', rfl, rfl⟩, Or.inr ⟨hc, ?_, rfl⟩⟩
          rcases hb' with hb' | hb'
          · exfalso
            unfold loopBody at hb'
            rw [hh] at hb'
            simp [he', hc] at hb'
          · exact hb'

/-- A pass that does not call `die` keeps the length of the file and changes
at most the four bytes at `absoluteBodyOffset + 2 * ptrSize` of the block it
started at, and only when that block is eligible. -/
theorem loopBody_frame {cfg : FileConfig} {args : Args} {sdnaIndex : Int} {s s1 : ScanState}
    (hb : loopBody cfg args sdnaIndex s = .done s1 ∨ loopBody cfg args sdnaIndex s = .next s1) :
    s1.fileContent.length = s.fileContent.length ∧
    ∀ j : Nat, s1.fileContent[j]? ≠ s.fileContent[j]? →
      ∃ (h : FileBlockHeader) (p : Nat),
        readFileBlockHeader cfg (Buffer.ofBytes s.fileContent) s.offset = .ok h ∧
        eligible h sdnaIndex = true ∧ cfg.ptrSize = some p ∧
        h.absoluteBodyOffset + 2 * (p : Int) ≤ (j : Int) ∧
        (j : Int) < h.absoluteBodyOffset + 2 * (p : Int) + 4 := by
  obtain ⟨h, hh, hp, -⟩ := loopBody_ok hb
  rcases hp with ⟨he, body, hbody, hmem, -⟩ | ⟨-, hmem, -⟩
  · obtain ⟨hl, -, -, hf⟩ := patchFileBlock_frame hbody
    rw [hmem]
    refine ⟨hl, ?_⟩
    intro j hj
    obtain ⟨p, k, hps, hk, hlt, hjj⟩ := hf j hj
    have hc : h.code = "DATA" := by
      simp only [eligible, Bool.and_eq_true, decide_eq_true_eq] at he
      exact he.1
    have hoff := bodyView_offset hh hc (by unfold bodyView; omega)
    unfold bodyView at hoff
    refine ⟨h, p, hh, he, hps, ?_, ?_⟩ <;> omega
  · rw [hmem]
    exact ⟨rfl, fun j hj => absurd rfl hj⟩

/-- The block loop keeps the length of the file and changes at most bytes in
the enum field of an eligible block at which one of its passes started. -/
theorem loop_frame (cfg : FileConfig) (args : Args) (sdnaIndex : Int) :
    ∀ (fuel : Nat) (s s1 : ScanState), loop cfg args sdnaIndex fuel s = some (.ok s1) →
      s1.fileContent.length = s.fileContent.length ∧
      ∀ j : Nat, s1.fileContent[j]? ≠ s.fileContent[j]? →
        ∃ q ∈ passes cfg args sdnaIndex fuel s, ∃ (h : FileBlockHeader) (p : Nat),
          readFileBlockHeader cfg (Buffer.ofBytes q.fileContent) q.offset = .ok h ∧
          eligible h sdnaIndex = true ∧ cfg.ptrSize = some p ∧
          h.absoluteBodyOffset + 2 * (p : Int) ≤ (j : Int) ∧
          (j : Int) < h.absoluteBodyOffset + 2 * (p : Int) + 4 := by
  intro fuel
  induction fuel with
  | zero => intro s s1 h; simp [loop] at h
  | succ n ih =>
    intro s s1 h
    simp only [loop] at h
    cases hb : loopBody cfg args sdnaIndex s with
    | died e => rw [hb] at h; simp at h
    | done s2 =>
      rw [hb] at h
      simp only [Option.some.injEq, Except.ok.injEq] at h
      subst h
      obtain ⟨hl, hf⟩ := loopBody_frame (Or.inl hb)
      refine ⟨hl, fun j hj => ?_⟩
      exact ⟨s, by simp [passes], hf j hj⟩
    | next s2 =>
      rw [hb] at h
      obtain ⟨hl, hf⟩ := loopBody_frame (Or.inr hb)
      obtain ⟨hl2, hf2⟩ := ih s2 s1 h
      refine ⟨hl2.trans hl, fun j hj => ?_⟩
      by_cases c : s1.fileContent[j]? = s2.fileContent[j]?
      · exact ⟨s, by simp [passes], hf j (by rw [← c]; exact hj)⟩
      · obtain ⟨q, hq, hrest⟩ := hf2 j c
        exact ⟨q, by simp [passes, hb, hq], hrest⟩

/-- C1: when a run completes without `die`, the buffer it leaves (and writes,
when it writes) has the length of the input, and every byte of it is the byte
of the input at the same index, unless the index lies in the four bytes
`[absoluteBodyOffset + 2 * ptrSize, absoluteBodyOffset + 2 * ptrSize + 4)` of
a block with code `DATA` and the looked-up SDNA index at which a pass of the
block loop started. -/
theorem run_changes_only_enum_fields (fuel : Nat) (args : Args) (fileContent : List Byte)
    (dna1 : Dna1Body) (cfg : FileConfig) (r : RunResult)
    (hcfg : readHeader (Buffer.ofBytes fileContent) (Buffer.ofBytes fileContent) HEADER_OFFSET
      = .ok cfg)
    (hrun : main fuel args fileContent dna1 = some (.ok r)) :
    r.fileContent.length = fileContent.length ∧
    (∀ w, r.written = some w → w.2 = r.fileContent) ∧
    ∀ j : Nat,
      (¬ ∃ q ∈ passes cfg args
          (lookupSdnaIndexForModifierDataStruct dna1 args.modifierDataTypeName) fuel
          (initialState fileContent),
        ∃ (h : FileBlockHeader) (p : Nat),
          readFileBlockHeader cfg (Buffer.ofBytes q.fileContent) q.offset = .ok h ∧
          h.code = "DATA" ∧
          h.sdnaIndex = lookupSdnaIndexForModifierDataStruct dna1 args.modifierDataTypeName ∧
          cfg.ptrSize = some p ∧
          h.absoluteBodyOffset + 2 * (p : Int) ≤ (j : Int) ∧
          (j : Int) < h.absoluteBodyOffset + 2 * (p : Int) + 4) →
      r.fileContent[j]? = fileContent[j]? := by
  obtain ⟨cfg1, s, hcfg1, hloop, hr⟩ := main_ok hrun
  rw [hcfg] at hcfg1
  simp only [Except.ok.injEq] at hcfg1
  subst hcfg1
  have hfc : r.fileContent = s.fileContent := by
    subst hr; unfold finalize; split <;> rfl
  obtain ⟨hl, hf⟩ := loop_frame cfg args _ fuel _ _ hloop
  refine ⟨by rw [hfc]; exact hl, ?_, ?_⟩
  · intro w hw
    subst hr
    unfold finalize at hw ⊢
    split at hw
    · rename_i hpos
      rw [if_pos hpos]
      simp only [Option.some.injEq] at hw
      rw [← hw]
    · simp at hw
  · intro j hj
    rw [hfc]
    by_contra hne
    apply hj
    obtain ⟨q, hq, h, p, hh, he, hps, h1, h2⟩ := hf j hne
    simp only [eligible, Bool.and_eq_true, decide_eq_true_eq] at he
    exact ⟨q, hq, h, p, hh, he.1, he.2, hps, h1, h2⟩

set_option maxRecDepth 100000 in
/-- C1 at the file `[DATA (struct 1), DATA (struct 0), DNA1, ENDB]`. -/
theorem run_changes_only_enum_fields_witness :
    main 4 exampleArgs fileMatchNonMatch exampleDna =
      some (.ok ⟨fileMatchNonMatchPatched, 1,
        some ("a_converted.blend", fileMatchNonMatchPatched)⟩) ∧
    fileMatchNonMatchPatched.length = fileMatchNonMatch.length := by
  have hrun : main 4 exampleArgs fileMatchNonMatch exampleDna =
      some (.ok ⟨fileMatchNonMatchPatched, 1,
        some ("a_converted.blend", fileMatchNonMatchPatched)⟩) := by decide
  exact ⟨hrun, (run_changes_only_enum_fields 4 exampleArgs fileMatchNonMatch exampleDna cfgLE64 _
    (by decide) hrun).1⟩


/-! ## Reads depend only on the bytes they look at -/

theorem Buffer.Agree.get {b b1 : Buffer} (h : b.Agree b1) (idx : Option Int) :
    b.get idx = b1.get idx := by
  obtain ⟨ho, hl, hm⟩ := h
  cases idx with
  | none => rfl
  | some i =>
    simp only [Buffer.get]
    rw [← hl, ← ho]
    by_cases c : 0 ≤ i ∧ i < b.length
    · rw [if_pos c, if_pos c]
      exact hm _ (Nat.le_add_right _ _)
    · rw [if_neg c, if_neg c]

theorem Buffer.Agree.bytes {b b1 : Buffer} (h : b.Agree b1) : b.bytes = b1.bytes := by
  obtain ⟨ho, hl, hm⟩ := h
  unfold Buffer.bytes
  rw [← hl, ← ho]
  apply List.ext_getElem?
  intro k
  by_cases c : k < b.length
  · rw [List.getElem?_take_of_lt c, List.getElem?_take_of_lt c, List.getElem?_drop,
      List.getElem?_drop]
    exact hm _ (Nat.le_add_right _ _)
  · rw [List.getElem?_take_eq_none (by omega), List.getElem?_take_eq_none (by omega)]

theorem Buffer.Agree.slice {b b1 : Buffer} (h : b.Agree b1) (start : Int) (stop : Option Int) :
    (b.slice start stop).Agree (b1.slice start stop) := by
  obtain ⟨ho, hl, hm⟩ := h
  unfold Buffer.slice
  rw [← hl, ← ho]
  refine ⟨rfl, rfl, ?_⟩
  intro j hj
  exact hm j (le_trans (Nat.le_add_right _ _) hj)

theorem Buffer.Agree.readUint32 {b b1 : Buffer} (h : b.Agree b1) (cfg : FileConfig)
    (idx : Option Int) : readUint32 cfg b idx = readUint32 cfg b1 idx := by
  unfold BlModconv.readUint32
  rw [h.get, h.get, h.get, h.get]

theorem Buffer.Agree.readString {b b1 : Buffer} (h : b.Agree b1) (o n : Int) :
    readString b o n = readString b1 o n := by
  unfold BlModconv.readString
  rw [(h.slice o (some (o + n))).bytes]

/-- Two files of the same length that agree from an offset on. -/
theorem slice_agree_of_sameFrom {m m1 : List Byte} {o : Nat} (hlen : m.length = m1.length)
    (hsame : ∀ j : Nat, o ≤ j → m[j]? = m1[j]?) (ho : o ≤ m.length) (stop : Option Int) :
    ((Buffer.ofBytes m).slice (o : Int) stop).Agree ((Buffer.ofBytes m1).slice (o : Int) stop) := by
  have ha : adjustOffset (o : Int) m.length = o := by
    have := adjustOffset_cases (o : Int) m.length
    omega
  unfold Buffer.Agree Buffer.slice Buffer.ofBytes
  simp only [← hlen, ha, true_and]
  intro j hj
  exact hsame j (by omega)

theorem readUint32_sameFrom {m m1 : List Byte} {o : Nat} (hlen : m.length = m1.length)
    (hsame : ∀ j : Nat, o ≤ j → m[j]? = m1[j]?) (cfg : FileConfig) (i : Int) (hi : (o : Int) ≤ i) :
    readUint32 cfg (Buffer.ofBytes m) (some i) = readUint32 cfg (Buffer.ofBytes m1) (some i) := by
  have g : ∀ k : Int, 0 ≤ k → (Buffer.ofBytes m).get (idxAdd (some i) k) =
      (Buffer.ofBytes m1).get (idxAdd (some i) k) := by
    intro k hk
    simp only [idxAdd, Option.map_some', Buffer.get, Buffer.ofBytes, ← hlen]
    by_cases c : 0 ≤ i + k ∧ i + k < m.length
    · rw [if_pos c, if_pos c]
      exact hsame _ (by omega)
    · rw [if_neg c, if_neg c]
  unfold readUint32
  rw [g 0 (by decide), g 1 (by decide), g 2 (by decide), g 3 (by decide)]

/-- The header read at an offset depends only on the length of the file and
on its bytes from that offset on. -/
theorem readFileBlockHeader_sameFrom {m m1 : List Byte} {o : Nat} (hlen : m.length = m1.length)
    (hsame : ∀ j : Nat, o ≤ j → m[j]? = m1[j]?) (ho : o ≤ m.length) (cfg : FileConfig) :
    readFileBlockHeader cfg (Buffer.ofBytes m) (o : Int) =
      readFileBlockHeader cfg (Buffer.ofBytes m1) (o : Int) := by
  unfold readFileBlockHeader
  rw [readUint32_sameFrom hlen hsame cfg (4 + (o : Int)) (by omega),
    readUint32_sameFrom hlen hsame cfg (16 + (o : Int)) (by omega),
    readUint32_sameFrom hlen hsame cfg (20 + (o : Int)) (by omega)]
  have hs : readString (Buffer.ofBytes m) (0 + (o : Int)) 4 =
      readString (Buffer.ofBytes m1) (0 + (o : Int)) 4 := by
    unfold readString
    rw [Int.zero_add]
    rw [(slice_agree_of_sameFrom hlen hsame ho (some ((o : Int) + 4))).bytes]
  rw [hs]

/-- The body view of the block at an offset shows the same bytes in two files
of the same length that agree from the offset on. -/
theorem bodyView_agree {m m1 : List Byte} {o : Nat} (hlen : m.length = m1.length)
    (hsame : ∀ j : Nat, o ≤ j → m[j]? = m1[j]?) (ho : o ≤ m.length) (h : FileBlockHeader)
    (n n1 : Nat) :
    (bodyView ⟨m, (o : Int), n⟩ h).Agree (bodyView ⟨m1, (o : Int), n1⟩ h) := by
  unfold bodyView
  exact (slice_agree_of_sameFrom hlen hsame ho _).slice _ _

theorem int32OfBits_range (n : Nat) :
    -2147483648 ≤ int32OfBits n ∧ int32OfBits n < 2147483648 := by
  unfold int32OfBits
  split_ifs <;> omega

theorem readUint32_range {cfg : FileConfig} {b : Buffer} {idx : Option Int} {v : Int}
    (h : readUint32 cfg b idx = .ok v) : -2147483648 ≤ v ∧ v < 2147483648 := by
  unfold readUint32 at h
  split_ifs at h
  · simp only [Except.ok.injEq] at h; rw [← h]; exact int32OfBits_range _
  · simp only [Except.ok.injEq] at h; rw [← h]; exact int32OfBits_range _

theorem toUint32_eq_self {v : Int} (h1 : -2147483648 ≤ v) (h2 : v < 2147483648)
    (h3 : toUint32 v < 2147483648) : (toUint32 v : Int) = v := by
  unfold toUint32 at h3 ⊢
  omega


/-! ## The block loop on a well-formed block sequence -/

theorem isChain_single {cfg : FileConfig} {mem : List Byte} {o x : Nat}
    (h : isChain cfg mem o [x] = true) :
    x = o ∧ o + 24 ≤ mem.length ∧
    ∃ hd, readFileBlockHeader cfg (Buffer.ofBytes mem) (o : Int) = .ok hd ∧ hd.code = "ENDB" := by
  unfold isChain at h
  simp only [Bool.and_eq_true, decide_eq_true_eq] at h
  obtain ⟨⟨h1, h2⟩, h3⟩ := h
  refine ⟨h1, h2, ?_⟩
  split at h3
  · simp at h3
  · rename_i hd hh
    simp only [decide_eq_true_eq] at h3
    exact ⟨hd, hh, h3⟩

theorem isChain_cons {cfg : FileConfig} {mem : List Byte} {o x y : Nat} {rest : List Nat}
    (h : isChain cfg mem o (x :: y :: rest) = true) :
    x = o ∧ o + 24 ≤ mem.length ∧
    (∃ hd, readFileBlockHeader cfg (Buffer.ofBytes mem) (o : Int) = .ok hd ∧ hd.code ≠ "ENDB" ∧
      y = o + 24 + toUint32 hd.bodyLength) ∧
    isChain cfg mem y (y :: rest) = true := by
  unfold isChain at h
  simp only [Bool.and_eq_true, decide_eq_true_eq] at h
  obtain ⟨⟨h1, h2⟩, h3⟩ := h
  refine ⟨h1, h2, ?_⟩
  split at h3
  · simp at h3
  · rename_i hd hh
    simp only [Bool.and_eq_true, decide_eq_true_eq] at h3
    exact ⟨⟨hd, hh, h3.1.1, h3.1.2⟩, h3.2⟩

/-- The body view of a block ends at or before `offset + 24 + bodyLength`. -/
theorem bodyView_end {s : ScanState} {h : FileBlockHeader} (hlen : h.length = 24)
    (hpos : 0 < (bodyView s h).length) (hnn : 0 ≤ s.offset + 24 + h.bodyLength) :
    (((bodyView s h).byteOffset + (bodyView s h).length : Nat) : Int) ≤
      s.offset + 24 + h.bodyLength := by
  unfold bodyView at hpos ⊢
  rw [hlen] at hpos ⊢
  obtain ⟨-, o2, l2⟩ := Buffer.slice_some (Buffer.ofBytes s.fileContent) s.offset
    (s.offset + 24 + h.bodyLength)
  obtain ⟨-, o3, l3⟩ := Buffer.slice_none ((Buffer.ofBytes s.fileContent).slice s.offset
    (some (s.offset + 24 + h.bodyLength))) 24
  rw [l3, l2] at hpos
  rw [o3, o2, l3, l2]
  have hb0 : (Buffer.ofBytes s.fileContent).byteOffset = 0 := rfl
  rw [hb0]
  have c4 := adjustOffset_cases (s.offset + 24 + h.bodyLength)
    (Buffer.ofBytes s.fileContent).length
  generalize adjustOffset 24 (adjustOffset (s.offset + 24 + h.bodyLength)
    (Buffer.ofBytes s.fileContent).length - adjustOffset s.offset
      (Buffer.ofBytes s.fileContent).length) = a5 at *
  generalize adjustOffset (s.offset + 24 + h.bodyLength)
    (Buffer.ofBytes s.fileContent).length = a4 at *
  generalize adjustOffset s.offset (Buffer.ofBytes s.fileContent).length = a3 at *
  generalize (Buffer.ofBytes s.fileContent).length = n at *
  generalize s.offset + 24 + h.bodyLength = x at *
  clear l2 l3 o2 o3 hb0 hlen
  rcases c4 with c4 | c4 | c4 | c4 <;> omega

theorem writeUint32_ok_of_endian {cfg : FileConfig}
    (h : cfg.endian = some LE ∨ cfg.endian = some BE) (b : Buffer) (o : Option Int) (v : Int) :
    ∃ b1, writeUint32 cfg b o v = .ok b1 := by
  unfold writeUint32
  rcases h with h | h
  · rw [if_pos h]; exact ⟨_, rfl⟩
  · by_cases h2 : cfg.endian = some LE
    · rw [if_pos h2]; exact ⟨_, rfl⟩
    · rw [if_neg h2, if_pos h]; exact ⟨_, rfl⟩

/-- A pass that starts at a block of a well-formed sequence, in a buffer that
still has the bytes of the file from that block on. -/
theorem pass_of_chain_block {cfg : FileConfig} {args : Args} {sdnaIndex : Int} {mem : List Byte}
    {s : ScanState} {o : Nat} {hd : FileBlockHeader}
    (hlen : s.fileContent.length = mem.length)
    (hsame : ∀ j : Nat, o ≤ j → s.fileContent[j]? = mem[j]?)
    (hso : s.offset = (o : Int)) (ho : o + 24 ≤ mem.length)
    (hh : readFileBlockHeader cfg (Buffer.ofBytes mem) (o : Int) = .ok hd)
    (hv : blockValid cfg args sdnaIndex mem o = true)
    (hbl : hd.code ≠ "ENDB" → 0 ≤ hd.bodyLength) :
    ∃ s1, (loopBody cfg args sdnaIndex s = .done s1 ∨ loopBody cfg args sdnaIndex s = .next s1) ∧
      (hd.code = "ENDB" → loopBody cfg args sdnaIndex s = .done s1) ∧
      (hd.code ≠ "ENDB" → loopBody cfg args sdnaIndex s = .next s1 ∧
        s1.offset = (o : Int) + 24 + hd.bodyLength) ∧
      s1.numBlocksPatched = s.numBlocksPatched +
        (if eligibleAt cfg sdnaIndex (passAt mem o) = true then 1 else 0) ∧
      s1.fileContent.length = mem.length ∧
      (∀ j : Nat, s1.fileContent[j]? ≠ s.fileContent[j]? →
        hd.code = "DATA" ∧ (j : Int) < (o : Int) + 24 + hd.bodyLength) := by
  obtain ⟨mem0, off0, n0⟩ := s
  dsimp only at hlen hsame hso
  subst hso
  have hh0 : readFileBlockHeader cfg (Buffer.ofBytes mem0) (o : Int) = .ok hd := by
    rw [readFileBlockHeader_sameFrom hlen hsame (by omega) cfg]; exact hh
  obtain ⟨-, -, -, -, hlen24, habs⟩ := readFileBlockHeader_ok hh
  have hea : eligibleAt cfg sdnaIndex (passAt mem o) = eligible hd sdnaIndex := by
    unfold eligibleAt passAt
    dsimp only
    rw [hh]
  rw [hea]
  have hagree := bodyView_agree hlen hsame (by omega) hd n0 0
  -- the pass does not call `die`
  have hnd : ∃ s1, loopBody cfg args sdnaIndex ⟨mem0, (o : Int), n0⟩ = .done s1 ∨
      loopBody cfg args sdnaIndex ⟨mem0, (o : Int), n0⟩ = .next s1 := by
    unfold loopBody
    dsimp only
    rw [hh0]
    dsimp only
    by_cases he : eligible hd sdnaIndex = true
    · rw [if_pos he]
      have hnm : ¬ mismatch cfg args (passAt mem o) hd := by
        unfold blockValid at hv
        rw [hh] at hv
        simpa [he] using hv
      unfold mismatch at hnm
      simp only [not_or, not_not] at hnm
      obtain ⟨hname, henum⟩ := hnm
      have hname0 : readString (bodyView ⟨mem0, (o : Int), n0⟩ hd) 32 64 = args.modifierName := by
        rw [hagree.readString]; exact hname
      have henum0 : readUint32 cfg (bodyView ⟨mem0, (o : Int), n0⟩ hd) (twice cfg.ptrSize) =
          .ok args.oldEnumType := by
        rw [hagree.readUint32]; exact henum
      obtain ⟨body, hbody⟩ := writeUint32_ok_of_endian (endian_of_header_ok hh)
        (bodyView ⟨mem0, (o : Int), n0⟩ hd) (twice cfg.ptrSize) args.newEnumType
      have hpatch : patchFileBlock cfg ((Buffer.ofBytes mem0).slice (o : Int)
          (some ((o : Int) + hd.length + hd.bodyLength))) hd args.modifierName args.oldEnumType
          args.newEnumType = .ok body := by
        unfold patchFileBlock
        unfold bodyView at hname0 henum0 hbody
        dsimp only at hname0 henum0 hbody ⊢
        rw [henum0]
        dsimp only
        rw [if_neg (by rw [hname0]; exact fun hc => hc rfl), if_neg (fun hc => hc rfl)]
        exact hbody
      rw [hpatch]
      dsimp only
      by_cases hc : hd.code = "ENDB"
      · rw [if_pos hc]; exact ⟨_, Or.inl rfl⟩
      · rw [if_neg hc]; exact ⟨_, Or.inr rfl⟩
    · rw [if_neg he]
      dsimp only
      by_cases hc : hd.code = "ENDB"
      · rw [if_pos hc]; exact ⟨_, Or.inl rfl⟩
      · rw [if_neg hc]; exact ⟨_, Or.inr rfl⟩
  obtain ⟨s1, hs1⟩ := hnd
  obtain ⟨h, hh1, hp, hq⟩ := loopBody_ok hs1
  dsimp only at hh1 hp hq
  rw [hh0] at hh1
  simp only [Except.ok.injEq] at hh1
  subst hh1
  refine ⟨s1, hs1, ?_, ?_, ?_, ?_, ?_⟩
  · intro hc
    rcases hq with ⟨-, hq, -⟩ | ⟨hq, -, -⟩
    · exact hq
    · exact absurd hc hq
  · intro hc
    rcases hq with ⟨hq, -, -⟩ | ⟨-, hq, hoff⟩
    · exact absurd hq hc
    · refine ⟨hq, ?_⟩
      rw [hoff, habs]
      omega
  · rcases hp with ⟨he, -, -, -, hn⟩ | ⟨he, -, hn⟩
    · rw [hn, he]; rfl
    · rw [hn, he]; rfl
  · obtain ⟨hl, -⟩ := loopBody_frame hs1
    rw [hl]; exact hlen
  · intro j hj
    rcases hp with ⟨he, body, hbody, hmem, -⟩ | ⟨-, hmem, -⟩
    · have hc : hd.code = "DATA" := by
        simp only [eligible, Bool.and_eq_true, decide_eq_true_eq] at he
        exact he.1
      refine ⟨hc, ?_⟩
      obtain ⟨-, -, -, hf⟩ := patchFileBlock_frame hbody
      rw [hmem] at hj
      obtain ⟨p, k, -, -, hlt, hjj⟩ := hf j hj
      have hnn : 0 ≤ hd.bodyLength := hbl (by rw [hc]; decide)
      have hend := bodyView_end (s := ⟨mem0, (o : Int), n0⟩) hlen24
        (by unfold bodyView; dsimp only; omega) (by dsimp only; omega)
      unfold bodyView at hend
      dsimp only at hend
      omega
    · rw [hmem] at hj
      exact absurd rfl hj


theorem countEligible_cons (cfg : FileConfig) (sdnaIndex : Int) (mem : List Byte) (o : Nat)
    (rest : List Nat) :
    countEligible cfg sdnaIndex mem (o :: rest) =
      (if eligibleAt cfg sdnaIndex (passAt mem o) = true then 1 else 0) +
        countEligible cfg sdnaIndex mem rest := by
  unfold countEligible
  by_cases h : eligibleAt cfg sdnaIndex (passAt mem o) = true
  · rw [List.filter_cons_of_pos (p := fun o => eligibleAt cfg sdnaIndex (passAt mem o)) h,
      if_pos h, List.length_cons]
    omega
  · rw [List.filter_cons_of_neg (p := fun o => eligibleAt cfg sdnaIndex (passAt mem o)) h,
      if_neg h]
    omega

/-- The block loop on a well-formed block sequence, started at a block of the
sequence in a buffer that still has the bytes of the file from there on. -/
theorem loop_chain (cfg : FileConfig) (args : Args) (sdnaIndex : Int) (mem : List Byte)
    (hbound : mem.length < 2147483648) :
    ∀ (chain : List Nat) (o : Nat) (s : ScanState),
      isChain cfg mem o chain = true → chainValid cfg args sdnaIndex mem chain →
      s.offset = (o : Int) → s.fileContent.length = mem.length →
      (∀ j : Nat, o ≤ j → s.fileContent[j]? = mem[j]?) →
      ∀ fuel, chain.length ≤ fuel →
        ∃ s1, loop cfg args sdnaIndex fuel s = some (.ok s1) ∧
          (passes cfg args sdnaIndex fuel s).map (fun q => q.offset) =
            chain.map Int.ofNat ∧
          s1.numBlocksPatched = s.numBlocksPatched + countEligible cfg sdnaIndex mem chain ∧
          s1.fileContent.length = mem.length ∧
          ∀ e ∈ chain.getLast?, ∀ j : Nat, e ≤ j → s1.fileContent[j]? = mem[j]? := by
  intro chain
  induction chain with
  | nil => intro o s hc; simp [isChain] at hc
  | cons x rest ih =>
    intro o s hc hvalid hso hlen hsame fuel hfuel
    obtain ⟨f, rfl⟩ : ∃ f, fuel = f + 1 := ⟨fuel - 1, by simp only [List.length_cons] at hfuel; omega⟩
    have hvx : blockValid cfg args sdnaIndex mem x = true := hvalid x (List.mem_cons_self _ _)
    cases rest with
    | nil =>
      obtain ⟨hx, ho, hd, hh, hcode⟩ := isChain_single hc
      subst hx
      obtain ⟨s1, -, hdone, -, hnum, hl1, hfr⟩ := pass_of_chain_block hlen hsame hso ho hh hvx
        (fun hne => absurd hcode hne)
      have hdone := hdone hcode
      refine ⟨s1, ?_, ?_, ?_, hl1, ?_⟩
      · simp only [loop, hdone]
      · simp only [passes, hdone, List.map_cons, List.map_nil, hso]
        rfl
      · rw [hnum, countEligible_cons]
        simp [countEligible]
      · intro e he j hj
        simp only [List.getLast?_singleton, Option.mem_def, Option.some.injEq] at he
        subst he
        by_cases c : s1.fileContent[j]? = s.fileContent[j]?
        · rw [c]; exact hsame j hj
        · have := (hfr j c).1
          rw [hcode] at this
          exact absurd this (by decide)
    | cons y tail =>
      obtain ⟨hx, ho, ⟨hd, hh, hcode, hy⟩, hrest⟩ := isChain_cons hc
      subst hx
      have hy24 : y + 24 ≤ mem.length := by
        cases tail with
        | nil => exact (isChain_single hrest).2.1
        | cons z t => exact (isChain_cons hrest).2.1
      have hrange := readUint32_range (readFileBlockHeader_ok hh).1
      have hbl : (toUint32 hd.bodyLength : Int) = hd.bodyLength :=
        toUint32_eq_self hrange.1 hrange.2 (by omega)
      obtain ⟨s1, -, -, hnext, hnum, hl1, hfr⟩ := pass_of_chain_block hlen hsame hso ho hh hvx
        (fun _ => by omega)
      obtain ⟨hnext, hoff⟩ := hnext hcode
      have hoff1 : s1.offset = (y : Int) := by rw [hoff, hy]; push_cast; omega
      have hsame1 : ∀ j : Nat, y ≤ j → s1.fileContent[j]? = mem[j]? := by
        intro j hj
        by_cases c : s1.fileContent[j]? = s.fileContent[j]?
        · rw [c]; exact hsame j (by omega)
        · have := (hfr j c).2
          omega
      have hvalid1 : chainValid cfg args sdnaIndex mem (y :: tail) :=
        fun z hz => hvalid z (List.mem_cons_of_mem _ hz)
      obtain ⟨s2, hloop, hpass, hnum2, hl2, hlast⟩ := ih y s1 hrest hvalid1 hoff1 hl1 hsame1 f
        (by simp only [List.length_cons] at hfuel ⊢; omega)
      refine ⟨s2, ?_, ?_, ?_, hl2, ?_⟩
      · simp only [loop, hnext]; exact hloop
      · simp only [passes, hnext, List.map_cons, hso]
        rw [hpass]
        rfl
      · rw [hnum2, hnum, countEligible_cons cfg sdnaIndex mem x]
        omega
      · intro e he j hj
        rw [List.getLast?_cons_cons] at he
        exact hlast e he j hj

/-- C8: on a file of less than 2^31 bytes (`fs.readFileSync` reads no larger
one) whose blocks from offset 12 on are a well-formed sequence `chain` (each
header lies in the file, each block but the last has a code other than `ENDB`
and the next block starts at `offset + 24 + bodyLength`, the last block has
code `ENDB`) and in which every eligible block has the expected name and old
enum value, the run returns with any fuel of at least the number of blocks;
its passes start exactly at the offsets of the chain, in order, the last at
the `ENDB` block; no byte from the offset of the `ENDB` block on is changed;
and `numBlocksPatched` is the number of blocks of the chain with code `DATA`
and the looked-up SDNA index. -/
theorem scan_of_wellformed_chain (args : Args) (fileContent : List Byte) (dna1 : Dna1Body)
    (cfg : FileConfig) (chain : List Nat)
    (hcfg : readHeader (Buffer.ofBytes fileContent) (Buffer.ofBytes fileContent) HEADER_OFFSET
      = .ok cfg)
    (hbound : fileContent.length < 2147483648)
    (hchain : isChain cfg fileContent 12 chain = true)
    (hvalid : chainValid cfg args
      (lookupSdnaIndexForModifierDataStruct dna1 args.modifierDataTypeName) fileContent chain) :
    ∀ fuel, chain.length ≤ fuel →
      ∃ r, main fuel args fileContent dna1 = some (.ok r) ∧
        (passes cfg args (lookupSdnaIndexForModifierDataStruct dna1 args.modifierDataTypeName)
          fuel (initialState fileContent)).map (fun q => q.offset) =
          chain.map Int.ofNat ∧
        r.numBlocksPatched = countEligible cfg
          (lookupSdnaIndexForModifierDataStruct dna1 args.modifierDataTypeName) fileContent
          chain ∧
        r.fileContent.length = fileContent.length ∧
        ∀ e ∈ chain.getLast?, ∀ j : Nat, e ≤ j → r.fileContent[j]? = fileContent[j]? := by
  intro fuel hfuel
  obtain ⟨s1, hloop, hpass, hnum, hl, hlast⟩ := loop_chain cfg args _ fileContent hbound chain 12
    (initialState fileContent) hchain hvalid rfl rfl (fun _ _ => rfl) fuel hfuel
  have hmain : main fuel args fileContent dna1 = some (.ok (finalize args s1)) := by
    unfold main
    rw [hcfg]
    dsimp only
    rw [hloop]
  have hfc : (finalize args s1).fileContent = s1.fileContent := by
    unfold finalize; split <;> rfl
  have hn : (finalize args s1).numBlocksPatched = s1.numBlocksPatched := by
    unfold finalize; split <;> rfl
  refine ⟨finalize args s1, hmain, hpass, ?_, ?_, ?_⟩
  · rw [hn, hnum]; simp [initialState]
  · rw [hfc]; exact hl
  · rw [hfc]; exact hlast

set_option maxRecDepth 100000 in
/-- C8 at the block sequence `[DATA (struct 1), DATA (struct 0), ENDB]`: the
passes start at the three blocks and exactly one block is patched. -/
theorem scan_of_wellformed_chain_witness :
    ∃ r, main 3 exampleArgs fileThreeBlocks exampleDna = some (.ok r) ∧
      (passes cfgLE64 exampleArgs 1 3 (initialState fileThreeBlocks)).map (fun q => q.offset) =
        [12, 132, 252] ∧
      r.numBlocksPatched = 1 := by
  obtain ⟨r, h1, h2, h3, -, -⟩ := scan_of_wellformed_chain exampleArgs fileThreeBlocks
    exampleDna cfgLE64 [12, 132, 252] (by decide) (by decide) (by decide) (by decide) 3
    (by decide)
  have hc : countEligible cfgLE64
      (lookupSdnaIndexForModifierDataStruct exampleDna exampleArgs.modifierDataTypeName)
      fileThreeBlocks [12, 132, 252] = 1 := by decide
  have hl : lookupSdnaIndexForModifierDataStruct exampleDna exampleArgs.modifierDataTypeName = 1 := by
    decide
  rw [hc] at h3
  rw [hl] at h2
  exact ⟨r, h1, h2, h3⟩

/-! ## The value `readUint32` returns -/

theorem toUint32_natCast {n : Nat} (h : n < 4294967296) : toUint32 (n : Int) = n := by
  unfold toUint32
  omega

theorem toUint32_int32OfBits (n : Nat) : toUint32 (int32OfBits n) = n % 4294967296 := by
  unfold toUint32 int32OfBits
  split_ifs <;> omega

theorem jsShl_of_lt {n k : Nat} (hk : k < 32) (hn : n * 2 ^ k < 4294967296) :
    toUint32 (jsShl (n : Int) k) = n * 2 ^ k := by
  have h1 : n < 4294967296 := by
    have : n * 1 ≤ n * 2 ^ k := Nat.mul_le_mul_left n (Nat.one_le_two_pow)
    omega
  unfold jsShl
  rw [toUint32_int32OfBits, toUint32_natCast h1, Nat.mod_eq_of_lt hk, Nat.shiftLeft_eq,
    Nat.mod_eq_of_lt hn]

theorem lor_shifted {a b k : Nat} (ha : a < 2 ^ k) : a ||| b * 2 ^ k = a + b * 2 ^ k := by
  rw [Nat.lor_comm, Nat.mul_comm b, ← Nat.mul_add_lt_is_or ha, Nat.add_comm]

/-- The value of four bytes, least significant first. -/
theorem or_of_bytes {n0 n1 n2 n3 : Nat} (h0 : n0 < 256) (h1 : n1 < 256) (h2 : n2 < 256)
    (h3 : n3 < 256) :
    jsOr (jsOr (jsOr (n0 : Int) (jsShl (n1 : Int) 8)) (jsShl (n2 : Int) 16)) (jsShl (n3 : Int) 24) =
      int32OfBits (n0 + n1 * 256 + n2 * 65536 + n3 * 16777216) := by
  have e1 : toUint32 (jsShl (n1 : Int) 8) = n1 * 256 := by
    rw [jsShl_of_lt (by decide) (by norm_num; omega)]; norm_num
  have e2 : toUint32 (jsShl (n2 : Int) 16) = n2 * 65536 := by
    rw [jsShl_of_lt (by decide) (by norm_num; omega)]; norm_num
  have e3 : toUint32 (jsShl (n3 : Int) 24) = n3 * 16777216 := by
    rw [jsShl_of_lt (by decide) (by norm_num; omega)]; norm_num
  have l1 : n0 ||| n1 * 256 = n0 + n1 * 256 := lor_shifted (k := 8) (by norm_num; omega)
  have l2 : (n0 + n1 * 256) ||| n2 * 65536 = n0 + n1 * 256 + n2 * 65536 :=
    lor_shifted (k := 16) (by norm_num; omega)
  have l3 : (n0 + n1 * 256 + n2 * 65536) ||| n3 * 16777216 =
      n0 + n1 * 256 + n2 * 65536 + n3 * 16777216 :=
    lor_shifted (k := 24) (by norm_num; omega)
  have m0 : toUint32 (n0 : Int) = n0 := toUint32_natCast (by omega)
  have m1 : (n0 + n1 * 256) % 4294967296 = n0 + n1 * 256 := Nat.mod_eq_of_lt (by omega)
  have m2 : (n0 + n1 * 256 + n2 * 65536) % 4294967296 = n0 + n1 * 256 + n2 * 65536 :=
    Nat.mod_eq_of_lt (by omega)
  unfold jsOr
  rw [e3, toUint32_int32OfBits, e2, toUint32_int32OfBits, e1, m0, l1, m1, l2, m2, l3]

/-- The function `readUint32` on four bytes of the view returns the signed
32-bit integer whose bits are these bytes in the configured order: the
unsigned value when the most significant byte is less than 0x80, and the
unsigned value less 2^32 otherwise. -/
theorem readUint32_value (cfg : FileConfig) (b : Buffer) (o : Int) (b0 b1 b2 b3 : Byte)
    (h0 : b.get (some (o + 0)) = some b0) (h1 : b.get (some (o + 1)) = some b1)
    (h2 : b.get (some (o + 2)) = some b2) (h3 : b.get (some (o + 3)) = some b3) :
    (cfg.endian = some LE → readUint32 cfg b (some o) =
      .ok (int32OfBits (b0.val + b1.val * 256 + b2.val * 65536 + b3.val * 16777216))) ∧
    (cfg.endian = some BE → readUint32 cfg b (some o) =
      .ok (int32OfBits (b3.val + b2.val * 256 + b1.val * 65536 + b0.val * 16777216))) := by
  have hne : some LE ≠ some BE := by decide
  constructor
  · intro hle
    unfold readUint32
    rw [if_pos hle]
    simp only [idxAdd, Option.map_some', h0, h1, h2, h3, elemNum]
    rw [or_of_bytes b0.isLt b1.isLt b2.isLt b3.isLt]
  · intro hbe
    unfold readUint32
    rw [if_neg (by rw [hbe]; exact fun hc => hne hc.symm), if_pos hbe]
    simp only [idxAdd, Option.map_some', h0, h1, h2, h3, elemNum]
    rw [or_of_bytes b3.isLt b2.isLt b1.isLt b0.isLt]


/-! ## The bytes `writeUint32` stores -/

/-- A view that lies inside its memory. -/
theorem Buffer.set_wf {b : Buffer} (h : b.byteOffset + b.length ≤ b.mem.length) (idx : Option Int)
    (v : Int) :
    (b.set idx v).byteOffset + (b.set idx v).length ≤ (b.set idx v).mem.length := by
  obtain ⟨hl, ho, hn, -⟩ := Buffer.set_frame b idx v
  rw [hl, ho, hn]; exact h

theorem Buffer.get_set_same {b : Buffer} (h : b.byteOffset + b.length ≤ b.mem.length) {i : Int}
    (h0 : 0 ≤ i) (h1 : i < b.length) (v : Int) :
    (b.set (some i) v).get (some i) = some (toUint8 v) := by
  simp only [Buffer.set, Buffer.get, if_pos (And.intro h0 h1)]
  rw [List.getElem?_set_self]
  omega

theorem Buffer.get_set_ne (b : Buffer) {i j : Int} (hne : i ≠ j) (v : Int) :
    (b.set (some i) v).get (some j) = b.get (some j) := by
  simp only [Buffer.set, Buffer.get]
  by_cases hi : 0 ≤ i ∧ i < b.length
  · rw [if_pos hi]
    dsimp only
    by_cases hj : 0 ≤ j ∧ j < b.length
    · rw [if_pos hj, if_pos hj]
      have hnat : b.byteOffset + i.toNat ≠ b.byteOffset + j.toNat := by omega
      exact List.getElem?_set_ne hnat
    · rw [if_neg hj, if_neg hj]
  · rw [if_neg hi]

theorem and_mask_shiftRight (u m k : Nat) (hm : m >>> k = 255) :
    (u &&& m) >>> k = (u >>> k) % 256 := by
  have h : (u &&& m) >>> k = (u >>> k) &&& (m >>> k) := by
    apply Nat.eq_of_testBit_eq
    intro i
    simp only [Nat.testBit_shiftRight, Nat.testBit_and]
  rw [h, hm]
  exact Nat.and_pow_two_sub_one_eq_mod (u >>> k) 8

theorem toInt32_int32OfBits (n : Nat) : toInt32 (int32OfBits n) = int32OfBits n := by
  unfold toInt32
  rw [toUint32_int32OfBits]
  unfold int32OfBits
  simp only [Nat.mod_mod]

theorem toUint8_natCast (n : Nat) : toUint8 (n : Int) = Fin.ofNat (n % 256) := by
  unfold toUint8
  congr 1

/-- The bytes `writeUint32` computes from a number: the four bytes of its
32-bit pattern, least significant first. -/
theorem stored_bytes (v : Int) :
    toUint8 (jsAnd v 0xff) = Fin.ofNat (toUint32 v % 256) ∧
    toUint8 (jsSar (jsAnd v 0xff00) 8) = Fin.ofNat (toUint32 v / 256 % 256) ∧
    toUint8 (jsSar (jsAnd v 0xff0000) 16) = Fin.ofNat (toUint32 v / 65536 % 256) ∧
    toUint8 (jsSar (jsAnd v 0xff000000) 24) = Fin.ofNat (toUint32 v / 16777216 % 256) := by
  have m0 : toUint32 (0xff : Int) = 255 := by decide
  have m1 : toUint32 (0xff00 : Int) = 65280 := by decide
  have m2 : toUint32 (0xff0000 : Int) = 16711680 := by decide
  have m3 : toUint32 (0xff000000 : Int) = 4278190080 := by decide
  have s0 := and_mask_shiftRight (toUint32 v) 255 0 (by decide)
  have s1 := and_mask_shiftRight (toUint32 v) 65280 8 (by decide)
  have s2 := and_mask_shiftRight (toUint32 v) 16711680 16 (by decide)
  have s3 := and_mask_shiftRight (toUint32 v) 4278190080 24 (by decide)
  have b0 : toUint32 v &&& 255 ≤ 255 := Nat.and_le_right
  have b1 : toUint32 v &&& 65280 ≤ 65280 := Nat.and_le_right
  have b2 : toUint32 v &&& 16711680 ≤ 16711680 := Nat.and_le_right
  have b3 : toUint32 v &&& 4278190080 ≤ 4278190080 := Nat.and_le_right
  rw [Nat.shiftRight_eq_div_pow, Nat.shiftRight_eq_div_pow] at s0 s1 s2 s3
  norm_num at s0 s1 s2 s3
  unfold jsSar jsAnd
  rw [m0, m1, m2, m3, toInt32_int32OfBits, toInt32_int32OfBits, toInt32_int32OfBits]
  generalize toUint32 v &&& 255 = x0 at *
  generalize toUint32 v &&& 65280 = x1 at *
  generalize toUint32 v &&& 16711680 = x2 at *
  generalize toUint32 v &&& 4278190080 = x3 at *
  generalize toUint32 v = u at *
  unfold toUint8 int32OfBits
  norm_num
  refine ⟨?_, ?_, ?_, ?_⟩
  · congr 1
    split_ifs <;> omega
  · congr 1
    split_ifs <;> omega
  · congr 1
    split_ifs <;> omega
  · congr 1
    split_ifs <;> omega


theorem Buffer.get_four_sets {b : Buffer} (wf : b.byteOffset + b.length ≤ b.mem.length)
    (i0 i1 i2 i3 : Int) (h0 : 0 ≤ i0 ∧ i0 < b.length) (h1 : 0 ≤ i1 ∧ i1 < b.length)
    (h2 : 0 ≤ i2 ∧ i2 < b.length) (h3 : 0 ≤ i3 ∧ i3 < b.length)
    (n01 : i0 ≠ i1) (n02 : i0 ≠ i2) (n03 : i0 ≠ i3) (n12 : i1 ≠ i2) (n13 : i1 ≠ i3)
    (n23 : i2 ≠ i3) (v0 v1 v2 v3 : Int) :
    ((((b.set (some i0) v0).set (some i1) v1).set (some i2) v2).set (some i3) v3).get (some i0) =
      some (toUint8 v0) ∧
    ((((b.set (some i0) v0).set (some i1) v1).set (some i2) v2).set (some i3) v3).get (some i1) =
      some (toUint8 v1) ∧
    ((((b.set (some i0) v0).set (some i1) v1).set (some i2) v2).set (some i3) v3).get (some i2) =
      some (toUint8 v2) ∧
    ((((b.set (some i0) v0).set (some i1) v1).set (some i2) v2).set (some i3) v3).get (some i3) =
      some (toUint8 v3) := by
  have w1 := Buffer.set_wf wf (some i0) v0
  have w2 := Buffer.set_wf w1 (some i1) v1
  have w3 := Buffer.set_wf w2 (some i2) v2
  obtain ⟨-, -, l1, -⟩ := Buffer.set_frame b (some i0) v0
  obtain ⟨-, -, l2, -⟩ := Buffer.set_frame (b.set (some i0) v0) (some i1) v1
  obtain ⟨-, -, l3, -⟩ := Buffer.set_frame ((b.set (some i0) v0).set (some i1) v1) (some i2) v2
  refine ⟨?_, ?_, ?_, ?_⟩
  · rw [Buffer.get_set_ne _ (Ne.symm n03), Buffer.get_set_ne _ (Ne.symm n02),
      Buffer.get_set_ne _ (Ne.symm n01)]
    exact Buffer.get_set_same wf h0.1 h0.2 v0
  · rw [Buffer.get_set_ne _ (Ne.symm n13), Buffer.get_set_ne _ (Ne.symm n12)]
    exact Buffer.get_set_same w1 h1.1 (by rw [l1]; exact h1.2) v1
  · rw [Buffer.get_set_ne _ (Ne.symm n23)]
    exact Buffer.get_set_same w2 h2.1 (by rw [l2, l1]; exact h2.2) v2
  · exact Buffer.get_set_same w3 h3.1 (by rw [l3, l2, l1]; exact h3.2) v3

theorem ofNat_byte_val (n : Nat) : ((Fin.ofNat (n % 256) : Byte).val) = n % 256 := by
  show (n % 256) % 256 = n % 256
  omega

/-- Reading back what `writeUint32` stored gives `ToInt32` of the number
stored: the number itself when it is below 2^31, and the number less 2^32 when
it is a uint32 from 2^31 on. -/
theorem readUint32_writeUint32 (cfg : FileConfig) (b : Buffer) (o v : Int)
    (hend : cfg.endian = some LE ∨ cfg.endian = some BE)
    (wf : b.byteOffset + b.length ≤ b.mem.length) (h0 : 0 ≤ o) (h4 : o + 4 ≤ b.length) :
    ∃ b1, writeUint32 cfg b (some o) v = .ok b1 ∧ readUint32 cfg b1 (some o) = .ok (toInt32 v) := by
  obtain ⟨s0, s1, s2, s3⟩ := stored_bytes v
  have hu : toUint32 v < 4294967296 := by unfold toUint32; omega
  have hsum : toUint32 v % 256 + toUint32 v / 256 % 256 * 256 + toUint32 v / 65536 % 256 * 65536 +
      toUint32 v / 16777216 % 256 * 16777216 = toUint32 v := by omega
  have hne : some LE ≠ some BE := by decide
  rcases hend with hle | hbe
  · obtain ⟨g0, g1, g2, g3⟩ := Buffer.get_four_sets wf (o + 0) (o + 1) (o + 2) (o + 3) (by omega) (by omega) (by omega) (by omega) (by omega) (by omega) (by omega)
      (by omega) (by omega) (by omega) (jsAnd v 0xff) (jsSar (jsAnd v 0xff00) 8)
      (jsSar (jsAnd v 0xff0000) 16) (jsSar (jsAnd v 0xff000000) 24)
    refine ⟨_, by unfold writeUint32; rw [if_pos hle], ?_⟩
    rw [s0] at g0; rw [s1] at g1; rw [s2] at g2; rw [s3] at g3
    have hr := (readUint32_value cfg _ o _ _ _ _ g0 g1 g2 g3).1 hle
    simp only [idxAdd, Option.map_some']
    rw [hr, ofNat_byte_val, ofNat_byte_val, ofNat_byte_val, ofNat_byte_val, hsum]
    rfl
  · obtain ⟨g3, g2, g1, g0⟩ := Buffer.get_four_sets wf (o + 3) (o + 2) (o + 1) (o + 0) (by omega) (by omega) (by omega) (by omega) (by omega) (by omega) (by omega)
      (by omega) (by omega) (by omega) (jsAnd v 0xff) (jsSar (jsAnd v 0xff00) 8)
      (jsSar (jsAnd v 0xff0000) 16) (jsSar (jsAnd v 0xff000000) 24)
    refine ⟨_, by
      unfold writeUint32
      rw [if_neg (by rw [hbe]; exact fun hc => hne hc.symm), if_pos hbe], ?_⟩
    rw [s0] at g3; rw [s1] at g2; rw [s2] at g1; rw [s3] at g0
    have hr := (readUint32_value cfg _ o _ _ _ _ g0 g1 g2 g3).2 hbe
    simp only [idxAdd, Option.map_some']
    rw [hr, ofNat_byte_val, ofNat_byte_val, ofNat_byte_val, ofNat_byte_val, hsum]
    rfl

theorem toInt32_of_small {v : Int} (h0 : 0 ≤ v) (h1 : v < 2147483648) : toInt32 v = v := by
  unfold toInt32 int32OfBits toUint32
  split_ifs <;> omega

theorem toInt32_of_high {v : Int} (h0 : 2147483648 ≤ v) (h1 : v < 4294967296) :
    toInt32 v = v - 4294967296 := by
  unfold toInt32 int32OfBits toUint32
  split_ifs <;> omega


/-! ## The catalog lookup -/

theorem findIndex_of_none {α : Type} (p : α → Bool) (l : List α) (h : ∀ x ∈ l, p x = false) :
    findIndex p l = -1 := by
  unfold findIndex
  rw [List.findIdx_eq_length_of_false h, if_neg (Nat.lt_irrefl _)]

theorem findIndex_of_first {α : Type} (p : α → Bool) (l : List α) (i : Nat) (x : α)
    (hx : l[i]? = some x) (hp : p x = true) (hlt : ∀ j y, j < i → l[j]? = some y → p y = false) :
    findIndex p l = (i : Int) := by
  obtain ⟨hi, hget⟩ := List.getElem?_eq_some.1 hx
  have hfi : l.findIdx p = i := by
    rw [List.findIdx_eq hi]
    refine ⟨by rw [hget]; exact hp, fun j hji => ?_⟩
    exact hlt j _ hji (List.getElem?_eq_getElem (Nat.lt_trans hji hi))
  unfold findIndex
  rw [hfi, if_pos hi]

theorem findIndex_append {α : Type} (p : α → Bool) (l m : List α) (i : Nat)
    (h : findIndex p l = (i : Int)) : findIndex p (l ++ m) = (i : Int) := by
  unfold findIndex at h ⊢
  by_cases c : l.findIdx p < l.length
  · rw [if_pos c] at h
    rw [List.findIdx_append, if_pos c, if_pos (by rw [List.length_append]; omega)]
    exact h
  · rw [if_neg c] at h
    omega

/-- C14: the lookup is first-match. When the name is not among the type
names the result is -1. When `t` is the least index of the name among the
type names: the result is -1 when no struct has type index `t`; and when `s`
is the least index of a struct with type index `t` the result is `s`, also
with further type names (duplicates of the name among them) and further
structs (duplicates of the type index among them) after the tables. -/
theorem lookup_first_match (dna1 : Dna1Body) (name : String) :
    (name ∉ dna1.types → lookupSdnaIndexForModifierDataStruct dna1 name = -1) ∧
    (∀ t : Nat, dna1.types[t]? = some name → (∀ j, j < t → dna1.types[j]? ≠ some name) →
      ((∀ st ∈ dna1.structs, st.idxType ≠ t) →
        lookupSdnaIndexForModifierDataStruct dna1 name = -1) ∧
      (∀ (s : Nat) (st : DnaStruct), dna1.structs[s]? = some st → st.idxType = t →
        (∀ j st1, j < s → dna1.structs[j]? = some st1 → st1.idxType ≠ t) →
        lookupSdnaIndexForModifierDataStruct dna1 name = (s : Int) ∧
        ∀ (moreTypes : List String) (moreStructs : List DnaStruct),
          lookupSdnaIndexForModifierDataStruct
            ⟨dna1.types ++ moreTypes, dna1.structs ++ moreStructs⟩ name = (s : Int))) := by
  constructor
  · intro hname
    have h1 : findIndex (fun n => decide (n = name)) dna1.types = -1 :=
      findIndex_of_none _ _ (fun x hx => by
        simp only [decide_eq_false_iff_not]
        intro hc; exact hname (hc ▸ hx))
    unfold lookupSdnaIndexForModifierDataStruct
    dsimp only
    rw [h1]
    exact findIndex_of_none _ _ (fun x _ => by
      simp only [decide_eq_false_iff_not]
      omega)
  · intro t ht hfirst
    have h1 : findIndex (fun n => decide (n = name)) dna1.types = (t : Int) :=
      findIndex_of_first _ _ t name ht (by simp) (fun j y hj hy => by
        simp only [decide_eq_false_iff_not]
        intro hc; exact hfirst j hj (hc ▸ hy))
    constructor
    · intro hnone
      unfold lookupSdnaIndexForModifierDataStruct
      dsimp only
      rw [h1]
      exact findIndex_of_none _ _ (fun x hx => by
        simp only [decide_eq_false_iff_not]
        have := hnone x hx
        omega)
    · intro s st hs hst hsfirst
      have h2 : findIndex (fun x : DnaStruct => decide ((x.idxType : Int) = (t : Int)))
          dna1.structs = (s : Int) :=
        findIndex_of_first _ _ s st hs (by simp [hst]) (fun j y hj hy => by
          simp only [decide_eq_false_iff_not]
          have := hsfirst j y hj hy
          omega)
      constructor
      · unfold lookupSdnaIndexForModifierDataStruct
        dsimp only
        rw [h1]
        exact h2
      · intro moreTypes moreStructs
        unfold lookupSdnaIndexForModifierDataStruct
        dsimp only
        rw [findIndex_append _ _ moreTypes t h1]
        exact findIndex_append _ _ moreStructs s h2


/-- C14 at a catalog with the type names `a, b, a, b` and the type indices
`0, 1, 1, 3` of its structs: the lookup of `b` gives 1. -/
theorem lookup_first_match_witness :
    lookupSdnaIndexForModifierDataStruct ⟨["a", "b", "a", "b"], [⟨0⟩, ⟨1⟩, ⟨1⟩, ⟨3⟩]⟩ "b" = 1 :=
  (((lookup_first_match ⟨["a", "b", "a"], [⟨0⟩, ⟨1⟩, ⟨1⟩]⟩ "b").2 1 (by decide) (by decide)).2 1
    ⟨1⟩ (by decide) (by decide) (by
      intro j st1 hj h
      obtain rfl : j = 0 := by omega
      simp only [List.getElem?_cons_zero, Option.some.injEq] at h
      rw [← h]
      decide)).2 ["b"] [⟨3⟩]

/-! ## The name of the written file -/

set_option maxRecDepth 100000 in
/-- C16 (evaluation at the failing input): for a file name without `.blend`
the target file name is the file name itself, and a run that patches a block
writes the patched buffer to the file it read; and in a name with two
`.blend` the text `_converted` goes before the first one. -/
theorem targetFileName_without_blend_is_input :
    targetFileName "scene.bak" = "scene.bak" ∧
    targetFileName "SCENE.BLEND" = "SCENE.BLEND" ∧
    main 4 argsBakFile fileMatchNonMatch exampleDna =
      some (.ok ⟨fileMatchNonMatchPatched, 1, some ("scene.bak", fileMatchNonMatchPatched)⟩) ∧
    targetFileName "old.blend.d/scene.blend" = "old_converted.blend.d/scene.blend" := by
  decide

/-! ## Writing back what was read -/

theorem Buffer.set_of_get (b : Buffer) (idx : Option Int) (v : Int)
    (h : ∀ y, b.get idx = some y → toUint8 v = y) : b.set idx v = b := by
  cases idx with
  | none => rfl
  | some i =>
    simp only [Buffer.set, Buffer.get] at h ⊢
    by_cases c : 0 ≤ i ∧ i < b.length
    · rw [if_pos c] at h ⊢
      have hm : b.mem.set (b.byteOffset + i.toNat) (toUint8 v) = b.mem := by
        apply List.ext_getElem?
        intro k
        by_cases hk : b.byteOffset + i.toNat = k
        · subst hk
          cases hg : b.mem[b.byteOffset + i.toNat]? with
          | none =>
            rw [List.getElem?_eq_none_iff] at hg
            rw [List.getElem?_eq_none_iff, List.length_set]
            exact hg
          | some y =>
            rw [List.getElem?_set_self (List.getElem?_eq_some.1 hg).1, h y hg]
        · rw [List.getElem?_set_ne hk]
      rw [hm]
    · rw [if_neg c]

theorem elemNum_toNat (x : Option Byte) :
    (elemNum x).toNat < 256 ∧ elemNum x = (((elemNum x).toNat : Nat) : Int) ∧
    ∀ y, x = some y → (Fin.ofNat ((elemNum x).toNat % 256) : Byte) = y := by
  cases x with
  | none =>
    refine ⟨by simp [elemNum], by simp [elemNum], fun y hy => by simp at hy⟩
  | some b =>
    have hb := b.isLt
    refine ⟨by simp only [elemNum]; omega, by simp only [elemNum]; omega, fun y hy => ?_⟩
    simp only [Option.some.injEq] at hy
    subst hy
    apply Fin.ext
    show (((b.val : Int)).toNat % 256) % 256 = b.val
    omega

theorem bytes_of_sum (n0 n1 n2 n3 : Nat) (h0 : n0 < 256) (h1 : n1 < 256) (h2 : n2 < 256) :
    toUint32 (int32OfBits (n0 + n1 * 256 + n2 * 65536 + n3 * 16777216)) % 256 = n0 % 256 ∧
    toUint32 (int32OfBits (n0 + n1 * 256 + n2 * 65536 + n3 * 16777216)) / 256 % 256 = n1 % 256 ∧
    toUint32 (int32OfBits (n0 + n1 * 256 + n2 * 65536 + n3 * 16777216)) / 65536 % 256 = n2 % 256 ∧
    toUint32 (int32OfBits (n0 + n1 * 256 + n2 * 65536 + n3 * 16777216)) / 16777216 % 256 =
      n3 % 256 := by
  rw [toUint32_int32OfBits]
  omega

/-- Storing the value `readUint32` returned at the offset it was read from
leaves the buffer as it was. -/
theorem writeUint32_of_readUint32 (cfg : FileConfig) (b : Buffer) (idx : Option Int) (v : Int)
    (hv : readUint32 cfg b idx = .ok v) : writeUint32 cfg b idx v = .ok b := by
  obtain ⟨l0, e0, g0⟩ := elemNum_toNat (b.get (idxAdd idx 0))
  obtain ⟨l1, e1, g1⟩ := elemNum_toNat (b.get (idxAdd idx 1))
  obtain ⟨l2, e2, g2⟩ := elemNum_toNat (b.get (idxAdd idx 2))
  obtain ⟨l3, e3, g3⟩ := elemNum_toNat (b.get (idxAdd idx 3))
  obtain ⟨s0, s1, s2, s3⟩ := stored_bytes v
  unfold readUint32 at hv
  unfold writeUint32
  by_cases hle : cfg.endian = some LE
  · rw [if_pos hle] at hv ⊢
    rw [e0, e1, e2, e3, or_of_bytes l0 l1 l2 l3] at hv
    simp only [Except.ok.injEq] at hv
    obtain ⟨t0, t1, t2, t3⟩ := bytes_of_sum _ _ _ _ l0 l1 l2
    rw [hv] at t0 t1 t2 t3
    rw [t0] at s0; rw [t1] at s1; rw [t2] at s2; rw [t3] at s3
    rw [Buffer.set_of_get b _ _ (fun y hy => by rw [s0]; exact g0 y hy),
      Buffer.set_of_get b _ _ (fun y hy => by rw [s1]; exact g1 y hy),
      Buffer.set_of_get b _ _ (fun y hy => by rw [s2]; exact g2 y hy),
      Buffer.set_of_get b _ _ (fun y hy => by rw [s3]; exact g3 y hy)]
  · rw [if_neg hle] at hv ⊢
    by_cases hbe : cfg.endian = some BE
    · rw [if_pos hbe] at hv ⊢
      rw [e0, e1, e2, e3, or_of_bytes l3 l2 l1 l0] at hv
      simp only [Except.ok.injEq] at hv
      obtain ⟨t0, t1, t2, t3⟩ := bytes_of_sum _ _ _ _ l3 l2 l1
      rw [hv] at t0 t1 t2 t3
      rw [t0] at s0; rw [t1] at s1; rw [t2] at s2; rw [t3] at s3
      rw [Buffer.set_of_get b _ _ (fun y hy => by rw [s0]; exact g3 y hy),
        Buffer.set_of_get b _ _ (fun y hy => by rw [s1]; exact g2 y hy),
        Buffer.set_of_get b _ _ (fun y hy => by rw [s2]; exact g1 y hy),
        Buffer.set_of_get b _ _ (fun y hy => by rw [s3]; exact g0 y hy)]
    · rw [if_neg hbe] at hv
      simp at hv

/-- C17: when `readUint32` returns a value, `writeUint32` of that value at the
same offset returns the buffer as it was, every byte of its memory unchanged;
in both supported byte orders `readUint32` returns a value, at every offset. -/
theorem write_after_read_noop (cfg : FileConfig) (b : Buffer) (idx : Option Int) :
    (∀ v, readUint32 cfg b idx = .ok v → writeUint32 cfg b idx v = .ok b) ∧
    (cfg.endian = some LE ∨ cfg.endian = some BE →
      ∃ v, readUint32 cfg b idx = .ok v ∧ writeUint32 cfg b idx v = .ok b) := by
  refine ⟨fun v hv => writeUint32_of_readUint32 cfg b idx v hv, fun hend => ?_⟩
  obtain ⟨v, hv⟩ := readUint32_ok_of_endian hend b idx
  exact ⟨v, hv, writeUint32_of_readUint32 cfg b idx v hv⟩

/-- C17 at the bytes `01 02 03 ff 05`, offset 1, in both byte orders. -/
theorem write_after_read_noop_witness :
    (∃ v, readUint32 cfgLE64 (Buffer.ofBytes [1, 2, 3, 0xff, 5]) (some 1) = .ok v ∧
      writeUint32 cfgLE64 (Buffer.ofBytes [1, 2, 3, 0xff, 5]) (some 1) v =
        .ok (Buffer.ofBytes [1, 2, 3, 0xff, 5])) ∧
    (∃ v, readUint32 cfgBE64 (Buffer.ofBytes [1, 2, 3, 0xff, 5]) (some 1) = .ok v ∧
      writeUint32 cfgBE64 (Buffer.ofBytes [1, 2, 3, 0xff, 5]) (some 1) v =
        .ok (Buffer.ofBytes [1, 2, 3, 0xff, 5])) :=
  ⟨(write_after_read_noop cfgLE64 _ _).2 (by decide),
    (write_after_read_noop cfgBE64 _ _).2 (by decide)⟩

/-! ## Strings of ASCII bytes -/

theorem toNat_ofNat_of_lt {n : Nat} (h : n < 0xD800) : (Char.ofNat n).toNat = n := by
  have hv : n.isValidChar := Or.inl h
  simp only [Char.ofNat, dif_pos hv, Char.ofNatAux, Char.toNat]
  rfl

theorem utf8Lead_ascii {n : Nat} (h : n ≤ 0x7F) : utf8Lead n = (Utf8State.init, [Char.ofNat n]) := by
  unfold utf8Lead
  rw [if_pos h]

/-- The decoder gives ASCII bytes as their characters. -/
theorem utf8Decode_ascii : ∀ (bs : List Byte), (∀ b ∈ bs, b.val ≤ 0x7F) →
    ∀ st : Utf8State, st.bytesNeeded = 0 → utf8Decode st bs = bs.map charOfByte := by
  intro bs
  induction bs with
  | nil => intro _ st hst; simp [utf8Decode, hst]
  | cons b rest ih =>
    intro h st hst
    have hb : b.val ≤ 0x7F := h b (List.mem_cons_self _ _)
    unfold utf8Decode
    rw [if_pos hst, utf8Lead_ascii hb]
    simp only [List.singleton_append, List.map_cons]
    rw [ih (fun x hx => h x (List.mem_cons_of_mem _ hx)) Utf8State.init rfl]
    rfl

theorem utf8Lead_cases (n : Nat) :
    (n ≤ 0x7F ∧ utf8Lead n = (Utf8State.init, [Char.ofNat n])) ∨
    (0x7F < n ∧ (utf8Lead n).2 = [] ∧ (utf8Lead n).1.bytesNeeded ≠ 0) ∨
    (0x7F < n ∧ utf8Lead n = (Utf8State.init, [replacementChar])) := by
  unfold utf8Lead
  by_cases h1 : n ≤ 0x7F
  · rw [if_pos h1]; exact Or.inl ⟨h1, rfl⟩
  · rw [if_neg h1]
    by_cases h2 : 0xC2 ≤ n ∧ n ≤ 0xDF
    · rw [if_pos h2]; exact Or.inr (Or.inl ⟨by omega, rfl, by simp⟩)
    · rw [if_neg h2]
      by_cases h3 : 0xE0 ≤ n ∧ n ≤ 0xEF
      · rw [if_pos h3]; exact Or.inr (Or.inl ⟨by omega, rfl, by simp⟩)
      · rw [if_neg h3]
        by_cases h4 : 0xF0 ≤ n ∧ n ≤ 0xF4
        · rw [if_pos h4]; exact Or.inr (Or.inl ⟨by omega, rfl, by simp⟩)
        · rw [if_neg h4]; exact Or.inr (Or.inr ⟨by omega, rfl⟩)

/-- A decoding without U+FFFD has at most as many characters as there are
bytes, and as many only when every byte is ASCII. -/
theorem utf8Decode_no_replacement : ∀ (bs : List Byte) (st : Utf8State),
    replacementChar ∉ utf8Decode st bs →
    (utf8Decode st bs).length ≤ bs.length ∧
    (st.bytesNeeded = 0 → (utf8Decode st bs).length = bs.length → ∀ b ∈ bs, b.val ≤ 0x7F) := by
  intro bs
  induction bs with
  | nil =>
    intro st h
    unfold utf8Decode at h ⊢
    by_cases c : st.bytesNeeded = 0
    · rw [if_pos c]; simp
    · rw [if_neg c] at h; simp at h
  | cons b rest ih =>
    intro st h
    unfold utf8Decode at h ⊢
    by_cases c : st.bytesNeeded = 0
    · rw [if_pos c] at h ⊢
      rcases utf8Lead_cases b.val with ⟨hb, hl⟩ | ⟨hb, hl2, hl1⟩ | ⟨hb, hl⟩
      · rw [hl] at h ⊢
        simp only [List.singleton_append, List.mem_cons, not_or] at h
        obtain ⟨hlen, hall⟩ := ih Utf8State.init h.2
        simp only [List.singleton_append, List.length_cons]
        refine ⟨by omega, fun _ heq x hx => ?_⟩
        rcases List.mem_cons.1 hx with rfl | hx
        · exact hb
        · exact hall rfl (by omega) x hx
      · rw [hl2] at h ⊢
        simp only [List.nil_append] at h ⊢
        obtain ⟨hlen, -⟩ := ih (utf8Lead b.val).1 h
        simp only [List.length_cons]
        exact ⟨by omega, fun _ heq => by omega⟩
      · rw [hl] at h
        simp at h
    · rw [if_neg c] at h ⊢
      by_cases c2 : b.val < st.lower ∨ st.upper < b.val
      · rw [if_pos c2] at h
        simp at h
      · rw [if_neg c2] at h ⊢
        by_cases c3 : st.bytesSeen + 1 = st.bytesNeeded
        · rw [if_pos c3] at h ⊢
          simp only [List.mem_cons, not_or] at h
          obtain ⟨hlen, -⟩ := ih Utf8State.init h.2
          simp only [List.length_cons]
          exact ⟨by omega, fun hz => absurd hz c⟩
        · rw [if_neg c3] at h ⊢
          obtain ⟨hlen, -⟩ := ih _ h
          simp only [List.length_cons]
          exact ⟨by omega, fun hz => absurd hz c⟩

/-- The bytes of a slice of a whole file that starts at a non-negative
offset. -/
theorem slice_bytes_ofBytes (mem : List Byte) (o n : Nat) :
    ((Buffer.ofBytes mem).slice (o : Int) (some ((o : Int) + (n : Int)))).bytes =
      (mem.drop o).take n := by
  obtain ⟨-, ho, hl⟩ := Buffer.slice_some (Buffer.ofBytes mem) (o : Int) ((o : Int) + (n : Int))
  have hm : ((Buffer.ofBytes mem).slice (o : Int) (some ((o : Int) + (n : Int)))).mem = mem := rfl
  unfold Buffer.bytes
  rw [hm, ho, hl]
  have hb0 : (Buffer.ofBytes mem).byteOffset = 0 := rfl
  have hbl : (Buffer.ofBytes mem).length = mem.length := rfl
  rw [hb0, hbl]
  have c1 := adjustOffset_cases (o : Int) mem.length
  have c2 := adjustOffset_cases ((o : Int) + (n : Int)) mem.length
  generalize adjustOffset (o : Int) mem.length = a1 at *
  generalize adjustOffset ((o : Int) + (n : Int)) mem.length = a2 at *
  apply List.ext_getElem?
  intro k
  by_cases hk : k < a2 - a1
  · rw [List.getElem?_take_of_lt hk, List.getElem?_drop]
    have hkn : k < n := by omega
    rw [List.getElem?_take_of_lt hkn, List.getElem?_drop]
    congr 1
    omega
  · rw [List.getElem?_take_eq_none (by omega)]
    by_cases hkn : k < n
    · rw [List.getElem?_take_of_lt hkn, List.getElem?_drop]
      exact (List.getElem?_eq_none (by omega)).symm
    · rw [List.getElem?_take_eq_none (by omega)]


theorem jsTrim_length_le (l : List Char) : (jsTrim l).length ≤ l.length := by
  unfold jsTrim
  exact le_trans (List.IsPrefix.length_le (List.rdropWhile_prefix _ _))
    (List.IsSuffix.length_le (List.dropWhile_suffix _))

theorem jsTrim_eq_self_of_length {l : List Char} (h : l.length ≤ (jsTrim l).length) :
    jsTrim l = l := by
  unfold jsTrim at h ⊢
  have h1 := List.IsPrefix.length_le (List.rdropWhile_prefix isJsWhitespace
    (l.dropWhile isJsWhitespace))
  have h2 := List.IsSuffix.length_le (List.dropWhile_suffix (l := l) isJsWhitespace)
  have e2 : l.dropWhile isJsWhitespace = l :=
    List.IsSuffix.eq_of_length (List.dropWhile_suffix _) (by omega)
  rw [e2] at h ⊢
  exact List.IsPrefix.eq_of_length (List.rdropWhile_prefix _ _) (by
    have := List.IsPrefix.length_le (List.rdropWhile_prefix isJsWhitespace l)
    omega)

theorem removeNul_eq_self_of_length {l : List Char} (h : l.length ≤ (removeNul l).length) :
    removeNul l = l := by
  unfold removeNul at h ⊢
  exact List.Sublist.eq_of_length (List.filter_sublist l) (by
    have := List.length_filter_le (fun c : Char => decide (c.toNat ≠ 0)) l
    omega)

/-- When a string read from a buffer has no U+FFFD and at least as many
characters as the slice has bytes, the bytes are ASCII and the string is their
text: trimming and NUL removal took nothing away. -/
theorem bytes_of_readString_full {b : Buffer} {o n : Int} {s : String}
    (hs : readString b o n = s)
    (hlen : (b.slice o (some (o + n))).bytes.length ≤ s.data.length)
    (hno : replacementChar ∉ s.data) :
    (b.slice o (some (o + n))).bytes = asciiBytes s := by
  unfold readString at hs
  have hd : removeNul (jsTrim (utf8Decode Utf8State.init (b.slice o (some (o + n))).bytes)) =
      s.data := by rw [← hs]
  generalize (b.slice o (some (o + n))).bytes = bytes at hd hlen
  have l1 := utf8Decode_length bytes Utf8State.init
  have h0 : Utf8State.init.bytesNeeded = 0 := rfl
  rw [if_pos h0] at l1
  have l2 := jsTrim_length_le (utf8Decode Utf8State.init bytes)
  have l3 : (removeNul (jsTrim (utf8Decode Utf8State.init bytes))).length ≤
      (jsTrim (utf8Decode Utf8State.init bytes)).length := by
    unfold removeNul; exact List.length_filter_le _ _
  have l4 : (removeNul (jsTrim (utf8Decode Utf8State.init bytes))).length = s.data.length := by
    rw [hd]
  have e1 := removeNul_eq_self_of_length (l := jsTrim (utf8Decode Utf8State.init bytes))
    (by omega)
  have e2 := jsTrim_eq_self_of_length (l := utf8Decode Utf8State.init bytes) (by omega)
  rw [e1, e2] at hd
  have hno2 : replacementChar ∉ utf8Decode Utf8State.init bytes := by rw [hd]; exact hno
  have hascii := (utf8Decode_no_replacement bytes Utf8State.init hno2).2 rfl (by rw [hd]; omega)
  rw [utf8Decode_ascii bytes hascii Utf8State.init rfl] at hd
  unfold asciiBytes
  rw [← hd, List.map_map]
  have hid : ∀ x ∈ bytes, (fun c : Char => (Fin.ofNat c.toNat : Byte)) (charOfByte x) = x := by
    intro x hx
    have hx7 := hascii x hx
    apply Fin.ext
    show (Char.ofNat x.val).toNat % 256 = x.val
    rw [toNat_ofNat_of_lt (by omega)]
    omega
  calc bytes = bytes.map id := (List.map_id bytes).symm
    _ = bytes.map ((fun c : Char => (Fin.ofNat c.toNat : Byte)) ∘ charOfByte) :=
      List.map_congr_left (fun x hx => (hid x hx).symm)

/-- The magic of a file reads as `BLENDER` exactly when the first seven bytes
of the file are the ASCII bytes of `BLENDER`. -/
theorem magic_iff (mem : List Byte) :
    readString (Buffer.ofBytes mem) (0 + HEADER_OFFSET) 7 = "BLENDER" ↔
      mem.take 7 = asciiBytes "BLENDER" := by
  have hb := slice_bytes_ofBytes mem 0 7
  simp only [List.drop_zero] at hb
  have hb2 : ((Buffer.ofBytes mem).slice (0 + HEADER_OFFSET) (some (0 + HEADER_OFFSET + 7))).bytes =
      mem.take 7 := hb
  constructor
  · intro h
    have := bytes_of_readString_full h (by rw [hb2]; exact List.length_take_le 7 mem) (by decide)
    rw [hb2] at this
    exact this
  · intro h
    unfold readString
    rw [hb2, h]
    decide


/-! ## What `readString` returns -/

/-- C15 (counterexample): `readString` takes leading whitespace away, and it
keeps whitespace that stands before a NUL at the end: the bytes of ` ab` read
as `ab`, and the bytes `ab`, blank, NUL read as `ab` and a blank. -/
theorem readString_trims_both_ends_before_nul_removal :
    readString (Buffer.ofBytes (asciiBytes " ab")) 0 3 = "ab" ∧
    "ab" ≠ " ab" ∧
    readString (Buffer.ofBytes (asciiBytes "ab \x00")) 0 4 = "ab " ∧
    ("ab ".data.getLast?).map isJsWhitespace = some true := by
  decide

/-- C15 (amended): for ASCII bytes, a non-negative offset and a non-negative
length, `readString` returns the characters of the bytes
`[offset, offset + length)` that lie in the buffer, with leading and trailing
whitespace removed and then every NUL removed. The string has no NUL; and when
the bytes hold no NUL, it neither starts nor ends with a whitespace
character. -/
theorem readString_of_ascii (mem : List Byte) (o n : Nat)
    (hascii : ∀ b ∈ (mem.drop o).take n, b.val ≤ 0x7F) :
    readString (Buffer.ofBytes mem) (o : Int) (n : Int) =
      String.mk (removeNul (jsTrim (((mem.drop o).take n).map charOfByte))) ∧
    (∀ c ∈ (readString (Buffer.ofBytes mem) (o : Int) (n : Int)).data, c.toNat ≠ 0) ∧
    ((∀ b ∈ (mem.drop o).take n, b.val ≠ 0) →
      readString (Buffer.ofBytes mem) (o : Int) (n : Int) =
        String.mk (jsTrim (((mem.drop o).take n).map charOfByte)) ∧
      (∀ c, (readString (Buffer.ofBytes mem) (o : Int) (n : Int)).data.getLast? = some c →
        isJsWhitespace c = false) ∧
      (∀ c, (readString (Buffer.ofBytes mem) (o : Int) (n : Int)).data.head? = some c →
        isJsWhitespace c = false)) := by
  have hrs : readString (Buffer.ofBytes mem) (o : Int) (n : Int) =
      String.mk (removeNul (jsTrim (((mem.drop o).take n).map charOfByte))) := by
    unfold readString
    rw [slice_bytes_ofBytes, utf8Decode_ascii _ hascii Utf8State.init rfl]
  refine ⟨hrs, ?_, ?_⟩
  · rw [hrs]
    intro c hc
    have := (List.mem_filter.1 hc).2
    simpa using this
  · intro hnn
    have hnonul : removeNul (jsTrim (((mem.drop o).take n).map charOfByte)) =
        jsTrim (((mem.drop o).take n).map charOfByte) := by
      unfold removeNul
      rw [List.filter_eq_self]
      intro c hc
      have hsub : c ∈ ((mem.drop o).take n).map charOfByte := by
        unfold jsTrim at hc
        exact (List.dropWhile_suffix _).subset ((List.rdropWhile_prefix _ _).subset hc)
      obtain ⟨b, hb, rfl⟩ := List.mem_map.1 hsub
      have h7 := hascii b hb
      have hb0 := hnn b hb
      simp only [charOfByte, decide_eq_true_eq]
      rw [toNat_ofNat_of_lt (by omega)]
      exact hb0
    rw [hrs, hnonul]
    refine ⟨rfl, ?_, ?_⟩
    · intro c hc
      show isJsWhitespace c = false
      unfold jsTrim at hc
      have hne : List.rdropWhile isJsWhitespace
          (List.dropWhile isJsWhitespace (((mem.drop o).take n).map charOfByte)) ≠ [] := by
        intro h0; rw [h0] at hc; simp at hc
      have := List.rdropWhile_last_not isJsWhitespace _ hne
      rw [List.getLast?_eq_getLast _ hne] at hc
      simp only [Option.some.injEq] at hc
      rw [hc] at this
      simpa using this
    · intro c hc
      show isJsWhitespace c = false
      unfold jsTrim at hc
      have hne : List.rdropWhile isJsWhitespace
          (List.dropWhile isJsWhitespace (((mem.drop o).take n).map charOfByte)) ≠ [] := by
        intro h0; rw [h0] at hc; simp at hc
      obtain ⟨t, ht⟩ := List.rdropWhile_prefix isJsWhitespace
        (List.dropWhile isJsWhitespace (((mem.drop o).take n).map charOfByte))
      have hdne : List.dropWhile isJsWhitespace (((mem.drop o).take n).map charOfByte) ≠ [] := by
        intro h0; rw [h0] at hne; exact hne rfl
      have hh := List.head_dropWhile_not isJsWhitespace
        (((mem.drop o).take n).map charOfByte) hdne
      have hhead : (List.dropWhile isJsWhitespace
          (((mem.drop o).take n).map charOfByte)).head? = some c := by
        rw [← ht, List.head?_append_of_ne_nil _ hne]
        exact hc
      rw [List.head?_eq_head hdne] at hhead
      simp only [Option.some.injEq] at hhead
      rw [hhead] at hh
      exact hh

set_option maxRecDepth 100000 in
/-- C15 (amended) at the ASCII bytes of `  Bevel ` read from offset 1. -/
theorem readString_of_ascii_witness :
    readString (Buffer.ofBytes (asciiBytes "x  Bevel ")) 1 8 = "Bevel" :=
  ((readString_of_ascii (asciiBytes "x  Bevel ") 1 8 (by decide)).2.2 (by decide)).1.trans
    (by decide)


/-! ## The file header -/

theorem get_ofBytes (mem : List Byte) (i : Nat) :
    (Buffer.ofBytes mem).get (some (i : Int)) = mem[i]? := by
  simp only [Buffer.get, Buffer.ofBytes]
  by_cases c : i < mem.length
  · rw [if_pos (by omega)]
    congr 1
    omega
  · rw [if_neg (by omega)]
    exact (List.getElem?_eq_none (by omega)).symm

/-- The function `readHeader` on a whole file. -/
theorem readHeader_eq (mem : List Byte) :
    readHeader (Buffer.ofBytes mem) (Buffer.ofBytes mem) HEADER_OFFSET =
      if mem.take 7 = asciiBytes "BLENDER" then
        .ok { endian := mem[8]?, ptrSize := PTR_SIZE_BYTE_LEN mem[7]? }
      else .error .notBlender := by
  have h7 : (Buffer.ofBytes mem).get (some (7 + HEADER_OFFSET)) = mem[7]? := get_ofBytes mem 7
  have h8 : (Buffer.ofBytes mem).get (some (8 + HEADER_OFFSET)) = mem[8]? := get_ofBytes mem 8
  unfold readHeader
  dsimp only
  rw [h7, h8]
  by_cases c : mem.take 7 = asciiBytes "BLENDER"
  · rw [if_pos c, if_neg (by rw [(magic_iff mem).2 c]; exact fun hc => hc rfl)]
  · rw [if_neg c, if_pos (fun hc => c ((magic_iff mem).1 hc.symm))]

/-- C12: `readHeader` fails, with the error "Not a blender file format",
exactly when the first seven bytes of the file are not the ASCII bytes of
`BLENDER`, so also for a file of less than seven bytes; when they are, it
returns the configuration of the two markers. No other seven bytes pass
through the trimming and the NUL removal of `readString`. -/
theorem readHeader_fails_iff_magic_differs (mem : List Byte) :
    (readHeader (Buffer.ofBytes mem) (Buffer.ofBytes mem) HEADER_OFFSET = .error .notBlender ↔
      mem.take 7 ≠ asciiBytes "BLENDER") ∧
    (mem.take 7 = asciiBytes "BLENDER" ↔
      readHeader (Buffer.ofBytes mem) (Buffer.ofBytes mem) HEADER_OFFSET =
        .ok { endian := mem[8]?, ptrSize := PTR_SIZE_BYTE_LEN mem[7]? }) ∧
    (mem.length < 7 →
      readHeader (Buffer.ofBytes mem) (Buffer.ofBytes mem) HEADER_OFFSET = .error .notBlender) ∧
    (readString (Buffer.ofBytes mem) (0 + HEADER_OFFSET) 7 = "BLENDER" ↔
      mem.take 7 = asciiBytes "BLENDER") := by
  rw [readHeader_eq]
  refine ⟨?_, ?_, ?_, magic_iff mem⟩
  · by_cases c : mem.take 7 = asciiBytes "BLENDER"
    · rw [if_pos c]; simp [c]
    · rw [if_neg c]; simp [c]
  · by_cases c : mem.take 7 = asciiBytes "BLENDER"
    · rw [if_pos c]; simp [c]
    · rw [if_neg c]; simp [c]
  · intro hlen
    rw [if_neg]
    intro hc
    have := congrArg List.length hc
    rw [List.length_take] at this
    have h7 : (asciiBytes "BLENDER").length = 7 := by decide
    omega

/-- C12 at three buffers: the magic itself passes; a magic with a NUL in the
place of the last letter and one with a leading blank do not, nor does a
buffer of six bytes. -/
theorem readHeader_fails_iff_magic_differs_witness :
    readHeader (Buffer.ofBytes (asciiBytes "BLENDER-v279")) (Buffer.ofBytes (asciiBytes "BLENDER-v279"))
      HEADER_OFFSET = .ok ⟨some LE, some 8⟩ ∧
    readHeader (Buffer.ofBytes (asciiBytes "BLENDE\x00R-v279"))
      (Buffer.ofBytes (asciiBytes "BLENDE\x00R-v279")) HEADER_OFFSET = .error .notBlender ∧
    readHeader (Buffer.ofBytes (asciiBytes " BLENDER-v279"))
      (Buffer.ofBytes (asciiBytes " BLENDER-v279")) HEADER_OFFSET = .error .notBlender ∧
    readHeader (Buffer.ofBytes (asciiBytes "BLENDE")) (Buffer.ofBytes (asciiBytes "BLENDE"))
      HEADER_OFFSET = .error .notBlender :=
  ⟨((readHeader_fails_iff_magic_differs _).2.1).1 (by decide),
    ((readHeader_fails_iff_magic_differs _).1).2 (by decide),
    ((readHeader_fails_iff_magic_differs _).1).2 (by decide),
    (readHeader_fails_iff_magic_differs _).2.2.1 (by decide)⟩

theorem readUint32_error_iff (cfg : FileConfig) (b : Buffer) (idx : Option Int) :
    readUint32 cfg b idx = .error .unsupportedEndianness ↔
      cfg.endian ≠ some LE ∧ cfg.endian ≠ some BE := by
  unfold readUint32
  by_cases h1 : cfg.endian = some LE
  · rw [if_pos h1]; simp [h1]
  · rw [if_neg h1]
    by_cases h2 : cfg.endian = some BE
    · rw [if_pos h2]; simp [h2]
    · rw [if_neg h2]; simp [h1, h2]

theorem writeUint32_error_iff (cfg : FileConfig) (b : Buffer) (idx : Option Int) (v : Int) :
    writeUint32 cfg b idx v = .error .unsupportedEndianness ↔
      cfg.endian ≠ some LE ∧ cfg.endian ≠ some BE := by
  unfold writeUint32
  by_cases h1 : cfg.endian = some LE
  · rw [if_pos h1]; simp [h1]
  · rw [if_neg h1]
    by_cases h2 : cfg.endian = some BE
    · rw [if_pos h2]; simp [h2]
    · rw [if_neg h2]; simp [h1, h2]

/-- C11: on a file that starts with `BLENDER` and whose byte at offset 8 is
neither `V` (0x56) nor `v` (0x76), the first pass of the block loop ends in
`die` with the error "Unsupported endianness" when it reads the first block
header, the buffer being as it was read; so the run, with fuel for one pass,
ends with that error and writes no file. And `readUint32` and `writeUint32`
end with that error exactly when the configured endianness is neither of the
two values, and with no other error. -/
theorem unsupported_endianness_aborts (args : Args) (mem : List Byte) (dna1 : Dna1Body)
    (hmagic : mem.take 7 = asciiBytes "BLENDER")
    (hbe : mem[8]? ≠ some BE) (hle : mem[8]? ≠ some LE) :
    readFileBlockHeader { endian := mem[8]?, ptrSize := PTR_SIZE_BYTE_LEN mem[7]? }
      (Buffer.ofBytes mem) FILEBLOCKS_OFFSET = .error .unsupportedEndianness ∧
    loopBody { endian := mem[8]?, ptrSize := PTR_SIZE_BYTE_LEN mem[7]? } args
      (lookupSdnaIndexForModifierDataStruct dna1 args.modifierDataTypeName) (initialState mem) =
      .died .unsupportedEndianness ∧
    (∀ fuel, 0 < fuel →
      main fuel args mem dna1 = some (.error .unsupportedEndianness) ∧
      writtenFile (main fuel args mem dna1) = none) ∧
    (∀ (cfg : FileConfig) (b : Buffer) (idx : Option Int) (v : Int),
      (readUint32 cfg b idx = .error .unsupportedEndianness ↔
        cfg.endian ≠ some LE ∧ cfg.endian ≠ some BE) ∧
      (writeUint32 cfg b idx v = .error .unsupportedEndianness ↔
        cfg.endian ≠ some LE ∧ cfg.endian ≠ some BE) ∧
      (∀ e, readUint32 cfg b idx = .error e → e = .unsupportedEndianness) ∧
      (∀ e, writeUint32 cfg b idx v = .error e → e = .unsupportedEndianness)) := by
  have hread : ∀ (b : Buffer) (idx : Option Int),
      readUint32 { endian := mem[8]?, ptrSize := PTR_SIZE_BYTE_LEN mem[7]? } b idx =
        .error .unsupportedEndianness :=
    fun b idx => (readUint32_error_iff _ b idx).2 ⟨hle, hbe⟩
  have hhdr : readFileBlockHeader { endian := mem[8]?, ptrSize := PTR_SIZE_BYTE_LEN mem[7]? }
      (Buffer.ofBytes mem) FILEBLOCKS_OFFSET = .error .unsupportedEndianness := by
    unfold readFileBlockHeader
    rw [hread]
  have hbody : loopBody { endian := mem[8]?, ptrSize := PTR_SIZE_BYTE_LEN mem[7]? } args
      (lookupSdnaIndexForModifierDataStruct dna1 args.modifierDataTypeName) (initialState mem) =
      .died .unsupportedEndianness := by
    unfold loopBody
    have : (initialState mem).offset = FILEBLOCKS_OFFSET := rfl
    rw [this]
    have : (initialState mem).fileContent = mem := rfl
    rw [this, hhdr]
  refine ⟨hhdr, hbody, ?_, ?_⟩
  · intro fuel hfuel
    obtain ⟨f, rfl⟩ : ∃ f, fuel = f + 1 := ⟨fuel - 1, by omega⟩
    have hmain : main (f + 1) args mem dna1 = some (.error .unsupportedEndianness) := by
      unfold main
      rw [readHeader_eq, if_pos hmagic]
      dsimp only
      simp only [loop, hbody]
    rw [hmain]
    exact ⟨rfl, rfl⟩
  · intro cfg b idx v
    refine ⟨readUint32_error_iff cfg b idx, writeUint32_error_iff cfg b idx v, ?_, ?_⟩
    · intro e he
      unfold readUint32 at he
      split_ifs at he
      simp only [Except.error.injEq] at he
      exact he.symm
    · intro e he
      unfold writeUint32 at he
      split_ifs at he
      simp only [Except.error.injEq] at he
      exact he.symm

set_option maxRecDepth 100000 in
/-- C11 at a file with the endianness marker `x`. -/
theorem unsupported_endianness_aborts_witness :
    main 1 exampleArgs (headerBadEndian ++ blockLE "DATA" 1 1 (modifierBody 3 "Bevel") ++
        dna1Block ++ endbBlock) exampleDna = some (.error .unsupportedEndianness) ∧
    writtenFile (main 1 exampleArgs (headerBadEndian ++
        blockLE "DATA" 1 1 (modifierBody 3 "Bevel") ++ dna1Block ++ endbBlock) exampleDna) = none :=
  (unsupported_endianness_aborts exampleArgs (headerBadEndian ++
    blockLE "DATA" 1 1 (modifierBody 3 "Bevel") ++ dna1Block ++ endbBlock) exampleDna (by decide)
    (by decide) (by decide)).2.2.1 1 (by decide)

/-! ## Passes at or past the end of the file -/

theorem get_past_end (mem : List Byte) {i : Int} (h : (mem.length : Int) ≤ i) :
    (Buffer.ofBytes mem).get (some i) = none := by
  unfold Buffer.get Buffer.ofBytes
  dsimp only
  rw [if_neg]
  omega

theorem readUint32_past_end {cfg : FileConfig} (hcfg : cfg.endian = some LE ∨ cfg.endian = some BE)
    (mem : List Byte) {i : Int} (h : (mem.length : Int) ≤ i) :
    readUint32 cfg (Buffer.ofBytes mem) (some i) = .ok 0 := by
  have e0 : (Buffer.ofBytes mem).get (idxAdd (some i) 0) = none :=
    get_past_end mem (show (mem.length : Int) ≤ i + 0 by omega)
  have e1 : (Buffer.ofBytes mem).get (idxAdd (some i) 1) = none :=
    get_past_end mem (show (mem.length : Int) ≤ i + 1 by omega)
  have e2 : (Buffer.ofBytes mem).get (idxAdd (some i) 2) = none :=
    get_past_end mem (show (mem.length : Int) ≤ i + 2 by omega)
  have e3 : (Buffer.ofBytes mem).get (idxAdd (some i) 3) = none :=
    get_past_end mem (show (mem.length : Int) ≤ i + 3 by omega)
  unfold readUint32
  rw [e0, e1, e2, e3]
  rcases hcfg with hc | hc
  · rw [if_pos hc]; rfl
  · by_cases h2 : cfg.endian = some LE
    · rw [if_pos h2]; rfl
    · rw [if_neg h2, if_pos hc]; rfl

theorem readString_past_end (mem : List Byte) {o : Int} (n : Int)
    (h : (mem.length : Int) ≤ o) (hn : 0 ≤ n) :
    readString (Buffer.ofBytes mem) (0 + o) n = "" := by
  have hb : ((Buffer.ofBytes mem).slice (0 + o) (some (0 + o + n))).bytes = [] := by
    have hlen : ((Buffer.ofBytes mem).slice (0 + o) (some (0 + o + n))).length = 0 := by
      rw [(Buffer.slice_some _ _ _).2.2]
      dsimp only [Buffer.ofBytes]
      have a1 := adjustOffset_cases (0 + o) mem.length
      have a2 := adjustOffset_cases (0 + o + n) mem.length
      rcases a1 with ⟨_, _, a1⟩ | ⟨_, _, a1⟩ | ⟨_, _, a1⟩ | ⟨_, _, a1⟩ <;>
      rcases a2 with ⟨_, _, a2⟩ | ⟨_, _, a2⟩ | ⟨_, _, a2⟩ | ⟨_, _, a2⟩ <;> omega
    unfold Buffer.bytes
    rw [hlen]
    rfl
  unfold readString
  rw [hb]
  rfl

/-- A pass that starts at or past the end of the file reads the code `""` and
the body length `0`, and goes on 24 bytes further. -/
theorem loopBody_past_end {cfg : FileConfig} (hcfg : cfg.endian = some LE ∨ cfg.endian = some BE)
    (args : Args) (sdnaIndex : Int) (s : ScanState) (h : (s.fileContent.length : Int) ≤ s.offset) :
    loopBody cfg args sdnaIndex s = .next { s with offset := 24 + s.offset + 0 } := by
  have hh : readFileBlockHeader cfg (Buffer.ofBytes s.fileContent) s.offset =
      .ok ⟨"", 0, 0, 0, 24, 24 + s.offset⟩ := by
    unfold readFileBlockHeader
    rw [readUint32_past_end hcfg _ (by omega), readUint32_past_end hcfg _ (by omega),
      readUint32_past_end hcfg _ (by omega), readString_past_end _ 4 h (by decide)]
  unfold loopBody
  rw [hh]
  have he : eligible ⟨"", 0, 0, 0, 24, 24 + s.offset⟩ sdnaIndex = false := by
    unfold eligible
    simp
  simp only [he]
  rfl

/-- From a pass that starts at or past the end of the file on, the block loop
never leaves: whatever the fuel, it runs out. -/
theorem loop_past_end {cfg : FileConfig} (hcfg : cfg.endian = some LE ∨ cfg.endian = some BE)
    (args : Args) (sdnaIndex : Int) :
    ∀ (fuel : Nat) (s : ScanState), (s.fileContent.length : Int) ≤ s.offset →
      loop cfg args sdnaIndex fuel s = none := by
  intro fuel
  induction fuel with
  | zero => intro s _; rfl
  | succ fuel ih =>
    intro s h
    simp only [loop]
    rw [loopBody_past_end hcfg args sdnaIndex s h]
    exact ih _ (by dsimp only; omega)

theorem loop_none_of_mem_passes (cfg : FileConfig) (args : Args) (sdnaIndex : Int) :
    ∀ (k : Nat) (s0 s : ScanState), s ∈ passes cfg args sdnaIndex k s0 →
      (∀ fuel, loop cfg args sdnaIndex fuel s = none) →
      ∀ fuel, loop cfg args sdnaIndex fuel s0 = none := by
  intro k
  induction k with
  | zero => intro s0 s hs; simp [passes] at hs
  | succ k ih =>
    intro s0 s hs hn fuel
    simp only [passes, List.mem_cons] at hs
    rcases hs with hs | hs
    · subst hs; exact hn fuel
    · cases hb : loopBody cfg args sdnaIndex s0 with
      | died e1 => rw [hb] at hs; simp at hs
      | done s2 => rw [hb] at hs; simp at hs
      | next s2 =>
        rw [hb] at hs
        cases fuel with
        | zero => rfl
        | succ fuel1 =>
          simp only [loop]
          rw [hb]
          exact ih s2 s hs hn fuel1

/-- The block loop never leaves when one of its passes starts at or past the
end of the file. -/
theorem loop_never_ends {cfg : FileConfig} (hcfg : cfg.endian = some LE ∨ cfg.endian = some BE)
    (args : Args) (sdnaIndex : Int) (k : Nat) (s0 : ScanState)
    (h : ∃ s ∈ passes cfg args sdnaIndex k s0, (s.fileContent.length : Int) ≤ s.offset) :
    ∀ fuel, loop cfg args sdnaIndex fuel s0 = none := by
  obtain ⟨s, hs, hpast⟩ := h
  exact loop_none_of_mem_passes cfg args sdnaIndex k s0 s hs
    (fun fuel => loop_past_end hcfg args sdnaIndex fuel s hpast)

set_option maxRecDepth 100000 in
/-- C13 (counterexample): the file `[DATA, DNA1]` has a valid header and its
blocks at 12 and 132 fill it to its end at 300 with no `ENDB` block; the third
pass starts at the end of the file, and the run returns nothing whatever the
fuel: it neither calls `die` nor completes. -/
theorem truncated_file_loops_forever :
    readHeader (Buffer.ofBytes fileNoEndb) (Buffer.ofBytes fileNoEndb) HEADER_OFFSET
      = .ok cfgLE64 ∧
    fileNoEndb.length = 300 ∧
    (passes cfgLE64 exampleArgs 1 3 (initialState fileNoEndb)).map (fun s => s.offset)
      = [12, 132, 300] ∧
    ∀ fuel, main fuel exampleArgs fileNoEndb exampleDna = none := by
  have hcfg : readHeader (Buffer.ofBytes fileNoEndb) (Buffer.ofBytes fileNoEndb) HEADER_OFFSET
      = .ok cfgLE64 := by decide
  refine ⟨hcfg, by decide, by decide, ?_⟩
  intro fuel
  have hl := loop_never_ends (Or.inl rfl : cfgLE64.endian = some LE ∨ cfgLE64.endian = some BE)
    exampleArgs (lookupSdnaIndexForModifierDataStruct exampleDna exampleArgs.modifierDataTypeName)
    3 (initialState fileNoEndb) (by decide) fuel
  unfold main
  rw [hcfg]
  dsimp only
  rw [hl]

/-- C13 (amended): for a buffer with a valid header (the magic and a supported
endianness marker), when a pass of the block loop starts at or past the end of
the buffer, the run does not end: whatever the fuel, it has neither called
`die` with an error nor completed, and it writes no file. From that pass on
every pass reads the code `""` and the body length `0` and goes on 24 bytes
further. -/
theorem run_past_end_never_ends (args : Args) (fileContent : List Byte) (dna1 : Dna1Body)
    (cfg : FileConfig) (k : Nat) (s : ScanState)
    (hcfg : readHeader (Buffer.ofBytes fileContent) (Buffer.ofBytes fileContent) HEADER_OFFSET
      = .ok cfg)
    (hendian : cfg.endian = some LE ∨ cfg.endian = some BE)
    (hs : s ∈ passes cfg args (lookupSdnaIndexForModifierDataStruct dna1 args.modifierDataTypeName)
      k (initialState fileContent))
    (hpast : (s.fileContent.length : Int) ≤ s.offset) :
    (∀ fuel, main fuel args fileContent dna1 = none ∧
      writtenFile (main fuel args fileContent dna1) = none) ∧
    loopBody cfg args (lookupSdnaIndexForModifierDataStruct dna1 args.modifierDataTypeName) s =
      .next { s with offset := s.offset + 24 } ∧
    readFileBlockHeader cfg (Buffer.ofBytes s.fileContent) s.offset =
      .ok ⟨"", 0, 0, 0, 24, 24 + s.offset⟩ := by
  have hmain : ∀ fuel, main fuel args fileContent dna1 = none := by
    intro fuel
    have hl := loop_never_ends hendian args
      (lookupSdnaIndexForModifierDataStruct dna1 args.modifierDataTypeName) k
      (initialState fileContent) ⟨s, hs, hpast⟩ fuel
    unfold main
    rw [hcfg]
    dsimp only
    rw [hl]
  refine ⟨fun fuel => ⟨hmain fuel, by rw [hmain fuel]; rfl⟩, ?_, ?_⟩
  · rw [loopBody_past_end hendian args _ s hpast]
    congr 2
    omega
  · unfold readFileBlockHeader
    rw [readUint32_past_end hendian _ (by omega), readUint32_past_end hendian _ (by omega),
      readUint32_past_end hendian _ (by omega), readString_past_end _ 4 hpast (by decide)]

set_option maxRecDepth 100000 in
/-- C13 (amended) at the file `[DATA, DNA1]` with no `ENDB` block: the third
pass starts at offset 300, the end of the file. -/
theorem run_past_end_never_ends_witness :
    fileNoEndb.length = 300 ∧ main 1000 exampleArgs fileNoEndb exampleDna = none := by
  have h := run_past_end_never_ends exampleArgs fileNoEndb exampleDna cfgLE64 3
    ⟨fileNoEndb.set 52 7, 300, 1⟩ (by decide) (by decide) (by decide) (by decide)
  exact ⟨by decide, (h.1 1000).1⟩

/-! ## Reads depend only on the window they look at -/

theorem Buffer.get_window {b b1 : Buffer} (ho : b.byteOffset = b1.byteOffset)
    (hl : b.length = b1.length) {i : Int}
    (h : ∀ j : Nat, (j : Int) = b.byteOffset + i → b.mem[j]? = b1.mem[j]?) :
    b.get (some i) = b1.get (some i) := by
  simp only [Buffer.get]
  rw [← hl, ← ho]
  by_cases c : 0 ≤ i ∧ i < b.length
  · rw [if_pos c, if_pos c]
    exact h _ (by omega)
  · rw [if_neg c, if_neg c]

theorem readUint32_window {b b1 : Buffer} (ho : b.byteOffset = b1.byteOffset)
    (hl : b.length = b1.length) (cfg : FileConfig) (i : Int)
    (h : ∀ j : Nat, (b.byteOffset : Int) + i ≤ j → (j : Int) < b.byteOffset + i + 4 →
      b.mem[j]? = b1.mem[j]?) :
    readUint32 cfg b (some i) = readUint32 cfg b1 (some i) := by
  have g : ∀ k : Int, 0 ≤ k → k < 4 → b.get (idxAdd (some i) k) = b1.get (idxAdd (some i) k) := by
    intro k hk0 hk4
    show b.get (some (i + k)) = b1.get (some (i + k))
    exact Buffer.get_window ho hl (fun j hj => h j (by omega) (by omega))
  unfold readUint32
  rw [g 0 (by decide) (by decide), g 1 (by decide) (by decide), g 2 (by decide) (by decide),
    g 3 (by decide) (by decide)]

theorem Buffer.bytes_window {b b1 : Buffer} (ho : b.byteOffset = b1.byteOffset)
    (hl : b.length = b1.length)
    (h : ∀ j : Nat, b.byteOffset ≤ j → j < b.byteOffset + b.length → b.mem[j]? = b1.mem[j]?) :
    b.bytes = b1.bytes := by
  unfold Buffer.bytes
  rw [← hl, ← ho]
  apply List.ext_getElem?
  intro k
  by_cases c : k < b.length
  · rw [List.getElem?_take_of_lt c, List.getElem?_take_of_lt c, List.getElem?_drop,
      List.getElem?_drop]
    exact h _ (Nat.le_add_right _ _) (by omega)
  · rw [List.getElem?_take_eq_none (by omega), List.getElem?_take_eq_none (by omega)]

theorem readString_window {b b1 : Buffer} (ho : b.byteOffset = b1.byteOffset)
    (hl : b.length = b1.length) (o n : Int) (h0 : 0 ≤ o) (hn : 0 ≤ n)
    (h : ∀ j : Nat, (b.byteOffset : Int) + o ≤ j → (j : Int) < b.byteOffset + o + n →
      b.mem[j]? = b1.mem[j]?) :
    readString b o n = readString b1 o n := by
  obtain ⟨m1, o1, l1⟩ := Buffer.slice_some b o (o + n)
  obtain ⟨m2, o2, l2⟩ := Buffer.slice_some b1 o (o + n)
  have hb : (b.slice o (some (o + n))).bytes = (b1.slice o (some (o + n))).bytes := by
    apply Buffer.bytes_window
    · rw [o1, o2, ho, hl]
    · rw [l1, l2, hl]
    · intro j hj1 hj2
      rw [m1, m2]
      rw [o1] at hj1 hj2
      rw [l1] at hj2
      have a1 := adjustOffset_cases o b.length
      have a2 := adjustOffset_cases (o + n) b.length
      generalize adjustOffset o b.length = x1 at *
      generalize adjustOffset (o + n) b.length = x2 at *
      apply h j
      · rcases a1 with ⟨_, _, a1⟩ | ⟨_, _, a1⟩ | ⟨_, _, a1⟩ | ⟨_, _, a1⟩ <;>
        rcases a2 with ⟨_, _, a2⟩ | ⟨_, _, a2⟩ | ⟨_, _, a2⟩ | ⟨_, _, a2⟩ <;> omega
      · rcases a1 with ⟨_, _, a1⟩ | ⟨_, _, a1⟩ | ⟨_, _, a1⟩ | ⟨_, _, a1⟩ <;>
        rcases a2 with ⟨_, _, a2⟩ | ⟨_, _, a2⟩ | ⟨_, _, a2⟩ | ⟨_, _, a2⟩ <;> omega
  unfold readString
  rw [hb]

/-- The header read at an offset depends only on the length of the file and
on the 24 bytes from that offset on. -/
theorem readFileBlockHeader_window {m m1 : List Byte} {o : Nat} (hlen : m.length = m1.length)
    (hsame : ∀ j : Nat, o ≤ j → j < o + 24 → m[j]? = m1[j]?) (cfg : FileConfig) :
    readFileBlockHeader cfg (Buffer.ofBytes m) (o : Int) =
      readFileBlockHeader cfg (Buffer.ofBytes m1) (o : Int) := by
  have ho : (Buffer.ofBytes m).byteOffset = (Buffer.ofBytes m1).byteOffset := rfl
  have hl : (Buffer.ofBytes m).length = (Buffer.ofBytes m1).length := hlen
  have hz : ((Buffer.ofBytes m).byteOffset : Int) = 0 := rfl
  unfold readFileBlockHeader
  rw [readUint32_window ho hl cfg (4 + (o : Int)) (fun j h1 h2 => hsame j (by omega) (by omega)),
    readUint32_window ho hl cfg (16 + (o : Int)) (fun j h1 h2 => hsame j (by omega) (by omega)),
    readUint32_window ho hl cfg (20 + (o : Int)) (fun j h1 h2 => hsame j (by omega) (by omega)),
    readString_window ho hl (0 + (o : Int)) 4 (by omega) (by decide)
      (fun j h1 h2 => hsame j (by omega) (by omega))]

theorem Buffer.eq_of_fields {a b : Buffer} (h1 : a.mem = b.mem) (h2 : a.byteOffset = b.byteOffset)
    (h3 : a.length = b.length) : a = b := by
  cases a; cases b
  simp only at h1 h2 h3
  subst h1 h2 h3
  rfl

/-- The body view of a block that lies in the file: the `bodyLength` bytes
after the 24 bytes of the header. -/
theorem bodyView_eq (m : List Byte) (o n : Nat) (h : FileBlockHeader) (hlen : h.length = 24)
    (hnn : 0 ≤ h.bodyLength) (hin : (o : Int) + 24 + h.bodyLength ≤ m.length) :
    bodyView ⟨m, (o : Int), n⟩ h = ⟨m, o + 24, h.bodyLength.toNat⟩ := by
  unfold bodyView
  dsimp only
  rw [hlen]
  obtain ⟨m2, o2, l2⟩ := Buffer.slice_some (Buffer.ofBytes m) (o : Int)
    ((o : Int) + 24 + h.bodyLength)
  obtain ⟨m3, o3, l3⟩ := Buffer.slice_none ((Buffer.ofBytes m).slice (o : Int)
    (some ((o : Int) + 24 + h.bodyLength))) 24
  have hb0 : (Buffer.ofBytes m).byteOffset = 0 := rfl
  have hbl : (Buffer.ofBytes m).length = m.length := rfl
  have c3 := adjustOffset_cases (o : Int) m.length
  have c4 := adjustOffset_cases ((o : Int) + 24 + h.bodyLength) m.length
  have c5 := adjustOffset_cases 24 (adjustOffset ((o : Int) + 24 + h.bodyLength) m.length -
    adjustOffset (o : Int) m.length)
  apply Buffer.eq_of_fields
  · rw [m3, m2]; rfl
  · rw [o3, o2, l2, hb0, hbl]
    dsimp only
    generalize adjustOffset 24 (adjustOffset ((o : Int) + 24 + h.bodyLength) m.length -
      adjustOffset (o : Int) m.length) = a5 at *
    generalize adjustOffset ((o : Int) + 24 + h.bodyLength) m.length = a4 at *
    generalize adjustOffset (o : Int) m.length = a3 at *
    generalize h.bodyLength = bl at *
    clear m2 m3 o2 o3 l2 l3 hlen
    have e3 : a3 = o := by
      rcases c3 with ⟨_, _, c3⟩ | ⟨_, _, c3⟩ | ⟨_, _, c3⟩ | ⟨_, _, c3⟩ <;> omega
    have e4 : (a4 : Int) = o + 24 + bl := by
      rcases c4 with ⟨_, _, c4⟩ | ⟨_, _, c4⟩ | ⟨_, _, c4⟩ | ⟨_, _, c4⟩ <;> omega
    clear c3 c4
    rcases c5 with ⟨_, _, c5⟩ | ⟨_, _, c5⟩ | ⟨_, _, c5⟩ | ⟨_, _, c5⟩ <;> omega
  · rw [l3, l2, hbl]
    dsimp only
    generalize adjustOffset 24 (adjustOffset ((o : Int) + 24 + h.bodyLength) m.length -
      adjustOffset (o : Int) m.length) = a5 at *
    generalize adjustOffset ((o : Int) + 24 + h.bodyLength) m.length = a4 at *
    generalize adjustOffset (o : Int) m.length = a3 at *
    generalize h.bodyLength = bl at *
    clear m2 m3 o2 o3 l2 l3 hlen
    have e3 : a3 = o := by
      rcases c3 with ⟨_, _, c3⟩ | ⟨_, _, c3⟩ | ⟨_, _, c3⟩ | ⟨_, _, c3⟩ <;> omega
    have e4 : (a4 : Int) = o + 24 + bl := by
      rcases c4 with ⟨_, _, c4⟩ | ⟨_, _, c4⟩ | ⟨_, _, c4⟩ | ⟨_, _, c4⟩ <;> omega
    clear c3 c4
    rcases c5 with ⟨_, _, c5⟩ | ⟨_, _, c5⟩ | ⟨_, _, c5⟩ | ⟨_, _, c5⟩ <;> omega


/-! ## The bytes `writeUint32` stores do not depend on the buffer -/

theorem Buffer.set_shape {b c : Buffer} (ho : b.byteOffset = c.byteOffset)
    (hl : b.length = c.length) (hm : b.mem.length = c.mem.length) (idx : Option Int) (v : Int) :
    (b.set idx v).byteOffset = (c.set idx v).byteOffset ∧
    (b.set idx v).length = (c.set idx v).length ∧
    (b.set idx v).mem.length = (c.set idx v).mem.length ∧
    (b.set idx v).byteOffset = b.byteOffset ∧ (b.set idx v).length = b.length := by
  obtain ⟨l1, o1, n1, -⟩ := Buffer.set_frame b idx v
  obtain ⟨l2, o2, n2, -⟩ := Buffer.set_frame c idx v
  exact ⟨by rw [o1, o2, ho], by rw [n1, n2, hl], by rw [l1, l2, hm], o1, n1⟩

theorem Buffer.set_congr_step {b c : Buffer} (ho : b.byteOffset = c.byteOffset)
    (hl : b.length = c.length) (hm : b.mem.length = c.mem.length) (off : Option Int) (i v : Int)
    (j : Nat)
    (h : b.mem[j]? = c.mem[j]? ∨
      ∃ o : Int, off = some o ∧ 0 ≤ o + i ∧ o + i < b.length ∧ j = b.byteOffset + (o + i).toNat) :
    (b.set (idxAdd off i) v).mem[j]? = (c.set (idxAdd off i) v).mem[j]? := by
  cases off with
  | none =>
    rcases h with h | ⟨o, h, -⟩
    · exact h
    · simp at h
  | some o =>
    simp only [idxAdd, Option.map_some', Buffer.set]
    rw [← hl, ← ho]
    by_cases c1 : 0 ≤ o + i ∧ o + i < b.length
    · rw [if_pos c1, if_pos c1]
      dsimp only
      rw [List.getElem?_set, List.getElem?_set, hm]
      by_cases hj : b.byteOffset + (o + i).toNat = j
      · rw [if_pos hj, if_pos hj]
      · rw [if_neg hj, if_neg hj]
        rcases h with h | ⟨o2, h2, -, -, h3⟩
        · exact h
        · simp only [Option.some.injEq] at h2
          subst h2
          exact absurd h3.symm hj
    · rw [if_neg c1, if_neg c1]
      rcases h with h | ⟨o2, h2, h3, h4, -⟩
      · exact h
      · simp only [Option.some.injEq] at h2
        subst h2
        exact absurd ⟨h3, h4⟩ c1

/-- Two buffers of the same shape after `writeUint32` of the same number at
the same offset: they agree at every index at which they agreed before, and
at the indices of the four stores. -/
theorem writeUint32_congr {cfg : FileConfig} {b c b1 c1 : Buffer}
    (ho : b.byteOffset = c.byteOffset) (hl : b.length = c.length)
    (hm : b.mem.length = c.mem.length) {off : Option Int} {v : Int}
    (hb : writeUint32 cfg b off v = .ok b1) (hc : writeUint32 cfg c off v = .ok c1) (j : Nat)
    (h : b.mem[j]? = c.mem[j]? ∨
      ∃ (o : Int) (k : Int), off = some o ∧ 0 ≤ k ∧ k < 4 ∧ 0 ≤ o + k ∧ o + k < b.length ∧
        j = b.byteOffset + (o + k).toNat) :
    b1.mem[j]? = c1.mem[j]? := by
  have four : ∀ (i0 i1 i2 i3 : Int) (v0 v1 v2 v3 : Int),
      (∀ k : Int, 0 ≤ k → k < 4 → k = i0 ∨ k = i1 ∨ k = i2 ∨ k = i3) →
      ((((b.set (idxAdd off i0) v0).set (idxAdd off i1) v1).set (idxAdd off i2) v2).set
        (idxAdd off i3) v3).mem[j]? =
      ((((c.set (idxAdd off i0) v0).set (idxAdd off i1) v1).set (idxAdd off i2) v2).set
        (idxAdd off i3) v3).mem[j]? := by
    intro i0 i1 i2 i3 v0 v1 v2 v3 hall
    obtain ⟨p1, q1, r1, x1, y1⟩ := Buffer.set_shape ho hl hm (idxAdd off i0) v0
    obtain ⟨p2, q2, r2, x2, y2⟩ := Buffer.set_shape p1 q1 r1 (idxAdd off i1) v1
    obtain ⟨p3, q3, r3, x3, y3⟩ := Buffer.set_shape p2 q2 r2 (idxAdd off i2) v2
    rcases h with h | ⟨o, k, h1, h2, h3, h4, h5, h6⟩
    · have a1 := Buffer.set_congr_step ho hl hm off i0 v0 j (Or.inl h)
      have a2 := Buffer.set_congr_step p1 q1 r1 off i1 v1 j (Or.inl a1)
      have a3 := Buffer.set_congr_step p2 q2 r2 off i2 v2 j (Or.inl a2)
      exact Buffer.set_congr_step p3 q3 r3 off i3 v3 j (Or.inl a3)
    · rcases hall k h2 h3 with hk | hk | hk | hk
      · subst hk
        have a1 := Buffer.set_congr_step ho hl hm off k v0 j (Or.inr ⟨o, h1, h4, h5, h6⟩)
        have a2 := Buffer.set_congr_step p1 q1 r1 off i1 v1 j (Or.inl a1)
        have a3 := Buffer.set_congr_step p2 q2 r2 off i2 v2 j (Or.inl a2)
        exact Buffer.set_congr_step p3 q3 r3 off i3 v3 j (Or.inl a3)
      · subst hk
        have a2 := Buffer.set_congr_step p1 q1 r1 off k v1 j
          (Or.inr ⟨o, h1, h4, by rw [y1]; exact h5, by rw [x1]; exact h6⟩)
        have a3 := Buffer.set_congr_step p2 q2 r2 off i2 v2 j (Or.inl a2)
        exact Buffer.set_congr_step p3 q3 r3 off i3 v3 j (Or.inl a3)
      · subst hk
        have a3 := Buffer.set_congr_step p2 q2 r2 off k v2 j
          (Or.inr ⟨o, h1, h4, by rw [y2, y1]; exact h5, by rw [x2, x1]; exact h6⟩)
        exact Buffer.set_congr_step p3 q3 r3 off i3 v3 j (Or.inl a3)
      · subst hk
        exact Buffer.set_congr_step p3 q3 r3 off k v3 j
          (Or.inr ⟨o, h1, h4, by rw [y3, y2, y1]; exact h5, by rw [x3, x2, x1]; exact h6⟩)
  unfold writeUint32 at hb hc
  by_cases hle : cfg.endian = some LE
  · rw [if_pos hle] at hb hc
    simp only [Except.ok.injEq] at hb hc
    rw [← hb, ← hc]
    exact four 0 1 2 3 _ _ _ _ (fun k h0 h4 => by omega)
  · rw [if_neg hle] at hb hc
    by_cases hbe : cfg.endian = some BE
    · rw [if_pos hbe] at hb hc
      simp only [Except.ok.injEq] at hb hc
      rw [← hb, ← hc]
      exact four 3 2 1 0 _ _ _ _ (fun k h0 h4 => by omega)
    · rw [if_neg hbe] at hb
      simp at hb

theorem patchFileBlock_ok {cfg : FileConfig} {fileBlock body : Buffer} {h : FileBlockHeader}
    {name : String} {old new : Int}
    (hp : patchFileBlock cfg fileBlock h name old new = .ok body) :
    readString (fileBlock.slice h.length none) 32 64 = name ∧
    readUint32 cfg (fileBlock.slice h.length none) (twice cfg.ptrSize) = .ok old ∧
    writeUint32 cfg (fileBlock.slice h.length none) (twice cfg.ptrSize) new = .ok body := by
  unfold patchFileBlock at hp
  dsimp only at hp
  split at hp
  · simp at hp
  · rename_i v hv
    by_cases hn : name ≠ readString (fileBlock.slice h.length none) 32 64
    · rw [if_pos hn] at hp; simp at hp
    · rw [if_neg hn] at hp
      by_cases ho : old ≠ v
      · rw [if_pos ho] at hp; simp at hp
      · rw [if_neg ho] at hp
        simp only [ne_eq, not_not] at hn ho
        subst ho
        exact ⟨hn.symm, hv, hp⟩


/-! ## One pass at a block that lies in the file -/

theorem eligible_code {hd : FileBlockHeader} {sdnaIndex : Int} (he : eligible hd sdnaIndex = true) :
    hd.code = "DATA" := by
  simp only [eligible, Bool.and_eq_true, decide_eq_true_eq] at he
  exact he.1

theorem not_eligible_of_endb {hd : FileBlockHeader} (sdnaIndex : Int) (hc : hd.code = "ENDB") :
    eligible hd sdnaIndex = false := by
  cases he : eligible hd sdnaIndex with
  | false => rfl
  | true =>
    have := eligible_code he
    rw [hc] at this
    exact absurd this (by decide)

/-- A pass at a block that is not eligible changes nothing but the offset. -/
theorem loopBody_not_eligible {cfg : FileConfig} (args : Args) {sdnaIndex : Int} {s : ScanState}
    {hd : FileBlockHeader}
    (hh : readFileBlockHeader cfg (Buffer.ofBytes s.fileContent) s.offset = .ok hd)
    (he : eligible hd sdnaIndex = false) :
    loopBody cfg args sdnaIndex s =
      if hd.code = "ENDB" then .done s
      else .next { s with offset := hd.absoluteBodyOffset + hd.bodyLength } := by
  unfold loopBody
  rw [hh]
  simp only [he, Bool.false_eq_true, if_false]

/-- A pass at an eligible block with the expected name and old enum value
stores the new enum value and goes on to the next block. -/
theorem loopBody_eligible {cfg : FileConfig} (args : Args) {sdnaIndex : Int} {s : ScanState}
    {hd : FileBlockHeader} {body : Buffer}
    (hh : readFileBlockHeader cfg (Buffer.ofBytes s.fileContent) s.offset = .ok hd)
    (he : eligible hd sdnaIndex = true)
    (hname : readString (bodyView s hd) 32 64 = args.modifierName)
    (henum : readUint32 cfg (bodyView s hd) (twice cfg.ptrSize) = .ok args.oldEnumType)
    (hw : writeUint32 cfg (bodyView s hd) (twice cfg.ptrSize) args.newEnumType = .ok body) :
    loopBody cfg args sdnaIndex s =
      .next { fileContent := body.mem, offset := hd.absoluteBodyOffset + hd.bodyLength,
              numBlocksPatched := s.numBlocksPatched + 1 } := by
  have hc : hd.code ≠ "ENDB" := by
    rw [eligible_code he]; decide
  have hpatch : patchFileBlock cfg ((Buffer.ofBytes s.fileContent).slice s.offset
      (some (s.offset + hd.length + hd.bodyLength))) hd args.modifierName args.oldEnumType
      args.newEnumType = .ok body := by
    unfold patchFileBlock
    unfold bodyView at hname henum hw
    dsimp only
    rw [henum]
    dsimp only
    rw [if_neg (by rw [hname]; exact fun hc => hc rfl), if_neg (fun hc => hc rfl)]
    exact hw
  unfold loopBody
  rw [hh]
  simp only [he, if_true]
  rw [hpatch]
  simp only [if_neg hc]

/-- What a pass that did not call `die` did at a block: at a block that is
not eligible nothing but the offset changed; at an eligible block that lies in
the file the name and the old enum value were as expected and the new enum
value was stored in the body, `2 * ptrSize` bytes after its start. -/
theorem pass_at_block {cfg : FileConfig} {args : Args} {sdnaIndex : Int} {m : List Byte}
    {o n : Nat} {s1 : ScanState} {hd : FileBlockHeader}
    (hh : readFileBlockHeader cfg (Buffer.ofBytes m) (o : Int) = .ok hd)
    (hb : loopBody cfg args sdnaIndex ⟨m, (o : Int), n⟩ = .done s1 ∨
      loopBody cfg args sdnaIndex ⟨m, (o : Int), n⟩ = .next s1) :
    s1.fileContent.length = m.length ∧
    (hd.code = "ENDB" → loopBody cfg args sdnaIndex ⟨m, (o : Int), n⟩ = .done s1 ∧
      s1.fileContent = m ∧ s1.numBlocksPatched = n) ∧
    (hd.code ≠ "ENDB" → loopBody cfg args sdnaIndex ⟨m, (o : Int), n⟩ = .next s1 ∧
      s1.offset = (o : Int) + 24 + hd.bodyLength) ∧
    (eligible hd sdnaIndex = false → s1.fileContent = m ∧ s1.numBlocksPatched = n) ∧
    (eligible hd sdnaIndex = true → 0 ≤ hd.bodyLength →
      (o : Int) + 24 + hd.bodyLength ≤ m.length →
      s1.numBlocksPatched = n + 1 ∧
      readString ⟨m, o + 24, hd.bodyLength.toNat⟩ 32 64 = args.modifierName ∧
      readUint32 cfg ⟨m, o + 24, hd.bodyLength.toNat⟩ (twice cfg.ptrSize) =
        .ok args.oldEnumType ∧
      writeUint32 cfg ⟨m, o + 24, hd.bodyLength.toNat⟩ (twice cfg.ptrSize) args.newEnumType =
        .ok ⟨s1.fileContent, o + 24, hd.bodyLength.toNat⟩) := by
  obtain ⟨h, hh1, hp, hq⟩ := loopBody_ok hb
  dsimp only at hh1 hp hq
  rw [hh] at hh1
  simp only [Except.ok.injEq] at hh1
  subst hh1
  obtain ⟨-, -, -, -, hlen24, habs⟩ := readFileBlockHeader_ok hh
  have hl := (loopBody_frame hb).1
  dsimp only at hl
  have hne : ∀ (hf : eligible hd sdnaIndex = false), s1.fileContent = m ∧ s1.numBlocksPatched = n := by
    intro hf
    rcases hp with ⟨he, -⟩ | ⟨-, h1, h2⟩
    · rw [hf] at he; exact absurd he (by decide)
    · exact ⟨h1, h2⟩
  refine ⟨hl, ?_, ?_, hne, ?_⟩
  · intro hc
    refine ⟨?_, hne (not_eligible_of_endb sdnaIndex hc)⟩
    rcases hq with ⟨-, hq, -⟩ | ⟨hq, -, -⟩
    · exact hq
    · exact absurd hc hq
  · intro hc
    rcases hq with ⟨hq, -, -⟩ | ⟨-, hq, hoff⟩
    · exact absurd hq hc
    · refine ⟨hq, ?_⟩
      rw [hoff, habs]
      omega
  · intro he hnn hin
    rcases hp with ⟨-, body, hbody, hmem, hnum⟩ | ⟨hf, -⟩
    · obtain ⟨hname, henum, hw⟩ := patchFileBlock_ok hbody
      have hv := bodyView_eq m o n hd hlen24 hnn hin
      unfold bodyView at hv
      dsimp only at hv
      rw [hv] at hname henum hw
      obtain ⟨-, wo, wl, -⟩ := writeUint32_frame hw
      have hbody_eq : body = ⟨s1.fileContent, o + 24, hd.bodyLength.toNat⟩ :=
        Buffer.eq_of_fields hmem.symm wo wl
      rw [hbody_eq] at hw
      exact ⟨hnum, hname, henum, hw⟩
    · rw [hf] at he; exact absurd he (by decide)


/-- The bytes a pass that did not call `die` changed: none at a block that is
not eligible, and at an eligible block that lies in the file at most the four
bytes of the body at `2 * ptrSize`, inside the body. -/
theorem pass_at_block_frame {cfg : FileConfig} {args : Args} {sdnaIndex : Int} {m : List Byte}
    {o n : Nat} {s1 : ScanState} {hd : FileBlockHeader}
    (hh : readFileBlockHeader cfg (Buffer.ofBytes m) (o : Int) = .ok hd)
    (hb : loopBody cfg args sdnaIndex ⟨m, (o : Int), n⟩ = .done s1 ∨
      loopBody cfg args sdnaIndex ⟨m, (o : Int), n⟩ = .next s1)
    (hin : eligible hd sdnaIndex = true →
      0 ≤ hd.bodyLength ∧ (o : Int) + 24 + hd.bodyLength ≤ m.length) :
    ∀ j : Nat, s1.fileContent[j]? ≠ m[j]? →
      eligible hd sdnaIndex = true ∧
      ∃ (q : Int) (k : Int), twice cfg.ptrSize = some q ∧ 0 ≤ k ∧ k < 4 ∧ 0 ≤ q + k ∧
        q + k < hd.bodyLength ∧ (j : Int) = (o : Int) + 24 + q + k := by
  intro j hj
  obtain ⟨-, -, -, hne, hel⟩ := pass_at_block hh hb
  cases he : eligible hd sdnaIndex with
  | false =>
    rw [(hne he).1] at hj
    exact absurd rfl hj
  | true =>
    obtain ⟨hnn, hfile⟩ := hin he
    obtain ⟨-, -, -, hw⟩ := hel he hnn hfile
    obtain ⟨-, -, -, hf⟩ := writeUint32_frame hw
    obtain ⟨q, k, hq, hk0, hk4, h0, h1, hjj⟩ := hf j hj
    dsimp only at h1 hjj
    exact ⟨rfl, q, k, hq, hk0, hk4, h0, by omega, by omega⟩

theorem loop_zero_ne {cfg : FileConfig} {args : Args} {sdnaIndex : Int} {s : ScanState}
    {r : Except Error ScanState} (h : loop cfg args sdnaIndex 0 s = some r) : False := by
  simp [loop] at h

/-- The block loop on a well-formed block sequence, when it returns, has kept
the length of the file and every byte before the body of the block it was
started at. -/
theorem loop_chain_below (cfg : FileConfig) (args : Args) (sdnaIndex : Int) (mem : List Byte)
    (hbound : mem.length < 2147483648) :
    ∀ (chain : List Nat) (o : Nat) (s : ScanState) (fuel : Nat) (s1 : ScanState),
      isChain cfg mem o chain = true → s.offset = (o : Int) →
      s.fileContent.length = mem.length →
      (∀ j : Nat, o ≤ j → s.fileContent[j]? = mem[j]?) →
      loop cfg args sdnaIndex fuel s = some (.ok s1) →
      s1.fileContent.length = mem.length ∧
      ∀ j : Nat, j < o + 24 → s1.fileContent[j]? = s.fileContent[j]? := by
  intro chain
  induction chain with
  | nil => intro o s fuel s1 hc; simp [isChain] at hc
  | cons x rest ih =>
    intro o s fuel s1 hc hso hlen hsame hloop
    obtain ⟨m0, off0, n0⟩ := s
    dsimp only at hso hlen hsame ⊢
    subst hso
    cases fuel with
    | zero => exact (loop_zero_ne hloop).elim
    | succ f =>
      simp only [loop] at hloop
      cases rest with
      | nil =>
        obtain ⟨hx, ho, hd, hh, hcode⟩ := isChain_single hc
        have hh0 : readFileBlockHeader cfg (Buffer.ofBytes m0) (o : Int) = .ok hd := by
          rw [readFileBlockHeader_sameFrom hlen hsame (by omega) cfg]; exact hh
        cases hb : loopBody cfg args sdnaIndex ⟨m0, (o : Int), n0⟩ with
        | died e => rw [hb] at hloop; simp at hloop
        | done s2 =>
          rw [hb] at hloop
          simp only [Option.some.injEq, Except.ok.injEq] at hloop
          subst hloop
          obtain ⟨-, hend, -⟩ := pass_at_block hh0 (Or.inl hb)
          obtain ⟨-, hfc, -⟩ := hend hcode
          rw [hfc]
          exact ⟨hlen, fun j _ => rfl⟩
        | next s2 =>
          obtain ⟨-, hend, -⟩ := pass_at_block hh0 (Or.inr hb)
          have := (hend hcode).1
          rw [hb] at this
          simp at this
      | cons y tail =>
        obtain ⟨hx, ho, ⟨hd, hh, hcode, hy⟩, hrest⟩ := isChain_cons hc
        have hh0 : readFileBlockHeader cfg (Buffer.ofBytes m0) (o : Int) = .ok hd := by
          rw [readFileBlockHeader_sameFrom hlen hsame (by omega) cfg]; exact hh
        have hy24 : y + 24 ≤ mem.length := by
          cases tail with
          | nil => exact (isChain_single hrest).2.1
          | cons z t => exact (isChain_cons hrest).2.1
        have hrange := readUint32_range (readFileBlockHeader_ok hh).1
        have hbl : (toUint32 hd.bodyLength : Int) = hd.bodyLength :=
          toUint32_eq_self hrange.1 hrange.2 (by omega)
        cases hb : loopBody cfg args sdnaIndex ⟨m0, (o : Int), n0⟩ with
        | died e => rw [hb] at hloop; simp at hloop
        | done s2 =>
          obtain ⟨-, -, hnx, -⟩ := pass_at_block hh0 (Or.inl hb)
          have := (hnx hcode).1
          rw [hb] at this
          simp at this
        | next s2 =>
          rw [hb] at hloop
          obtain ⟨hl2, -, hnx, -, -⟩ := pass_at_block hh0 (Or.inr hb)
          have hoff := (hnx hcode).2
          have hfr := pass_at_block_frame hh0 (Or.inr hb) (fun _ => ⟨by omega, by omega⟩)
          have hsame2 : ∀ j : Nat, y ≤ j → s2.fileContent[j]? = mem[j]? := by
            intro j hj
            by_cases c : s2.fileContent[j]? = m0[j]?
            · rw [c]; exact hsame j (by omega)
            · obtain ⟨-, q, k, -, -, -, -, h1, h2⟩ := hfr j c
              omega
          obtain ⟨hl1, hbelow⟩ := ih y s2 f s1 hrest (by rw [hoff, hy]; push_cast; omega)
            (by rw [hl2]; exact hlen) hsame2 hloop
          refine ⟨hl1, fun j hj => ?_⟩
          rw [hbelow j (by omega)]
          by_contra c
          obtain ⟨-, q, k, -, -, -, h0, -, h2⟩ := hfr j c
          omega


/-! ## Converting back -/

/-- The block loop of the reverse conversion on the buffer a conversion left,
along a well-formed block sequence: it returns after the same passes, patches
as many blocks, and puts back the bytes of the file; and the loop of the same
conversion again calls `die` at the first block that was patched. -/
theorem reverse_chain (cfg : FileConfig) (args : Args) (sdnaIndex : Int) (mem : List Byte) (p : Nat)
    (hbound : mem.length < 2147483648) (hp : cfg.ptrSize = some p) (hp14 : p ≤ 14)
    (hnew0 : 0 ≤ args.newEnumType) (hnew1 : args.newEnumType < 2147483648)
    (hne : args.oldEnumType ≠ args.newEnumType) :
    ∀ (chain : List Nat) (o : Nat) (s t : ScanState) (fuel : Nat) (s1 : ScanState),
      isChain cfg mem o chain = true →
      (∀ x ∈ chain, ∀ h, readFileBlockHeader cfg (Buffer.ofBytes mem) (x : Int) = .ok h →
        eligible h sdnaIndex = true → 96 ≤ h.bodyLength) →
      s.offset = (o : Int) → s.fileContent.length = mem.length →
      (∀ j : Nat, o ≤ j → s.fileContent[j]? = mem[j]?) →
      loop cfg args sdnaIndex fuel s = some (.ok s1) →
      t.offset = (o : Int) → t.fileContent.length = mem.length →
      (∀ j : Nat, o ≤ j → t.fileContent[j]? = s1.fileContent[j]?) →
      ∃ t1, loop cfg (swapEnums args) sdnaIndex fuel t = some (.ok t1) ∧
        t1.numBlocksPatched + s.numBlocksPatched = t.numBlocksPatched + s1.numBlocksPatched ∧
        t1.fileContent.length = mem.length ∧
        (∀ j : Nat, o ≤ j → t1.fileContent[j]? = mem[j]?) ∧
        (∀ j : Nat, j < o → t1.fileContent[j]? = t.fileContent[j]?) ∧
        (s.numBlocksPatched < s1.numBlocksPatched →
          loop cfg args sdnaIndex fuel t = some (.error .unexpectedEnumType)) := by
  have htw : twice cfg.ptrSize = some (2 * (p : Int)) := by rw [hp]; rfl
  intro chain
  induction chain with
  | nil => intro o s t fuel s1 hc; simp [isChain] at hc
  | cons x rest ih =>
    intro o s t fuel s1 hc h96 hso hlen hsame hloop hto htlen htsame
    obtain ⟨m0, off0, n0⟩ := s
    obtain ⟨tm, toff, tn⟩ := t
    dsimp only at hso hlen hsame hto htlen htsame ⊢
    subst hso
    subst hto
    cases fuel with
    | zero => exact (loop_zero_ne hloop).elim
    | succ f =>
      simp only [loop] at hloop
      cases rest with
      | nil =>
        obtain ⟨hx, ho, hd, hh, hcode⟩ := isChain_single hc
        have hh0 : readFileBlockHeader cfg (Buffer.ofBytes m0) (o : Int) = .ok hd := by
          rw [readFileBlockHeader_sameFrom hlen hsame (by omega) cfg]; exact hh
        have he := not_eligible_of_endb sdnaIndex hcode
        have hb : loopBody cfg args sdnaIndex ⟨m0, (o : Int), n0⟩ = .done ⟨m0, (o : Int), n0⟩ := by
          rw [loopBody_not_eligible (s := ⟨m0, (o : Int), n0⟩) args hh0 he, if_pos hcode]
        rw [hb] at hloop
        simp only [Option.some.injEq, Except.ok.injEq] at hloop
        subst hloop
        dsimp only at htsame ⊢
        have hht : readFileBlockHeader cfg (Buffer.ofBytes tm) (o : Int) = .ok hd := by
          rw [readFileBlockHeader_sameFrom (htlen.trans hlen.symm) htsame (by omega) cfg]
          exact hh0
        have hbt : loopBody cfg (swapEnums args) sdnaIndex ⟨tm, (o : Int), tn⟩ =
            .done ⟨tm, (o : Int), tn⟩ := by
          rw [loopBody_not_eligible (s := ⟨tm, (o : Int), tn⟩) (swapEnums args) hht he, if_pos hcode]
        refine ⟨⟨tm, (o : Int), tn⟩, ?_, ?_, htlen, ?_, fun j _ => rfl, ?_⟩
        · simp only [loop, hbt]
        · rfl
        · intro j hj
          rw [htsame j hj]; exact hsame j hj
        · intro hlt; exact absurd hlt (Nat.lt_irrefl _)
      | cons y tail =>
        obtain ⟨hx, ho, ⟨hd, hh, hcode, hy⟩, hrest⟩ := isChain_cons hc
        have hh0 : readFileBlockHeader cfg (Buffer.ofBytes m0) (o : Int) = .ok hd := by
          rw [readFileBlockHeader_sameFrom hlen hsame (by omega) cfg]; exact hh
        have hy24 : y + 24 ≤ mem.length := by
          cases tail with
          | nil => exact (isChain_single hrest).2.1
          | cons z t => exact (isChain_cons hrest).2.1
        have hrange := readUint32_range (readFileBlockHeader_ok hh).1
        have hbl : (toUint32 hd.bodyLength : Int) = hd.bodyLength :=
          toUint32_eq_self hrange.1 hrange.2 (by omega)
        obtain ⟨-, -, -, -, hlen24, habs⟩ := readFileBlockHeader_ok hh
        have hnext : hd.absoluteBodyOffset + hd.bodyLength = (y : Int) := by
          rw [habs, hy]; push_cast; omega
        have h96t : ∀ x ∈ y :: tail, ∀ h,
            readFileBlockHeader cfg (Buffer.ofBytes mem) (x : Int) = .ok h →
            eligible h sdnaIndex = true → 96 ≤ h.bodyLength :=
          fun x hx => h96 x (List.mem_cons_of_mem _ hx)
        cases hb : loopBody cfg args sdnaIndex ⟨m0, (o : Int), n0⟩ with
        | died e => rw [hb] at hloop; simp at hloop
        | done s2 =>
          obtain ⟨-, -, hnx, -⟩ := pass_at_block hh0 (Or.inl hb)
          have := (hnx hcode).1
          rw [hb] at this
          simp at this
        | next s2 =>
          rw [hb] at hloop
          obtain ⟨hl2, -, hnx, hnel, hel⟩ := pass_at_block hh0 (Or.inr hb)
          have hoffy : s2.offset = (y : Int) := by
            rw [(hnx hcode).2, hy]; push_cast; omega
          have hfr := pass_at_block_frame hh0 (Or.inr hb) (fun _ => ⟨by omega, by omega⟩)
          have hsame2 : ∀ j : Nat, y ≤ j → s2.fileContent[j]? = mem[j]? := by
            intro j hj
            by_cases c : s2.fileContent[j]? = m0[j]?
            · rw [c]; exact hsame j (by omega)
            · obtain ⟨-, q, k, -, -, -, -, h1, h2⟩ := hfr j c
              omega
          obtain ⟨hl1, hbelow⟩ := loop_chain_below cfg args sdnaIndex mem hbound (y :: tail) y s2 f s1
            hrest hoffy (hl2.trans hlen) hsame2 hloop
          have hts2 : ∀ j : Nat, o ≤ j → j < y + 24 → tm[j]? = s2.fileContent[j]? :=
            fun j h1 h2 => (htsame j h1).trans (hbelow j h2)
          have hht : readFileBlockHeader cfg (Buffer.ofBytes tm) (o : Int) = .ok hd := by
            rw [@readFileBlockHeader_window tm m0 o (htlen.trans hlen.symm) ?_ cfg]
            · exact hh0
            · intro j h1 h2
              rw [hts2 j h1 (by omega)]
              by_contra c
              obtain ⟨-, q, k, -, -, -, h0, -, h2'⟩ := hfr j c
              omega
          cases he : eligible hd sdnaIndex with
          | false =>
            obtain ⟨hfc, hn2⟩ := hnel he
            have hbt : loopBody cfg (swapEnums args) sdnaIndex ⟨tm, (o : Int), tn⟩ =
                .next ⟨tm, (y : Int), tn⟩ := by
              rw [loopBody_not_eligible (s := ⟨tm, (o : Int), tn⟩) (swapEnums args) hht he, if_neg hcode,
                hnext]
            have hbt2 : loopBody cfg args sdnaIndex ⟨tm, (o : Int), tn⟩ =
                .next ⟨tm, (y : Int), tn⟩ := by
              rw [loopBody_not_eligible (s := ⟨tm, (o : Int), tn⟩) args hht he, if_neg hcode, hnext]
            obtain ⟨t1, hl, hcnt, hlen1, hfrom, hbel, herr⟩ := ih y s2 ⟨tm, (y : Int), tn⟩ f s1
              hrest h96t hoffy (hl2.trans hlen) hsame2 hloop rfl htlen
              (fun j hj => htsame j (by omega))
            dsimp only at hcnt hbel herr
            refine ⟨t1, ?_, ?_, hlen1, ?_, ?_, ?_⟩
            · simp only [loop]; rw [hbt]; exact hl
            · dsimp only; rw [hn2] at hcnt; exact hcnt
            · intro j hj
              by_cases c : y ≤ j
              · exact hfrom j c
              · rw [hbel j (by omega), hts2 j hj (by omega), hfc]
                exact hsame j hj
            · intro j hj
              exact hbel j (by omega)
            · intro hlt
              simp only [loop]
              rw [hbt2]
              exact herr (by rw [hn2]; exact hlt)
          | true =>
            have h96x : 96 ≤ hd.bodyLength := h96 o (by rw [hx]; exact List.mem_cons_self _ _) hd hh he
            obtain ⟨hn2, hname, henum, hw⟩ := hel he (by omega) (by omega)
            rw [htw] at henum hw
            have hend := endian_of_header_ok hh
            have hL : (hd.bodyLength.toNat : Int) = hd.bodyLength := by omega
            -- the value the reverse conversion reads
            obtain ⟨b1, hw1, hr1⟩ := readUint32_writeUint32 cfg
              ⟨m0, o + 24, hd.bodyLength.toNat⟩ (2 * (p : Int)) args.newEnumType hend
              (by dsimp only; omega) (by omega) (by dsimp only; omega)
            rw [hw] at hw1
            simp only [Except.ok.injEq] at hw1
            subst hw1
            rw [toInt32_of_small hnew0 hnew1] at hr1
            have hrt : readUint32 cfg ⟨tm, o + 24, hd.bodyLength.toNat⟩ (some (2 * (p : Int))) =
                .ok args.newEnumType := by
              rw [@readUint32_window ⟨tm, o + 24, hd.bodyLength.toNat⟩
                ⟨s2.fileContent, o + 24, hd.bodyLength.toNat⟩ rfl rfl cfg (2 * (p : Int)) ?_]
              · exact hr1
              · intro j h1 h2
                dsimp only at h1 h2 ⊢
                exact hts2 j (by omega) (by omega)
            have hnt : readString ⟨tm, o + 24, hd.bodyLength.toNat⟩ 32 64 = args.modifierName := by
              rw [@readString_window ⟨tm, o + 24, hd.bodyLength.toNat⟩
                ⟨m0, o + 24, hd.bodyLength.toNat⟩ rfl rfl 32 64 (by decide) (by decide) ?_]
              · exact hname
              · intro j h1 h2
                dsimp only at h1 h2 ⊢
                rw [hts2 j (by omega) (by omega)]
                by_contra c
                obtain ⟨-, q, k, hq, hk0, hk4, h0, -, hj⟩ := hfr j c
                rw [htw] at hq
                simp only [Option.some.injEq] at hq
                omega
            obtain ⟨bt, hwt⟩ := writeUint32_ok_of_endian hend
              ⟨tm, o + 24, hd.bodyLength.toNat⟩ (some (2 * (p : Int))) args.oldEnumType
            have hvt := bodyView_eq tm o tn hd hlen24 (by omega) (by omega)
            have hbt : loopBody cfg (swapEnums args) sdnaIndex ⟨tm, (o : Int), tn⟩ =
                .next ⟨bt.mem, (y : Int), tn + 1⟩ := by
              rw [← hnext]
              exact loopBody_eligible (s := ⟨tm, (o : Int), tn⟩) (swapEnums args) hht he
                (by rw [hvt]; exact hnt)
                (by rw [hvt, htw]; exact hrt) (by rw [hvt, htw]; exact hwt)
            obtain ⟨btl, -, -, btf⟩ := writeUint32_frame hwt
            dsimp only at btl btf
            have hnoop := writeUint32_of_readUint32 cfg ⟨m0, o + 24, hd.bodyLength.toNat⟩
              (some (2 * (p : Int))) args.oldEnumType henum
            have hrestore : ∀ j : Nat, o ≤ j → j < y → bt.mem[j]? = m0[j]? := by
              intro j h1 h2
              refine writeUint32_congr (b := ⟨tm, o + 24, hd.bodyLength.toNat⟩)
                (c := ⟨m0, o + 24, hd.bodyLength.toNat⟩) rfl rfl (htlen.trans hlen.symm) hwt hnoop
                j ?_
              by_cases c : s2.fileContent[j]? = m0[j]?
              · left
                dsimp only
                rw [hts2 j h1 (by omega)]; exact c
              · right
                obtain ⟨-, -, -, hf⟩ := writeUint32_frame hw
                exact hf j c
            have hbtsame : ∀ j : Nat, (j < o + 24 ∨ y ≤ j) → bt.mem[j]? = tm[j]? := by
              intro j hj
              by_contra c
              obtain ⟨q, k, hq, hk0, hk4, h0, h1, h2⟩ := btf j c
              omega
            obtain ⟨t1, hl, hcnt, hlen1, hfrom, hbel, -⟩ := ih y s2 ⟨bt.mem, (y : Int), tn + 1⟩ f s1
              hrest h96t hoffy (hl2.trans hlen) hsame2 hloop rfl (btl.trans htlen)
              (fun j hj => (hbtsame j (Or.inr hj)).trans (htsame j (by omega)))
            dsimp only at hcnt hbel
            refine ⟨t1, ?_, ?_, hlen1, ?_, ?_, ?_⟩
            · simp only [loop]; rw [hbt]; exact hl
            · dsimp only; omega
            · intro j hj
              by_cases c : y ≤ j
              · exact hfrom j c
              · rw [hbel j (by omega), hrestore j hj (by omega)]
                exact hsame j hj
            · intro j hj
              rw [hbel j (by omega)]
              exact hbtsame j (Or.inl (by omega))
            · intro _
              have hm : mismatch cfg args ⟨tm, (o : Int), tn⟩ hd := by
                unfold mismatch
                right
                rw [hvt, htw, hrt]
                intro hc
                simp only [Except.ok.injEq] at hc
                exact hne hc.symm
              have hd1 := loopBody_died_of_mismatch (s := ⟨tm, (o : Int), tn⟩) hht he hm
              rw [hvt, if_neg (by rw [hnt]; exact fun hc => hc rfl)] at hd1
              simp only [loop]
              rw [hd1]


theorem ptrSize_cases {key : Option Byte} {p : Nat} (h : PTR_SIZE_BYTE_LEN key = some p) :
    p = 4 ∨ p = 8 := by
  unfold PTR_SIZE_BYTE_LEN at h
  split_ifs at h
  · simp only [Option.some.injEq] at h; exact Or.inl h.symm
  · simp only [Option.some.injEq] at h; exact Or.inr h.symm

/-- The header read from two files that agree in their first 12 bytes. -/
theorem readHeader_congr {m m1 : List Byte} (h : ∀ j : Nat, j < 12 → m1[j]? = m[j]?) :
    readHeader (Buffer.ofBytes m1) (Buffer.ofBytes m1) HEADER_OFFSET =
      readHeader (Buffer.ofBytes m) (Buffer.ofBytes m) HEADER_OFFSET := by
  have ht : m1.take 7 = m.take 7 := by
    apply List.ext_getElem?
    intro k
    by_cases c : k < 7
    · rw [List.getElem?_take_of_lt c, List.getElem?_take_of_lt c]
      exact h k (by omega)
    · rw [List.getElem?_take_eq_none (by omega), List.getElem?_take_eq_none (by omega)]
  rw [readHeader_eq, readHeader_eq, ht, h 7 (by decide), h 8 (by decide)]

/-- C18: take a file of less than 2^31 bytes with a valid header (its
pointer-size marker is one of the two of the table) whose blocks from offset
12 on are a well-formed sequence up to an `ENDB` block, in which the body of
every eligible block is at least 96 bytes long, and enum values `old ≠ new`
with `0 ≤ new < 2^31`. When the run with `(old, new)` completes and leaves the
buffer `B'`, the run on `B'` with `(new, old)`, same name and same looked-up
SDNA index, completes with the same fuel, patches the same number of blocks
and leaves a buffer equal to the file, byte for byte; and when at least one
block was patched, the run on `B'` with `(old, new)` again ends in `die` with
the enum type error. -/
theorem patch_is_reversible (fuel : Nat) (args : Args) (fileContent : List Byte)
    (dna1 : Dna1Body) (cfg : FileConfig) (chain : List Nat) (r : RunResult)
    (hcfg : readHeader (Buffer.ofBytes fileContent) (Buffer.ofBytes fileContent) HEADER_OFFSET
      = .ok cfg)
    (hptr : cfg.ptrSize ≠ none)
    (hbound : fileContent.length < 2147483648)
    (hchain : isChain cfg fileContent 12 chain = true)
    (hlong : ∀ o ∈ chain, bodyLong cfg
      (lookupSdnaIndexForModifierDataStruct dna1 args.modifierDataTypeName) fileContent o = true)
    (hnew : 0 ≤ args.newEnumType ∧ args.newEnumType < 2147483648)
    (hne : args.oldEnumType ≠ args.newEnumType)
    (hrun : main fuel args fileContent dna1 = some (.ok r)) :
    (∃ r1, main fuel (swapEnums args) r.fileContent dna1 = some (.ok r1) ∧
      r1.numBlocksPatched = r.numBlocksPatched ∧ r1.fileContent = fileContent) ∧
    (0 < r.numBlocksPatched →
      main fuel args r.fileContent dna1 = some (.error .unexpectedEnumType)) := by
  obtain ⟨cfg1, s1, hcfg1, hloop, hr⟩ := main_ok hrun
  rw [hcfg] at hcfg1
  simp only [Except.ok.injEq] at hcfg1
  subst hcfg1
  have hfc : r.fileContent = s1.fileContent := by
    subst hr; unfold finalize; split <;> rfl
  have hn : r.numBlocksPatched = s1.numBlocksPatched := by
    subst hr; unfold finalize; split <;> rfl
  obtain ⟨p, hp⟩ : ∃ p, cfg.ptrSize = some p := by
    cases hps : cfg.ptrSize with
    | none => exact absurd hps hptr
    | some p => exact ⟨p, rfl⟩
  have hp14 : p ≤ 14 := by
    have hc := hcfg
    rw [readHeader_eq] at hc
    split_ifs at hc
    simp only [Except.ok.injEq] at hc
    rw [← hc] at hp
    rcases ptrSize_cases hp with h | h <;> omega
  have h96 : ∀ x ∈ chain, ∀ h,
      readFileBlockHeader cfg (Buffer.ofBytes fileContent) (x : Int) = .ok h →
      eligible h (lookupSdnaIndexForModifierDataStruct dna1 args.modifierDataTypeName) = true →
      96 ≤ h.bodyLength := by
    intro x hx h hh he
    have := hlong x hx
    unfold bodyLong at this
    rw [hh] at this
    simpa [he] using this
  obtain ⟨hl1, hbelow⟩ := loop_chain_below cfg args _ fileContent hbound chain 12
    (initialState fileContent) fuel s1 hchain rfl rfl (fun _ _ => rfl) hloop
  have hbelow12 : ∀ j : Nat, j < 12 → s1.fileContent[j]? = fileContent[j]? :=
    fun j hj => hbelow j (by omega)
  have hcfg2 : readHeader (Buffer.ofBytes s1.fileContent) (Buffer.ofBytes s1.fileContent)
      HEADER_OFFSET = .ok cfg := by
    rw [readHeader_congr hbelow12]; exact hcfg
  obtain ⟨t1, hl, hcnt, hlen1, hfrom, hbel, herr⟩ := reverse_chain cfg args _ fileContent p hbound
    hp hp14 hnew.1 hnew.2 hne chain 12 (initialState fileContent) (initialState s1.fileContent)
    fuel s1 hchain h96 rfl rfl (fun _ _ => rfl) hloop rfl hl1 (fun _ _ => rfl)
  rw [hfc, hn]
  constructor
  · refine ⟨finalize (swapEnums args) t1, ?_, ?_, ?_⟩
    · unfold main
      rw [hcfg2]
      dsimp only
      have hname : (swapEnums args).modifierDataTypeName = args.modifierDataTypeName := rfl
      rw [hname, hl]
    · have : (finalize (swapEnums args) t1).numBlocksPatched = t1.numBlocksPatched := by
        unfold finalize; split <;> rfl
      rw [this]
      have h0 : (initialState fileContent).numBlocksPatched = 0 := rfl
      have h1 : (initialState s1.fileContent).numBlocksPatched = 0 := rfl
      rw [h0, h1] at hcnt
      omega
    · have : (finalize (swapEnums args) t1).fileContent = t1.fileContent := by
        unfold finalize; split <;> rfl
      rw [this]
      apply List.ext_getElem?
      intro j
      by_cases c : 12 ≤ j
      · exact hfrom j c
      · rw [hbel j (by omega)]
        exact hbelow12 j (by omega)
  · intro hpos
    unfold main
    rw [hcfg2]
    dsimp only
    rw [herr hpos]

set_option maxRecDepth 100000 in
/-- C18 at the file `[DATA (struct 1), DATA (struct 0), DNA1, ENDB]` with the
enum values 3 and 7: the run with `(7, 3)` on the converted file gives the
file back, and the run with `(3, 7)` on it ends in `die`. -/
theorem patch_is_reversible_witness :
    main 4 exampleArgs fileMatchNonMatch exampleDna =
      some (.ok ⟨fileMatchNonMatchPatched, 1,
        some ("a_converted.blend", fileMatchNonMatchPatched)⟩) ∧
    (∃ r1, main 4 (swapEnums exampleArgs) fileMatchNonMatchPatched exampleDna = some (.ok r1) ∧
      r1.numBlocksPatched = 1 ∧ r1.fileContent = fileMatchNonMatch) ∧
    main 4 exampleArgs fileMatchNonMatchPatched exampleDna =
      some (.error .unexpectedEnumType) := by
  have hrun : main 4 exampleArgs fileMatchNonMatch exampleDna =
      some (.ok ⟨fileMatchNonMatchPatched, 1,
        some ("a_converted.blend", fileMatchNonMatchPatched)⟩) := by decide
  have h := patch_is_reversible 4 exampleArgs fileMatchNonMatch exampleDna cfgLE64
    [12, 132, 252, 420] _ (by decide) (by decide) (by decide) (by decide) (by decide)
    (by decide) (by decide) hrun
  exact ⟨hrun, h.1, h.2 (by decide)⟩

end BlModconv
